import Mathlib

/-!
Verification development for the automatic layout engine of IdeaNode
(`src/client/src/utils/autoArrange.ts`).

Modelling conventions, applied uniformly:

* IEEE doubles are a subset of the rationals, so every numeric value is
  modelled as a `ℚ`.  The four float library routines the engine calls
  (`Math.sqrt`, `Math.cos`, `Math.sin`, `Math.random`, plus the literal
  `Math.PI`) are not rational-valued functions; they are abstracted as an
  explicit `Ops` parameter threaded through every definition, so a theorem
  quantifying over `Ops` (possibly under stated bounds on `Ops.sqrt`)
  covers the behaviour of the actual float routines.
* A JS `Map` is an insertion-ordered dictionary.  It is modelled by
  `JMap`: the list of keys in insertion order plus a total value
  assignment, which is only ever read at present keys (the TypeScript
  code reads `get(k)!` only after having stored `k`, or guards the read).
* A JS `Set` of strings is modelled as a duplicate-free `List String` in
  insertion order (`addUniq`).
* In-place mutation becomes explicit state passing; `while` loops and
  recursion become structural recursion on an explicit fuel that matches
  the source's own iteration caps (or a count that the source's loop
  cannot exceed).
-/

/-- A 2D point; models the `{ x, y }` position records of the source. -/
structure Pt where
  x : ℚ
  y : ℚ
deriving DecidableEq

instance : Inhabited Pt := ⟨⟨0, 0⟩⟩

/-- A size; models the `{ width, height }` records of the source. -/
structure Sz where
  width : ℚ
  height : ℚ
deriving DecidableEq

instance : Inhabited Sz := ⟨⟨0, 0⟩⟩

/-- Bounding box as computed by `computeBBox` in the source. -/
structure BBox where
  minX : ℚ
  minY : ℚ
  maxX : ℚ
  maxY : ℚ
  w : ℚ
  h : ℚ
deriving DecidableEq

/-- Abstraction of the float library: `Math.sqrt`, `Math.cos`, `Math.sin`,
`Math.PI`, and the pair of `Math.random()` draws made in the repulsion
step of the force simulation for node pair `(i, j)` at iteration `iter`
(field `jitter iter i j`).  The actual float routines realise one
particular `Ops`; theorems quantify over it. -/
structure Ops where
  sqrt : ℚ → ℚ
  cos : ℚ → ℚ
  sin : ℚ → ℚ
  pi : ℚ
  jitter : ℕ → ℕ → ℕ → Pt

/-- Model of a JS `Map`: keys in insertion order plus a total value
function.  Values are read only at keys that have been stored (matching
the source's use of `get(k)!` after a store, or a guarded `get`). -/
structure JMap (κ : Type) (α : Type) where
  keys : List κ
  val : κ → α

/-- The empty map (the default value is junk, never exposed by `get`). -/
def JMap.empty {κ α : Type} [Inhabited α] : JMap κ α := ⟨[], fun _ => default⟩

/-- `Map.has`. -/
def JMap.has {κ α : Type} [DecidableEq κ] (m : JMap κ α) (k : κ) : Bool :=
  m.keys.contains k

/-- `Map.get`: `none` models JS `undefined`. -/
def JMap.get {κ α : Type} [DecidableEq κ] (m : JMap κ α) (k : κ) : Option α :=
  if m.keys.contains k then some (m.val k) else none

/-- `Map.set`: stores a value; a new key is appended to the insertion
order, an existing key keeps its position. -/
def JMap.set {κ α : Type} [DecidableEq κ] (m : JMap κ α) (k : κ) (v : α) : JMap κ α :=
  ⟨if m.keys.contains k then m.keys else m.keys ++ [k], fun x => if x = k then v else m.val x⟩

/-- `Map.set` at a key that is already present (the caller has just read
it): the stored keys are unchanged, so this equals `JMap.set` there.  Used
to model the source's re-stores of existing entries. -/
def JMap.vset {κ α : Type} [DecidableEq κ] (m : JMap κ α) (k : κ) (v : α) : JMap κ α :=
  ⟨m.keys, fun x => if x = k then v else m.val x⟩

/-- Iteration over a JS `Map` yields entries in insertion order. -/
def JMap.entries {κ α : Type} (m : JMap κ α) : List (κ × α) :=
  m.keys.map (fun k => (k, m.val k))

/-- `Set.add` on the list model of a JS `Set`. -/
def addUniq {κ : Type} [DecidableEq κ] (s : List κ) (x : κ) : List κ :=
  if s.contains x then s else s ++ [x]

-- =============================================
-- Data model (`IdeaFlowNode` / `IdeaFlowEdge` / options / result)
-- =============================================

/-- The fields of an `IdeaFlowNode` read by the layout engine.
`nodeType` is the string `"idea"` or `"group"`. -/
structure FlowNode where
  id : String
  position : Pt
  parentId : Option String
  nodeType : String
  treeParentId : Option String
  groupId : Option String

/-- The fields of an `IdeaFlowEdge` read by the layout engine. -/
structure FlowEdge where
  id : String
  source : String
  target : String
  edgeType : Option String

/-- `ArrangeOptions` of the source. -/
structure ArrangeOptions where
  direction : String
  scope : String
  selectedNodeIds : Option (List String)
  viewport : Option Sz

/-- `LayoutResult` of the source. -/
structure LayoutResult where
  positions : JMap String Pt
  groupSizes : JMap String Sz
  edgeHandles : JMap String (String × String)
  nodeColors : JMap String String

-- =============================================
-- Constants
-- =============================================

def DEFAULT_NODE_WIDTH : ℚ := 180
def DEFAULT_NODE_HEIGHT : ℚ := 50
def DEFAULT_SIZE : Sz := ⟨DEFAULT_NODE_WIDTH, DEFAULT_NODE_HEIGHT⟩
def GROUP_PADDING : ℚ := 40
def GROUP_HEADER : ℚ := 30
def FD_CLUSTER_GAP : ℚ := 300

/-- `SimConfig` of the source. -/
structure SimConfig where
  iterations : ℕ
  repulsion : ℚ
  springK : ℚ
  idealLen : ℚ
  damping : ℚ
  maxVel : ℚ
  collisionPad : ℚ
  sizeWeightedRepulsion : Bool

def TOPLEVEL_SIM : SimConfig := ⟨400, 8000, 8/1000, 220, 9/10, 50, 40, true⟩
def FD_INIT_SPACING : ℚ := 200

def GROUP_SIM : SimConfig := ⟨300, 5000, 1/100, 160, 9/10, 40, 30, false⟩
def GI_INIT_SPACING : ℚ := 180

def RANK_CROSS_GROUP_BONUS : ℤ := 3

def RANK_TIERS : List (ℤ × String) :=
  [(10, "#1e293b"), (6, "#ef4444"), (5, "#ea580c"), (4, "#f59e0b"),
   (3, "#22c55e"), (2, "#8b5cf6")]
def RANK_DEFAULT_COLOR : String := "#3b82f6"

def GROUP_RANK_TIERS : List (ℤ × String) :=
  [(15, "#f59e0b"), (8, "#3b82f6"), (4, "#22c55e"), (2, "#8b5cf6")]
def GROUP_RANK_DEFAULT_COLOR : String := "#64748b"

-- =============================================
-- Edge handle utilities
-- =============================================

/-- `getHandlePoint` of the source. -/
def getHandlePoint (pos : Pt) (size : Sz) (handle : String) : Pt :=
  if handle = "top" then ⟨pos.x + size.width / 2, pos.y⟩
  else if handle = "bottom" then ⟨pos.x + size.width / 2, pos.y + size.height⟩
  else if handle = "left" then ⟨pos.x, pos.y + size.height / 2⟩
  else if handle = "right" then ⟨pos.x + size.width, pos.y + size.height / 2⟩
  else ⟨pos.x + size.width / 2, pos.y + size.height / 2⟩

def HANDLE_NAMES : List String := ["top", "bottom", "left", "right"]

/-- The 16 handle combinations in the traversal order of the source's
nested loops (source handle outer, target handle inner). -/
def handlePairs : List (String × String) :=
  (HANDLE_NAMES.map (fun sh => HANDLE_NAMES.map (fun th => (sh, th)))).flatten

/-- Squared distance between the two attachment points selected by a
handle combination (the source compares `dx*dx + dy*dy`). -/
def handleDistSq (srcPos : Pt) (srcSize : Sz) (tgtPos : Pt) (tgtSize : Sz)
    (p : String × String) : ℚ :=
  let sp := getHandlePoint srcPos srcSize p.1
  let tp := getHandlePoint tgtPos tgtSize p.2
  (tp.x - sp.x) * (tp.x - sp.x) + (tp.y - sp.y) * (tp.y - sp.y)

/-- The body of `getShortestHandles`' nested loops: keep the combination
with the strictly smallest squared distance seen so far (`none` as the
running best distance models the initial `Infinity`). -/
def shStep (srcPos : Pt) (srcSize : Sz) (tgtPos : Pt) (tgtSize : Sz)
    (st : Option ℚ × String × String) (p : String × String) :
    Option ℚ × String × String :=
  let dist := handleDistSq srcPos srcSize tgtPos tgtSize p
  match st.1 with
  | none => (some dist, p)
  | some bd => if dist < bd then (some dist, p) else st

/-- `getShortestHandles` of the source. -/
def getShortestHandles (srcPos : Pt) (srcSize : Sz) (tgtPos : Pt) (tgtSize : Sz) :
    String × String :=
  (handlePairs.foldl (shStep srcPos srcSize tgtPos tgtSize) (none, ("right", "left"))).2

-- =============================================
-- Geometry utilities (crossing detection / reduction)
-- =============================================

/-- `segmentsIntersect` of the source. -/
def segmentsIntersect (ax ay bx by_ cx cy dx dy : ℚ) : Bool :=
  let d1x := bx - ax
  let d1y := by_ - ay
  let d2x := dx - cx
  let d2y := dy - cy
  let denom := d1x * d2y - d1y * d2x
  if |denom| < 1 / 10000000000 then false
  else
    let t := ((cx - ax) * d2y - (cy - ay) * d2x) / denom
    let u := ((cx - ax) * d1y - (cy - ay) * d1x) / denom
    decide (t > 1/100 ∧ t < 99/100 ∧ u > 1/100 ∧ u < 99/100)

/-- Whether one edge pair is counted as a crossing by `countCrossings`:
edge pairs sharing an endpoint are skipped, as are pairs with a missing
center. -/
def crossingPair (centers : JMap String Pt) (e f : String × String) : Bool :=
  if e.1 = f.1 ∨ e.1 = f.2 ∨ e.2 = f.1 ∨ e.2 = f.2 then false
  else
    match centers.get e.1, centers.get e.2, centers.get f.1, centers.get f.2 with
    | some p1, some p2, some p3, some p4 =>
        segmentsIntersect p1.x p1.y p2.x p2.y p3.x p3.y p4.x p4.y
    | _, _, _, _ => false

/-- `countCrossings` of the source: the nested `i < j` loops count each
unordered pair of list positions once. -/
def countCrossings (centers : JMap String Pt) (edges : List (String × String)) : ℕ :=
  match edges with
  | [] => 0
  | e :: rest =>
      (rest.filter (fun f => crossingPair centers e f)).length + countCrossings centers rest

/-- All `i < j` index pairs of a list, in the source's traversal order. -/
def candPairs {α : Type} (l : List α) : List (α × α) :=
  match l with
  | [] => []
  | a :: rest => rest.map (fun b => (a, b)) ++ candPairs rest

/-- Swap the stored positions of two nodes (both present: the source
reads `get(a)!` / `get(b)!` before storing). -/
def swapPos (m : JMap String Pt) (a b : String) : JMap String Pt :=
  let pa := m.val a
  let pb := m.val b
  (m.vset a pb).vset b pa

/-- The inner double loop of a `reduceCrossingsBySwap` pass: find the swap
with the largest strictly positive crossing reduction (the first maximum
wins, since only a strictly larger reduction replaces the running best). -/
def findBestSwap (m : JMap String Pt) (edges : List (String × String))
    (base : ℕ) (cands : List String) : Option (String × String) × ℤ :=
  (candPairs cands).foldl
    (fun st p =>
      let reduction : ℤ := (base : ℤ) - (countCrossings (swapPos m p.1 p.2) edges : ℤ)
      if reduction > st.2 then (some p, reduction) else st)
    (none, 0)

/-- The pass loop of `reduceCrossingsBySwap` (`maxPasses` bounded; stops
when the crossing count is zero or no strictly improving swap exists). -/
def reduceCrossingsLoop (cands : List String) (edges : List (String × String)) :
    ℕ → JMap String Pt → Bool → JMap String Pt × Bool
  | 0, m, any => (m, any)
  | fuel + 1, m, any =>
      let base := countCrossings m edges
      if base = 0 then (m, any)
      else
        let s := findBestSwap m edges base cands
        if s.2 ≤ 0 then (m, any)
        else
          match s.1 with
          | none => (m, any)
          | some p => reduceCrossingsLoop cands edges fuel (swapPos m p.1 p.2) true

/-- `reduceCrossingsBySwap` of the source.  Returns the updated position
map together with the «did any swap happen» flag the source returns. -/
def reduceCrossingsBySwap (swappableIds : List String) (centerPos : JMap String Pt)
    (edges : List (String × String)) (maxPasses : ℕ) : JMap String Pt × Bool :=
  if edges.length < 2 ∨ swappableIds.length < 2 then (centerPos, false)
  else
    let edgeNodes := edges.foldl (fun s e => addUniq (addUniq s e.1) e.2) []
    let candidates := swappableIds.filter
      (fun id => edgeNodes.contains id && centerPos.has id)
    if candidates.length < 2 then (centerPos, false)
    else reduceCrossingsLoop candidates edges maxPasses centerPos false

-- =============================================
-- Graph / layout utilities
-- =============================================

/-- Lexicographic comparison of character lists by code point. -/
def charListLt : List Char → List Char → Bool
  | [], [] => false
  | [], _ :: _ => true
  | _ :: _, [] => false
  | a :: as, b :: bs =>
      if a.toNat < b.toNat then true
      else if b.toNat < a.toNat then false
      else charListLt as bs

/-- The JS `<` on strings: lexicographic by code unit (for the ASCII ids
of this code base this is plain code-point lexicographic order). -/
def strLt (a b : String) : Bool :=
  charListLt a.data b.data

/-- The `a|b` / `b|a` ordered de-duplication key used throughout the
source for an unordered pair of ids. -/
def pairKey (a b : String) : String :=
  if strLt a b then a ++ "|" ++ b else b ++ "|" ++ a

/-- `buildEdgeList` of the source: de-duplicated undirected edge list from
an adjacency map. -/
def buildEdgeList (adj : JMap String (List String)) (nodeIds : List String) :
    List (String × String) :=
  (nodeIds.foldl
    (fun (st : List String × List (String × String)) a =>
      ((adj.get a).getD []).foldl
        (fun (st : List String × List (String × String)) b =>
          let k := pairKey a b
          if st.1.contains k then st else (st.1 ++ [k], st.2 ++ [(a, b)]))
        st)
    ([], [])).2

/-- The body of `buildBfsTree`'s `while` loop; fuel bounds the number of
dequeues, which on the closed adjacency maps the source builds cannot
exceed the number of nodes. -/
def bfsLoop (adj : JMap String (List String)) :
    ℕ → List String → List String → JMap String (List String) →
    JMap String (List String)
  | 0, _, _, children => children
  | _ + 1, [], _, children => children
  | fuel + 1, cur :: queue, visited, children =>
      let st := ((adj.get cur).getD []).foldl
        (fun (st : List String × List String × JMap String (List String)) nb =>
          if st.2.1.contains nb then st
          else (st.1 ++ [nb], st.2.1 ++ [nb],
                st.2.2.vset cur ((st.2.2.val cur) ++ [nb])))
        (queue, visited, children)
      bfsLoop adj fuel st.1 st.2.1 st.2.2

/-- `buildBfsTree` of the source: the children lists of the BFS spanning
tree rooted at `hubId`. -/
def buildBfsTree (hubId : String) (adj : JMap String (List String))
    (nodeIds : List String) : JMap String (List String) :=
  let children := nodeIds.foldl (fun (m : JMap String (List String)) id => m.set id [])
    JMap.empty
  bfsLoop adj (nodeIds.length + 1) [hubId] [hubId] children

/-- The recursive `place` helper of `placeRadially`; fuel bounds the
recursion depth, which on a BFS tree cannot exceed the node count. -/
def placeRec (ops : Ops) (bfsChildren : JMap String (List String)) (spacing : ℚ) :
    ℕ → String → ℚ → ℚ → JMap String Pt → JMap String Pt
  | 0, _, _, _, centerPos => centerPos
  | fuel + 1, nodeId, angle, sector, centerPos =>
      let ch := (bfsChildren.get nodeId).getD []
      if ch.length = 0 then centerPos
      else
        let pp := centerPos.val nodeId
        (List.range ch.length).foldl
          (fun cp i =>
            match ch.get? i with
            | none => cp
            | some c =>
                let a := if ch.length = 1 then angle
                  else angle - sector / 2 + sector * ((i : ℚ) + 1/2) / (ch.length : ℚ)
                let cp := cp.set c ⟨pp.x + spacing * ops.cos a, pp.y + spacing * ops.sin a⟩
                placeRec ops bfsChildren spacing fuel c a
                  (sector / max (ch.length : ℚ) (3/2)) cp)
          centerPos

/-- `placeRadially` of the source. -/
def placeRadially (ops : Ops) (hubId : String) (bfsChildren : JMap String (List String))
    (centerPos : JMap String Pt) (spacing : ℚ) (fuel : ℕ) : JMap String Pt :=
  placeRec ops bfsChildren spacing fuel hubId 0 (2 * ops.pi) (centerPos.set hubId ⟨0, 0⟩)

/-- `computeBBox` of the source.  `none` models the untouched
`Infinity` initialisation (no point contributed). -/
def computeBBox (nodeIds : List String) (positions : JMap String Pt)
    (sizes : JMap String Sz) (centerCoords : Bool) : Option BBox :=
  let r := nodeIds.foldl
    (fun (st : Option (ℚ × ℚ × ℚ × ℚ)) id =>
      match positions.get id with
      | none => st
      | some p =>
          let sz := (sizes.get id).getD DEFAULT_SIZE
          let lo : ℚ × ℚ := if centerCoords then (p.x - sz.width / 2, p.y - sz.height / 2)
            else (p.x, p.y)
          let hi : ℚ × ℚ := if centerCoords then (p.x + sz.width / 2, p.y + sz.height / 2)
            else (p.x + sz.width, p.y + sz.height)
          match st with
          | none => some (lo.1, lo.2, hi.1, hi.2)
          | some (a, b, c, d) => some (min a lo.1, min b lo.2, max c hi.1, max d hi.2))
    none
  r.map (fun (a, b, c, d) => ⟨a, b, c, d, c - a, d - b⟩)

/-- One pair check of `resolveOverlaps`: push both centers apart when the
padded half-extents overlap on both axes. -/
def resolveOverlapsPair (ops : Ops) (nodeSizes : JMap String Sz) (pad : ℚ)
    (st : JMap String Pt × Bool) (p : String × String) : JMap String Pt × Bool :=
  let m := st.1
  match m.get p.1, m.get p.2 with
  | some pa, some pb =>
      let sA := (nodeSizes.get p.1).getD DEFAULT_SIZE
      let sB := (nodeSizes.get p.2).getD DEFAULT_SIZE
      let overlapX := (sA.width / 2 + sB.width / 2 + pad * 2) - |pa.x - pb.x|
      let overlapY := (sA.height / 2 + sB.height / 2 + pad * 2) - |pa.y - pb.y|
      if overlapX > 0 ∧ overlapY > 0 then
        let dx := pb.x - pa.x
        let dy := pb.y - pa.y
        let dist := ops.sqrt (dx * dx + dy * dy)
        let d : ℚ × ℚ × ℚ := if dist < 1/100 then (1, 0, 1) else (dx, dy, dist)
        let push := min overlapX overlapY / 2 + 2
        let m := m.vset p.1 ⟨pa.x - d.1 / d.2.2 * push, pa.y - d.2.1 / d.2.2 * push⟩
        let m := m.vset p.2 ⟨pb.x + d.1 / d.2.2 * push, pb.y + d.2.1 / d.2.2 * push⟩
        (m, true)
      else st
  | _, _ => st

/-- The iteration loop of `resolveOverlaps` (`maxIters` bounded, stops
when a full sweep found no overlap). -/
def resolveOverlapsLoop (ops : Ops) (nodeIds : List String)
    (nodeSizes : JMap String Sz) (pad : ℚ) :
    ℕ → JMap String Pt → JMap String Pt
  | 0, m => m
  | fuel + 1, m =>
      let st := (candPairs nodeIds).foldl (resolveOverlapsPair ops nodeSizes pad) (m, false)
      if st.2 then resolveOverlapsLoop ops nodeIds nodeSizes pad fuel st.1 else st.1

/-- `resolveOverlaps` of the source (default cap of 20 iterations). -/
def resolveOverlaps (ops : Ops) (nodeIds : List String) (centerPos : JMap String Pt)
    (nodeSizes : JMap String Sz) (pad : ℚ) : JMap String Pt :=
  resolveOverlapsLoop ops nodeIds nodeSizes pad 20 centerPos

-- =============================================
-- Force-directed simulation (shared core)
-- =============================================

/-- `i < j` index pairs with their elements, in the source's traversal
order (the indices feed the `Math.random` abstraction). -/
def idxPairs {α : Type} (l : List α) : List ((ℕ × α) × (ℕ × α)) :=
  candPairs l.enum

/-- One simulation step of `runForceSimulation` (repulsion, springs,
integration with cooling, AABB collision resolution, recentring).
Returns the new positions and velocities and the step's total kinetic
energy (summed before the collision damping, as in the source). -/
def simStep (ops : Ops) (nodeIds : List String) (edgeList : List (String × String))
    (nodeSizes : JMap String Sz) (config : SimConfig) (iter : ℕ)
    (cp : JMap String Pt) (vel : JMap String Pt) :
    JMap String Pt × JMap String Pt × ℚ :=
  let temp := max (5/100) (1 - (iter : ℚ) / (config.iterations : ℚ))
  let forces0 := nodeIds.foldl (fun (m : JMap String Pt) id => m.set id ⟨0, 0⟩) JMap.empty
  -- (a) repulsion over all pairs
  let forces := (idxPairs nodeIds).foldl
    (fun (fs : JMap String Pt) pr =>
      let a := pr.1.2
      let b := pr.2.2
      let pa := cp.val a
      let pb := cp.val b
      let dx0 := pb.x - pa.x
      let dy0 := pb.y - pa.y
      let dsq0 := dx0 * dx0 + dy0 * dy0
      let dxy : ℚ × ℚ := if dsq0 < 1 then
          let j := ops.jitter iter pr.1.1 pr.2.1
          ((j.x - 1/2) * 2, (j.y - 1/2) * 2)
        else (dx0, dy0)
      let distSq := if dsq0 < 1 then dxy.1 * dxy.1 + dxy.2 * dxy.2 else dsq0
      let dist := ops.sqrt distSq
      let rep0 := config.repulsion / distSq
      let repForce := if config.sizeWeightedRepulsion then
          let sA := (nodeSizes.get a).getD DEFAULT_SIZE
          let sB := (nodeSizes.get b).getD DEFAULT_SIZE
          rep0 * (1 + (max sA.width sA.height + max sB.width sB.height) / 200)
        else rep0
      let fx := dxy.1 / dist * repForce
      let fy := dxy.2 / dist * repForce
      let fa := fs.val a
      let fb := fs.val b
      ((fs.vset a ⟨fa.x - fx, fa.y - fy⟩).vset b ⟨fb.x + fx, fb.y + fy⟩))
    forces0
  -- (b) spring attraction over edges
  let forces := edgeList.foldl
    (fun (fs : JMap String Pt) e =>
      let pa := cp.val e.1
      let pb := cp.val e.2
      let dx := pb.x - pa.x
      let dy := pb.y - pa.y
      let dist := ops.sqrt (dx * dx + dy * dy)
      if dist < 1/10 then fs
      else
        let springF := config.springK * (dist - config.idealLen)
        let fx := dx / dist * springF
        let fy := dy / dist * springF
        let fa := fs.val e.1
        let fb := fs.val e.2
        ((fs.vset e.1 ⟨fa.x + fx, fa.y + fy⟩).vset e.2 ⟨fb.x - fx, fb.y - fy⟩))
    forces
  -- (c) velocity / position update with cooling
  let st := nodeIds.foldl
    (fun (st : JMap String Pt × JMap String Pt × ℚ) id =>
      let f := forces.val id
      let v0 := vel.val id
      let vx := (v0.x + f.x) * config.damping
      let vy := (v0.y + f.y) * config.damping
      let maxV := config.maxVel * temp
      let speed := ops.sqrt (vx * vx + vy * vy)
      let v : ℚ × ℚ := if speed > maxV then (vx / speed * maxV, vy / speed * maxV)
        else (vx, vy)
      let p := st.1.val id
      (st.1.vset id ⟨p.x + v.1, p.y + v.2⟩, st.2.1.vset id ⟨v.1, v.2⟩,
       st.2.2 + (v.1 * v.1 + v.2 * v.2)))
    (cp, vel, 0)
  -- (d) AABB collision resolution
  let st2 := (candPairs nodeIds).foldl
    (fun (st : JMap String Pt × JMap String Pt) p =>
      let pa := st.1.val p.1
      let pb := st.1.val p.2
      let sA := (nodeSizes.get p.1).getD DEFAULT_SIZE
      let sB := (nodeSizes.get p.2).getD DEFAULT_SIZE
      let hwA := sA.width / 2 + config.collisionPad
      let hhA := sA.height / 2 + config.collisionPad
      let hwB := sB.width / 2 + config.collisionPad
      let hhB := sB.height / 2 + config.collisionPad
      let overlapX := (hwA + hwB) - |pa.x - pb.x|
      let overlapY := (hhA + hhB) - |pa.y - pb.y|
      if overlapX > 0 ∧ overlapY > 0 then
        let dx0 := pb.x - pa.x
        let dy0 := pb.y - pa.y
        let dist0 := ops.sqrt (dx0 * dx0 + dy0 * dy0)
        let d : ℚ × ℚ × ℚ := if dist0 < 1/100 then (1, 0, 1) else (dx0, dy0, dist0)
        let push := max overlapX overlapY * (6/10) + 5
        let px := d.1 / d.2.2 * push
        let py := d.2.1 / d.2.2 * push
        let cp' := (st.1.vset p.1 ⟨pa.x - px, pa.y - py⟩).vset p.2 ⟨pb.x + px, pb.y + py⟩
        let vA := st.2.val p.1
        let vB := st.2.val p.2
        (cp', (st.2.vset p.1 ⟨vA.x * (1/2), vA.y * (1/2)⟩).vset p.2 ⟨vB.x * (1/2), vB.y * (1/2)⟩)
      else st)
    (st.1, st.2.1)
  -- (e) recentring on the centroid
  let csum := nodeIds.foldl
    (fun (c : ℚ × ℚ) id => let p := st2.1.val id; (c.1 + p.x, c.2 + p.y)) (0, 0)
  let cx := csum.1 / (nodeIds.length : ℚ)
  let cy := csum.2 / (nodeIds.length : ℚ)
  let cp' := nodeIds.foldl
    (fun (m : JMap String Pt) id => let p := m.val id; m.vset id ⟨p.x - cx, p.y - cy⟩)
    st2.1
  (cp', st2.2, st.2.2)

/-- The iteration loop of `runForceSimulation`, with the early exit once
total kinetic energy is below 0.5 after more than 50 steps. -/
def simLoop (ops : Ops) (nodeIds : List String) (edgeList : List (String × String))
    (nodeSizes : JMap String Sz) (config : SimConfig) :
    ℕ → ℕ → JMap String Pt → JMap String Pt → JMap String Pt
  | 0, _, cp, _ => cp
  | fuel + 1, iter, cp, vel =>
      let r := simStep ops nodeIds edgeList nodeSizes config iter cp vel
      if r.2.2 < 1/2 ∧ iter > 50 then r.1
      else simLoop ops nodeIds edgeList nodeSizes config fuel (iter + 1) r.1 r.2.1

/-- `runForceSimulation` of the source. -/
def runForceSimulation (ops : Ops) (nodeIds : List String) (centerPos : JMap String Pt)
    (edgeList : List (String × String)) (nodeSizes : JMap String Sz)
    (config : SimConfig) : JMap String Pt :=
  let vel := nodeIds.foldl (fun (m : JMap String Pt) id => m.set id ⟨0, 0⟩) JMap.empty
  simLoop ops nodeIds edgeList nodeSizes config config.iterations 0 centerPos vel

-- =============================================
-- Group-internal mini layout
-- =============================================

/-- Return type of `computeGroupInternalLayout`. -/
structure GroupLayout where
  memberPositions : JMap String Pt
  width : ℚ
  height : ℚ

/-- Stage A of `computeGroupInternalLayout`: the member adjacency graph
(tree links plus de-duplicated crosslinks restricted to the member set). -/
def giAdj (members : List FlowNode) (allEdges : List FlowEdge) :
    JMap String (List String) :=
  let memberSet := members.map FlowNode.id
  let memberIds := members.map FlowNode.id
  let adj0 := memberIds.foldl (fun (m : JMap String (List String)) id => m.set id [])
    JMap.empty
  let adj1 := members.foldl
    (fun (adj : JMap String (List String)) m =>
      match m.treeParentId with
      | some p =>
          if memberSet.contains p then
            let adj := adj.vset m.id (addUniq (adj.val m.id) p)
            adj.vset p (addUniq (adj.val p) m.id)
          else adj
      | none => adj)
    adj0
  (allEdges.foldl
    (fun (st : JMap String (List String) × List String) e =>
      if ¬ memberSet.contains e.source ∨ ¬ memberSet.contains e.target ∨
          e.source = e.target then st
      else
        let key := pairKey e.source e.target
        if st.2.contains key then st
        else
          let adj := st.1.vset e.source (addUniq (st.1.val e.source) e.target)
          let adj := adj.vset e.target (addUniq (adj.val e.target) e.source)
          (adj, st.2 ++ [key]))
    (adj1, [])).1

/-- Stage B of `computeGroupInternalLayout`: hub detection (max degree,
ties prefer parentless members). -/
def giHub (members : List FlowNode) (adj : JMap String (List String)) : String :=
  let memberIds := members.map FlowNode.id
  memberIds.foldl
    (fun hub id =>
      let hubDeg := (adj.val hub).length
      let idDeg := (adj.val id).length
      if idDeg > hubDeg then id
      else if idDeg = hubDeg then
        let hubHasParent := (members.find? (fun m => m.id = hub)).bind FlowNode.treeParentId
        let idHasParent := (members.find? (fun m => m.id = id)).bind FlowNode.treeParentId
        if idHasParent.isNone ∧ hubHasParent.isSome then id else hub
      else hub)
    (memberIds.headD "")

/-- Stage C of `computeGroupInternalLayout`: BFS radial seeding plus the
circle placement of members the BFS did not reach. -/
def giSeed (ops : Ops) (members : List FlowNode) (adj : JMap String (List String)) :
    JMap String Pt :=
  let memberIds := members.map FlowNode.id
  let hubId := giHub members adj
  let bfsChildren := buildBfsTree hubId adj memberIds
  let centerPos := placeRadially ops hubId bfsChildren JMap.empty GI_INIT_SPACING
    (memberIds.length + 1)
  (memberIds.foldl
    (fun (st : JMap String Pt × ℕ) id =>
      if st.1.has id then st
      else
        let denom := max 1
          ((memberIds.length : ℚ) - (st.1.keys.length : ℚ) + (st.2 : ℚ) + 1)
        let angle := 2 * ops.pi * (st.2 : ℚ) / denom
        (st.1.set id ⟨GI_INIT_SPACING * 2 * ops.cos angle,
                      GI_INIT_SPACING * 2 * ops.sin angle⟩, st.2 + 1))
    (centerPos, 0)).1

/-- Stages A–E of `computeGroupInternalLayout`: the simulated,
crossing-reduced member center positions. -/
def giCenterPos (ops : Ops) (members : List FlowNode) (nodeSizes : JMap String Sz)
    (allEdges : List FlowEdge) : JMap String Pt :=
  let memberIds := members.map FlowNode.id
  let adj := giAdj members allEdges
  let centerPos := giSeed ops members adj
  let edgeList := buildEdgeList adj memberIds
  let centerPos := runForceSimulation ops memberIds centerPos edgeList nodeSizes GROUP_SIM
  let rc := reduceCrossingsBySwap memberIds centerPos edgeList 15
  if rc.2 then resolveOverlaps ops memberIds rc.1 nodeSizes GROUP_SIM.collisionPad
  else rc.1

/-- `computeGroupInternalLayout` of the source (stage F on top of the
staged center positions: bounding box and normalisation into the
group-local frame). -/
def computeGroupInternalLayout (ops : Ops) (members : List FlowNode)
    (nodeSizes : JMap String Sz) (allEdges : List FlowEdge) : GroupLayout :=
  if members.length = 0 then ⟨JMap.empty, 300, 200⟩
  else
    let memberIds := members.map FlowNode.id
    let centerPos := giCenterPos ops members nodeSizes allEdges
    match computeBBox memberIds centerPos nodeSizes true with
    | none => ⟨JMap.empty, 300, 200⟩
    | some bb =>
        let memberPositions := memberIds.foldl
          (fun (mp : JMap String Pt) id =>
            let p := centerPos.val id
            let sz := (nodeSizes.get id).getD DEFAULT_SIZE
            mp.set id ⟨(p.x - sz.width / 2) - bb.minX + GROUP_PADDING,
                       (p.y - sz.height / 2) - bb.minY + GROUP_PADDING + GROUP_HEADER⟩)
          JMap.empty
        ⟨memberPositions, bb.w + GROUP_PADDING * 2, bb.h + GROUP_PADDING * 2 + GROUP_HEADER⟩

instance : Inhabited GroupLayout := ⟨⟨JMap.empty, 0, 0⟩⟩

-- =============================================
-- Main layout: scope selection and tree structure
-- =============================================

/-- Step 1 of `computeAutoLayout`: the target id set.  In selection scope
the source iterates over a snapshot of the initial selection and grows the
set (selecting a group pulls in its members; selecting a member pulls in
its group and siblings). -/
def computeTargetIds (nodes : List FlowNode) (nodeMap : JMap String FlowNode)
    (options : ArrangeOptions) : List String :=
  match options.selectedNodeIds with
  | some sel =>
      if options.scope = "selection" then
        let t0 := sel.foldl addUniq []
        t0.foldl
          (fun t id =>
            match nodeMap.get id with
            | none => t
            | some node =>
                if node.nodeType = "group" then
                  nodes.foldl (fun t n => if n.groupId = some id then addUniq t n.id else t) t
                else
                  match node.groupId with
                  | some gid =>
                      let t := addUniq t gid
                      nodes.foldl
                        (fun t n => if n.groupId = some gid then addUniq t n.id else t) t
                  | none => t)
          t0
      else nodes.foldl (fun t n => addUniq t n.id) []
  | none => nodes.foldl (fun t n => addUniq t n.id) []

/-- Step 2 of `computeAutoLayout`: the `childrenMap` over effective tree
parents (a parent outside the target set counts as absent, keyed `none`). -/
def buildChildrenMap (ideaNodes : List FlowNode) (targetIds : List String) :
    JMap (Option String) (List String) :=
  ideaNodes.foldl
    (fun (m : JMap (Option String) (List String)) n =>
      let effectiveParent := match n.treeParentId with
        | some p => if targetIds.contains p then some p else none
        | none => none
      m.set effectiveParent (((m.get effectiveParent).getD []) ++ [n.id]))
    JMap.empty

-- =============================================
-- Radial mode, stage C: virtual adjacency (group contraction)
-- =============================================

/-- On-demand creation of a virtual node's (empty) neighbour set, as done
by the tree-edge loop of the source. -/
def vAdjEnsure (m : JMap String (List String)) (k : String) : JMap String (List String) :=
  if m.has k then m else m.set k []

/-- Undirected insertion of one contracted edge into the virtual
adjacency (a `Set.add` on each endpoint's neighbour set). -/
def vAdjInsertPair (m : JMap String (List String)) (a b : String) :
    JMap String (List String) :=
  let m := m.vset a (addUniq (m.val a) b)
  m.vset b (addUniq (m.val b) a)

/-- Processing of one crosslink edge during virtual-adjacency
construction: skip out-of-scope edges, contract the endpoints, drop
self-loops, and de-duplicate by the ordered pair key. -/
def crossStep (targetIds : List String) (groupMemberMap : JMap String String)
    (st : JMap String (List String) × List String) (edge : FlowEdge) :
    JMap String (List String) × List String :=
  if ¬ targetIds.contains edge.source ∨ ¬ targetIds.contains edge.target then st
  else
    let vs := (groupMemberMap.get edge.source).getD edge.source
    let vt := (groupMemberMap.get edge.target).getD edge.target
    if vs = vt then st
    else
      let key := pairKey vs vt
      if st.2.contains key then st
      else (vAdjInsertPair st.1 vs vt, st.2 ++ [key])

/-- Processing of one `childrenMap` relation during virtual-adjacency
construction: contract parent and child, drop rootless and contracted
self-loop relations, de-duplicate by the ordered pair key (the entries
are created on demand, as in the source). -/
def treeStep (groupMemberMap : JMap String String)
    (parentId? : Option String)
    (st : JMap String (List String) × List String) (childId : String) :
    JMap String (List String) × List String :=
  let vChild := (groupMemberMap.get childId).getD childId
  match parentId? with
  | none => st
  | some parentId =>
      let vParent := (groupMemberMap.get parentId).getD parentId
      if vChild = vParent then st
      else
        let key := pairKey vParent vChild
        if st.2.contains key then st
        else (vAdjInsertPair (vAdjEnsure (vAdjEnsure st.1 vParent) vChild) vParent vChild,
          st.2 ++ [key])

/-- Stage C of the radial path: the virtual node set and the contracted
undirected adjacency.  Crosslink edges and tree-parent relations whose two
endpoints contract to the same virtual node are dropped; the
`processedEdgeKeys` set de-duplicates unordered pairs via `pairKey`. -/
def buildVirtualAdj (targetIds : List String) (ideaNodes groupNodes : List FlowNode)
    (groupMemberMap : JMap String String)
    (childrenMap : JMap (Option String) (List String)) (edges : List FlowEdge) :
    List String × JMap String (List String) :=
  let allVNodes := ideaNodes.foldl
    (fun s n => addUniq s ((groupMemberMap.get n.id).getD n.id)) []
  let allVNodes := groupNodes.foldl (fun s g => addUniq s g.id) allVNodes
  let vAdj := allVNodes.foldl (fun (m : JMap String (List String)) vId => vAdjEnsure m vId)
    JMap.empty
  let st := edges.foldl (crossStep targetIds groupMemberMap) (vAdj, [])
  let st := childrenMap.entries.foldl
    (fun (st : JMap String (List String) × List String) pr =>
      pr.2.foldl (treeStep groupMemberMap pr.1) st)
    st
  (allVNodes, st.1)

-- =============================================
-- Radial mode, stage E: connected components
-- =============================================

/-- The BFS `while` loop of the component finder; fuel bounds the number
of dequeues (each dequeued id was enqueued when first visited). -/
def compBfs (vAdj : JMap String (List String)) :
    ℕ → List String → List String → List String → List String × List String
  | 0, _, visited, comp => (comp, visited)
  | _ + 1, [], visited, comp => (comp, visited)
  | fuel + 1, cur :: queue, visited, comp =>
      let st := ((vAdj.get cur).getD []).foldl
        (fun (st : List String × List String) nb =>
          if st.2.contains nb then st else (st.1 ++ [nb], st.2 ++ [nb]))
        (queue, visited)
      compBfs vAdj fuel st.1 st.2 (comp ++ [cur])

/-- Stage E of the radial path: connected components (BFS in insertion
order) and the isolated (orphan) virtual nodes. -/
def findComponents (allVNodes : List String) (vAdj : JMap String (List String)) :
    List (List String) × List String :=
  let st := allVNodes.foldl
    (fun (st : List String × List (List String) × List String) vId =>
      if st.1.contains vId then st
      else
        match (vAdj.get vId).getD [] with
        | [] => (st.1 ++ [vId], st.2.1, st.2.2 ++ [vId])
        | _ =>
            let r := compBfs vAdj (allVNodes.length + 1) [vId] (st.1 ++ [vId]) []
            (r.2, st.2.1 ++ [r.1], st.2.2))
    ([], [], [])
  st.2

-- =============================================
-- Radial mode, stage F: hub selection
-- =============================================

/-- `hubScore` of the source: groups are disqualified with −1000; other
virtual nodes score (number of neighbouring groups) × 100 + degree. -/
def hubScore (groupNodeIds : List String) (vAdj : JMap String (List String))
    (id : String) : ℤ :=
  if groupNodeIds.contains id then -1000
  else
    let st := ((vAdj.get id).getD []).foldl
      (fun (st : ℤ × ℤ) nb =>
        (st.1 + 1, if groupNodeIds.contains nb then st.2 + 1 else st.2))
      (0, 0)
    st.2 * 100 + st.1

/-- `findHub` of the source: `component.reduce`, keeping the running best
unless a candidate scores strictly higher (first maximum wins). -/
def findHub (groupNodeIds : List String) (vAdj : JMap String (List String))
    (component : List String) : String :=
  match component with
  | [] => ""
  | c :: cs =>
      cs.foldl
        (fun best id =>
          if hubScore groupNodeIds vAdj id > hubScore groupNodeIds vAdj best then id
          else best)
        c

-- =============================================
-- Radial mode, stage H: component arranger (group row + bridges)
-- =============================================

/-- The area of a virtual node (descending sort key of the group row). -/
def vArea (vSizes : JMap String Sz) (id : String) : ℚ :=
  let s := (vSizes.get id).getD DEFAULT_SIZE
  s.width * s.height

/-- Stage H of the radial path, for one component: groups sorted by
descending area into a single horizontal row (gap 200) centred on x = 0,
bridge nodes placed on a row above at the mean x of their connected
groups, spaced by a minimum gap, then recentred.  The JS stable sort is
modelled by `List.insertionSort` with the same comparator. -/
def arrangeComponentRow (vAdj : JMap String (List String)) (groupNodeIds : List String)
    (vSizes : JMap String Sz) (comp : List String) (centerPos : JMap String Pt) :
    JMap String Pt :=
  let compGroups := comp.filter (fun id => groupNodeIds.contains id)
  let compBridges := comp.filter (fun id => ¬ groupNodeIds.contains id)
  if compGroups.length = 0 then centerPos
  else
    let sorted := List.insertionSort (fun a b => vArea vSizes b ≤ vArea vSizes a) compGroups
    let st := sorted.foldl
      (fun (st : JMap String Pt × ℚ × ℚ) gid =>
        let sz := (vSizes.get gid).getD DEFAULT_SIZE
        (st.1.set gid ⟨st.2.1 + sz.width / 2, 0⟩, st.2.1 + sz.width + 200,
         max st.2.2 sz.height))
      (centerPos, 0, 0)
    let rowX := st.2.1
    let rowMaxH := st.2.2
    let rowCenterX := (rowX - 200) / 2
    let cp := sorted.foldl
      (fun (cp : JMap String Pt) gid =>
        let p := cp.val gid
        cp.vset gid ⟨p.x - rowCenterX, 0⟩)
      st.1
    if compBridges.length = 0 then cp
    else
      let bridgeBaseY := -(rowMaxH / 2 + 120)
      let bridgeTargetX := compBridges.foldl
        (fun (m : JMap String ℚ) bid =>
          let conn := sorted.filter (fun gid => ((vAdj.get bid).getD []).contains gid)
          m.set bid (if conn.length > 0 then
              (conn.foldl (fun s gid => s + (cp.val gid).x) 0) / (conn.length : ℚ)
            else 0))
        JMap.empty
      let sortedBridges := List.insertionSort
        (fun a b => (bridgeTargetX.get a).getD 0 ≤ (bridgeTargetX.get b).getD 0) compBridges
      let st2 := sortedBridges.foldl
        (fun (st : JMap String Pt × List ℚ) bid =>
          let x0 := (bridgeTargetX.get bid).getD 0
          let sz := (vSizes.get bid).getD DEFAULT_SIZE
          let minGap := sz.width + 60
          let x := st.2.foldl (fun x px => if |x - px| < minGap then px + minGap else x) x0
          (st.1.set bid ⟨x, bridgeBaseY⟩, st.2 ++ [x]))
        (cp, [])
      if st2.2.length > 1 then
        let lo := st2.2.foldl min (st2.2.headD 0)
        let hi := st2.2.foldl max (st2.2.headD 0)
        let bCx := (lo + hi) / 2
        sortedBridges.foldl
          (fun (m : JMap String Pt) bid =>
            let p := m.val bid
            m.vset bid ⟨p.x - bCx, p.y⟩)
          st2.1
      else st2.1

-- =============================================
-- Radial mode, stage L: final overlap sweep (top-left coordinates)
-- =============================================

/-- One full pass of the final overlap sweep: node-vs-group, then
group-vs-group, then node-vs-node, sharing one `overlapFound` flag.  As in
the source, the node-vs-group inner loop keeps the node position read at
the start of its group loop (it is not refreshed between pushes). -/
def finalSweepPass (ops : Ops) (nodeSizes : JMap String Sz) (groupSizes : JMap String Sz)
    (topIds gIds : List String) (m : JMap String Pt) : JMap String Pt × Bool :=
  -- node vs group
  let st1 := topIds.foldl
    (fun (st : JMap String Pt × Bool) nId =>
      match st.1.get nId with
      | none => st
      | some np =>
          let ns := (nodeSizes.get nId).getD DEFAULT_SIZE
          gIds.foldl
            (fun (st : JMap String Pt × Bool) gid =>
              match st.1.get gid, groupSizes.get gid with
              | some gp, some gs =>
                  let ox := min (np.x + ns.width) (gp.x + gs.width) - max np.x gp.x
                  let oy := min (np.y + ns.height) (gp.y + gs.height) - max np.y gp.y
                  if ox > 0 ∧ oy > 0 then
                    let ncx := np.x + ns.width / 2
                    let ncy := np.y + ns.height / 2
                    let gcx := gp.x + gs.width / 2
                    let gcy := gp.y + gs.height / 2
                    let dx0 := ncx - gcx
                    let dy0 := ncy - gcy
                    let dist := ops.sqrt (dx0 * dx0 + dy0 * dy0)
                    let d : ℚ × ℚ := if dist < 1/100 then (1, 0) else (dx0 / dist, dy0 / dist)
                    let t := if d.1 = 0 then |gs.height / 2 / d.2|
                      else if d.2 = 0 then |gs.width / 2 / d.1|
                      else min |gs.width / 2 / d.1| |gs.height / 2 / d.2|
                    (st.1.vset nId ⟨gcx + d.1 * (t + 100) - ns.width / 2,
                                    gcy + d.2 * (t + 100) - ns.height / 2⟩, true)
                  else st
              | _, _ => st)
            st)
    (m, false)
  -- group vs group
  let st2 := (candPairs gIds).foldl
    (fun (st : JMap String Pt × Bool) pr =>
      match st.1.get pr.1, groupSizes.get pr.1, st.1.get pr.2, groupSizes.get pr.2 with
      | some p1, some s1, some p2, some s2 =>
          let ox := min (p1.x + s1.width) (p2.x + s2.width) - max p1.x p2.x
          let oy := min (p1.y + s1.height) (p2.y + s2.height) - max p1.y p2.y
          if ox > 0 ∧ oy > 0 then
            let dx0 := (p2.x + s2.width / 2) - (p1.x + s1.width / 2)
            let dy0 := (p2.y + s2.height / 2) - (p1.y + s1.height / 2)
            let dist := ops.sqrt (dx0 * dx0 + dy0 * dy0)
            let d : ℚ × ℚ := if dist < 1/100 then (1, 0) else (dx0 / dist, dy0 / dist)
            let push := (min ox oy + 80) / 2
            let m' := st.1.vset pr.1 ⟨p1.x - d.1 * push, p1.y - d.2 * push⟩
            let m' := m'.vset pr.2 ⟨p2.x + d.1 * push, p2.y + d.2 * push⟩
            (m', true)
          else st
      | _, _, _, _ => st)
    st1
  -- node vs node
  (candPairs topIds).foldl
    (fun (st : JMap String Pt × Bool) pr =>
      match st.1.get pr.1, st.1.get pr.2 with
      | some pA, some pB =>
          let sA := (nodeSizes.get pr.1).getD DEFAULT_SIZE
          let sB := (nodeSizes.get pr.2).getD DEFAULT_SIZE
          let ox := min (pA.x + sA.width) (pB.x + sB.width) - max pA.x pB.x
          let oy := min (pA.y + sA.height) (pB.y + sB.height) - max pA.y pB.y
          if ox > 0 ∧ oy > 0 then
            let dx0 := (pB.x + sB.width / 2) - (pA.x + sA.width / 2)
            let dy0 := (pB.y + sB.height / 2) - (pA.y + sA.height / 2)
            let dist := ops.sqrt (dx0 * dx0 + dy0 * dy0)
            let d : ℚ × ℚ := if dist < 1/100 then (1, 0) else (dx0 / dist, dy0 / dist)
            let push := (min ox oy + 50) / 2
            let m' := st.1.vset pr.1 ⟨pA.x - d.1 * push, pA.y - d.2 * push⟩
            let m' := m'.vset pr.2 ⟨pB.x + d.1 * push, pB.y + d.2 * push⟩
            (m', true)
          else st
      | _, _ => st)
    st2

/-- The 50-iteration loop of the final overlap sweep (stops when a full
pass found no overlap). -/
def finalSweepLoop (ops : Ops) (nodeSizes groupSizes : JMap String Sz)
    (topIds gIds : List String) : ℕ → JMap String Pt → JMap String Pt
  | 0, m => m
  | fuel + 1, m =>
      let r := finalSweepPass ops nodeSizes groupSizes topIds gIds m
      if r.2 then finalSweepLoop ops nodeSizes groupSizes topIds gIds fuel r.1 else r.1

-- =============================================
-- Radial mode, stage M: viewport aspect correction
-- =============================================

/-- One pass of the post-scaling overlap repair inside the aspect
correction: node-vs-group (push distance t + 80) and group-vs-group; the
source has no node-vs-node category here. -/
def aspectRepairPass (ops : Ops) (nodeSizes groupSizes : JMap String Sz)
    (topIds gIds : List String) (m : JMap String Pt) : JMap String Pt × Bool :=
  let st1 := topIds.foldl
    (fun (st : JMap String Pt × Bool) nId =>
      match st.1.get nId with
      | none => st
      | some np =>
          let ns := (nodeSizes.get nId).getD DEFAULT_SIZE
          gIds.foldl
            (fun (st : JMap String Pt × Bool) gid =>
              match st.1.get gid, groupSizes.get gid with
              | some gp, some gs =>
                  let ox := min (np.x + ns.width) (gp.x + gs.width) - max np.x gp.x
                  let oy := min (np.y + ns.height) (gp.y + gs.height) - max np.y gp.y
                  if ox > 0 ∧ oy > 0 then
                    let ncx := np.x + ns.width / 2
                    let ncy := np.y + ns.height / 2
                    let gcx := gp.x + gs.width / 2
                    let gcy := gp.y + gs.height / 2
                    let dx0 := ncx - gcx
                    let dy0 := ncy - gcy
                    let dist := ops.sqrt (dx0 * dx0 + dy0 * dy0)
                    let d : ℚ × ℚ := if dist < 1/100 then (1, 0) else (dx0 / dist, dy0 / dist)
                    let t := if d.1 = 0 then |gs.height / 2 / d.2|
                      else if d.2 = 0 then |gs.width / 2 / d.1|
                      else min |gs.width / 2 / d.1| |gs.height / 2 / d.2|
                    (st.1.vset nId ⟨gcx + d.1 * (t + 80) - ns.width / 2,
                                    gcy + d.2 * (t + 80) - ns.height / 2⟩, true)
                  else st
              | _, _ => st)
            st)
    (m, false)
  (candPairs gIds).foldl
    (fun (st : JMap String Pt × Bool) pr =>
      match st.1.get pr.1, groupSizes.get pr.1, st.1.get pr.2, groupSizes.get pr.2 with
      | some p1, some s1, some p2, some s2 =>
          let ox := min (p1.x + s1.width) (p2.x + s2.width) - max p1.x p2.x
          let oy := min (p1.y + s1.height) (p2.y + s2.height) - max p1.y p2.y
          if ox > 0 ∧ oy > 0 then
            let dx0 := (p2.x + s2.width / 2) - (p1.x + s1.width / 2)
            let dy0 := (p2.y + s2.height / 2) - (p1.y + s1.height / 2)
            let dist := ops.sqrt (dx0 * dx0 + dy0 * dy0)
            let d : ℚ × ℚ := if dist < 1/100 then (1, 0) else (dx0 / dist, dy0 / dist)
            let push := (min ox oy + 80) / 2
            let m' := st.1.vset pr.1 ⟨p1.x - d.1 * push, p1.y - d.2 * push⟩
            let m' := m'.vset pr.2 ⟨p2.x + d.1 * push, p2.y + d.2 * push⟩
            (m', true)
          else st
      | _, _, _, _ => st)
    st1

/-- The 30-iteration repair loop of the aspect correction. -/
def aspectRepairLoop (ops : Ops) (nodeSizes groupSizes : JMap String Sz)
    (topIds gIds : List String) : ℕ → JMap String Pt → JMap String Pt
  | 0, m => m
  | fuel + 1, m =>
      let r := aspectRepairPass ops nodeSizes groupSizes topIds gIds m
      if r.2 then aspectRepairLoop ops nodeSizes groupSizes topIds gIds fuel r.1 else r.1

/-- Stage M of the radial path: anisotropic rescaling towards the
viewport aspect ratio about the area-weighted centroid (70% blend),
followed by the repair loop and the non-negative coordinate clamp. -/
def aspectCorrection (ops : Ops) (vp : Sz) (topIds gIds : List String)
    (nodeSizes groupSizes : JMap String Sz) (positions : JMap String Pt) :
    JMap String Pt :=
  let vpAspect := vp.width / vp.height
  let allTopIds := topIds ++ gIds
  let allTopSizes := allTopIds.foldl
    (fun (mm : JMap String Sz) id =>
      mm.set id ((groupSizes.get id).getD ((nodeSizes.get id).getD DEFAULT_SIZE)))
    JMap.empty
  match computeBBox allTopIds positions allTopSizes false with
  | none => positions
  | some bb =>
      if bb.w > 1 ∧ bb.h > 1 then
        let mismatch := vpAspect / (bb.w / bb.h)
        if mismatch > 12/10 ∨ mismatch < 83/100 then
          let acc := allTopIds.foldl
            (fun (acc : ℚ × ℚ × ℚ) id =>
              match positions.get id with
              | none => acc
              | some p =>
                  let sz := allTopSizes.val id
                  let area := sz.width * sz.height
                  (acc.1 + (p.x + sz.width / 2) * area,
                   acc.2.1 + (p.y + sz.height / 2) * area, acc.2.2 + area))
            (0, 0, 0)
          let cx := acc.1 / acc.2.2
          let cy := acc.2.1 / acc.2.2
          let blend : ℚ := 7/10
          let scaleX := if mismatch > 1 then 1 else 1 - (1 - mismatch) * blend
          let scaleY := if mismatch > 1 then 1 - (1 - 1 / mismatch) * blend else 1
          let positions := allTopIds.foldl
            (fun (pos : JMap String Pt) id =>
              match pos.get id with
              | none => pos
              | some p =>
                  let sz := allTopSizes.val id
                  let eCx := p.x + sz.width / 2
                  let eCy := p.y + sz.height / 2
                  pos.vset id ⟨cx + (eCx - cx) * scaleX - sz.width / 2,
                               cy + (eCy - cy) * scaleY - sz.height / 2⟩)
            positions
          let positions := aspectRepairLoop ops nodeSizes groupSizes topIds gIds 30 positions
          let mins := allTopIds.foldl
            (fun (st : Option (ℚ × ℚ)) id =>
              match positions.get id with
              | none => st
              | some p =>
                  match st with
                  | none => some (p.x, p.y)
                  | some s => some (min s.1 p.x, min s.2 p.y))
            none
          match mins with
          | none => positions
          | some (mnX, mnY) =>
              if mnX < 0 ∨ mnY < 0 then
                let sx := if mnX < 0 then -mnX else 0
                let sy := if mnY < 0 then -mnY else 0
                allTopIds.foldl
                  (fun (pos : JMap String Pt) id =>
                    match pos.get id with
                    | none => pos
                    | some p => pos.vset id ⟨p.x + sx, p.y + sy⟩)
                  positions
              else positions
        else positions
      else positions

-- =============================================
-- Radial (force-directed) layout path
-- =============================================

/-- Stage B of the radial path: per-group internal layouts. -/
def radialGroupLayouts (ops : Ops) (ideaNodes groupNodes : List FlowNode)
    (nodeSizes : JMap String Sz) (edges : List FlowEdge) : JMap String GroupLayout :=
  groupNodes.foldl
    (fun (m : JMap String GroupLayout) g =>
      m.set g.id (computeGroupInternalLayout ops
        (ideaNodes.filter (fun n => n.groupId = some g.id)) nodeSizes edges))
    JMap.empty

/-- Stage A of the radial path: member id → containing group id. -/
def radialGroupMemberMap (ideaNodes : List FlowNode) : JMap String String :=
  ideaNodes.foldl
    (fun (m : JMap String String) n =>
      match n.groupId with
      | some g => m.set n.id g
      | none => m)
    JMap.empty

/-- Stage D of the radial path: virtual node sizes (ungrouped nodes keep
their measured size, contracted groups use their internal layout box). -/
def radialVSizes (ideaNodes : List FlowNode) (nodeSizes : JMap String Sz)
    (groupLayouts : JMap String GroupLayout) : JMap String Sz :=
  let vSizes := ideaNodes.foldl
    (fun (m : JMap String Sz) n =>
      if n.groupId.isNone then m.set n.id ((nodeSizes.get n.id).getD DEFAULT_SIZE) else m)
    JMap.empty
  groupLayouts.entries.foldl
    (fun (m : JMap String Sz) e => m.set e.1 ⟨e.2.width, e.2.height⟩) vSizes

/-- Stages F/G of the radial path, for one component: hub selection, BFS
radial seeding, force simulation. -/
def radialSimComponent (ops : Ops) (vAdj : JMap String (List String))
    (groupNodeIds : List String) (vSizes : JMap String Sz) (comp : List String) :
    JMap String Pt :=
  let hubId := findHub groupNodeIds vAdj comp
  let bfsChildren := buildBfsTree hubId vAdj comp
  let centerPos := placeRadially ops hubId bfsChildren JMap.empty FD_INIT_SPACING
    (comp.length + 1)
  let edgeList := buildEdgeList vAdj comp
  runForceSimulation ops comp centerPos edgeList vSizes TOPLEVEL_SIM

/-- Stage H2 of the radial path, for one component: greedy crossing
reduction restricted to the bridge subset, with an overlap-resolution
cleanup when a swap happened. -/
def radialCrossingStage (ops : Ops) (vAdj : JMap String (List String))
    (groupNodeIds : List String) (vSizes : JMap String Sz)
    (comp : List String) (centerPos : JMap String Pt) : JMap String Pt :=
  let compEdges := comp.foldl
    (fun (acc : List (String × String)) a =>
      ((vAdj.get a).getD []).foldl
        (fun acc b => if strLt a b ∧ comp.contains b then acc ++ [(a, b)] else acc) acc)
    []
  let bridgeIds := comp.filter (fun id => ¬ groupNodeIds.contains id)
  let rc := reduceCrossingsBySwap bridgeIds centerPos compEdges 15
  if rc.2 then resolveOverlaps ops comp rc.1 vSizes TOPLEVEL_SIM.collisionPad else rc.1

/-- Stage I of the radial path: tile the components across the viewport
(left-to-right when landscape, top-to-bottom otherwise), converting
center coordinates to top-left coordinates. -/
def radialTiling (vpIsLandscape : Bool) (vSizes : JMap String Sz)
    (componentPositions : List (List String × JMap String Pt)) : JMap String Pt :=
  let compBounds := componentPositions.map
    (fun pc => (pc, (computeBBox pc.1 pc.2 vSizes true).getD ⟨0, 0, 0, 0, 0, 0⟩))
  (compBounds.foldl
    (fun (st : JMap String Pt × ℚ) cb =>
      let shiftX := if vpIsLandscape then st.2 - cb.2.minX else -cb.2.minX
      let shiftY := if vpIsLandscape then -cb.2.minY else st.2 - cb.2.minY
      let pos := cb.1.1.foldl
        (fun (pos : JMap String Pt) id =>
          let c := cb.1.2.val id
          let sz := (vSizes.get id).getD DEFAULT_SIZE
          pos.set id ⟨c.x + shiftX - sz.width / 2, c.y + shiftY - sz.height / 2⟩)
        st.1
      (pos, st.2 + (if vpIsLandscape then cb.2.w else cb.2.h) + FD_CLUSTER_GAP))
    (JMap.empty, 0)).1

/-- Stage J of the radial path: orphan placement (orphan groups next to
existing groups at a matching axis coordinate; orphan plain nodes in dead
space below the rightmost element, else appended past the bounding box). -/
def radialOrphanStage (vpIsLandscape : Bool) (vSizes : JMap String Sz)
    (groupNodes : List FlowNode) (groupNodeIds : List String)
    (orphanVNodes : List String) (positions : JMap String Pt) : JMap String Pt :=
  if orphanVNodes.length = 0 then positions
  else
    let placedBB := (computeBBox positions.keys positions vSizes false).getD
      ⟨0, 0, 0, 0, 0, 0⟩
    let orphanGroups := orphanVNodes.filter (fun id => groupNodeIds.contains id)
    let orphanNormals := orphanVNodes.filter (fun id => ¬ groupNodeIds.contains id)
    let positions :=
      if orphanGroups.length = 0 then positions
      else
        let existingGroupY := match groupNodes.find?
            (fun g => (positions.get g.id).isSome ∧ ¬ orphanGroups.contains g.id) with
          | some g => (positions.val g.id).y
          | none => placedBB.minY
        if vpIsLandscape then
          (orphanGroups.foldl
            (fun (st : JMap String Pt × ℚ) gid =>
              let sz := (vSizes.get gid).getD ⟨300, 200⟩
              (st.1.set gid ⟨st.2, existingGroupY⟩, st.2 + sz.width + FD_CLUSTER_GAP))
            (positions, placedBB.maxX + FD_CLUSTER_GAP)).1
        else
          (orphanGroups.foldl
            (fun (st : JMap String Pt × ℚ) gid =>
              let sz := (vSizes.get gid).getD ⟨300, 200⟩
              (st.1.set gid ⟨placedBB.minX, st.2⟩, st.2 + sz.height + FD_CLUSTER_GAP))
            (positions, placedBB.maxY + FD_CLUSTER_GAP)).1
    if orphanNormals.length = 0 then positions
    else
      match computeBBox positions.keys positions vSizes false with
      | none => positions
        -- no placed element: the source dereferences a missing rightmost
        -- entry here and throws; modelled as a no-op (not reached by the claims)
      | some placedBB2 =>
          let rm := positions.entries.foldl
            (fun (st : Option (String × ℚ)) e =>
              let sz := (vSizes.get e.1).getD DEFAULT_SIZE
              let r := e.2.x + sz.width
              match st with
              | none => some (e.1, r)
              | some s => if r > s.2 then some (e.1, r) else s)
            none
          match rm with
          | none => positions
          | some rmE =>
              let rmPos := positions.val rmE.1
              let rmSz := (vSizes.get rmE.1).getD DEFAULT_SIZE
              let spaceBelow := placedBB2.maxY - (rmPos.y + rmSz.height)
              if spaceBelow > (orphanNormals.length : ℚ) * 80 then
                let startX := rmPos.x
                let startY := rmPos.y + rmSz.height + 100
                orphanNormals.enum.foldl
                  (fun (pos : JMap String Pt) pr =>
                    pos.set pr.2 ⟨startX, startY + (pr.1 : ℚ) * 80⟩)
                  positions
              else
                let startX := placedBB2.maxX + 100
                let startY := placedBB2.maxY - (orphanNormals.length : ℚ) * 80
                orphanNormals.enum.foldl
                  (fun (pos : JMap String Pt) pr =>
                    pos.set pr.2 ⟨startX, max placedBB2.minY startY + (pr.1 : ℚ) * 80⟩)
                  positions

/-- Stage K of the radial path: record every group's size, copy the group
members' local coordinates, and give never-placed groups their original
position (and the 300 × 200 default box). -/
def radialGroupFinalize (groupLayouts : JMap String GroupLayout)
    (groupNodes : List FlowNode) (positions : JMap String Pt) :
    JMap String Pt × JMap String Sz :=
  let st := groupLayouts.entries.foldl
    (fun (st : JMap String Pt × JMap String Sz) e =>
      let gsz := st.2.set e.1 ⟨e.2.width, e.2.height⟩
      let pos := e.2.memberPositions.entries.foldl
        (fun (pos : JMap String Pt) me => pos.set me.1 me.2) st.1
      (pos, gsz))
    (positions, JMap.empty)
  groupNodes.foldl
    (fun (st : JMap String Pt × JMap String Sz) g =>
      if st.1.has g.id then st
      else
        (st.1.set g.id g.position,
         if st.2.has g.id then st.2 else st.2.set g.id ⟨300, 200⟩))
    st

/-- The radial branch of `computeAutoLayout` (source stages A–M),
producing the top-level positions and the group sizes. -/
def radialLayout (ops : Ops) (edges : List FlowEdge) (vp : Option Sz)
    (targetIds : List String) (ideaNodes groupNodes : List FlowNode)
    (childrenMap : JMap (Option String) (List String)) (nodeSizes : JMap String Sz) :
    JMap String Pt × JMap String Sz :=
  let groupMemberMap := radialGroupMemberMap ideaNodes
  let groupLayouts := radialGroupLayouts ops ideaNodes groupNodes nodeSizes edges
  let va := buildVirtualAdj targetIds ideaNodes groupNodes groupMemberMap childrenMap edges
  let vSizes := radialVSizes ideaNodes nodeSizes groupLayouts
  let ce := findComponents va.1 va.2
  let groupNodeIds := groupNodes.map FlowNode.id
  let componentPositions := ce.1.map
    (fun comp => (comp, radialSimComponent ops va.2 groupNodeIds vSizes comp))
  let componentPositions := componentPositions.map
    (fun pc => (pc.1, arrangeComponentRow va.2 groupNodeIds vSizes pc.1 pc.2))
  let componentPositions := componentPositions.map
    (fun pc => (pc.1, radialCrossingStage ops va.2 groupNodeIds vSizes pc.1 pc.2))
  let vpIsLandscape := match vp with
    | none => true
    | some v => v.width ≥ v.height
  let positions := radialTiling vpIsLandscape vSizes componentPositions
  let positions := radialOrphanStage vpIsLandscape vSizes groupNodes groupNodeIds ce.2
    positions
  let pg := radialGroupFinalize groupLayouts groupNodes positions
  let topLevelNodeIds := ideaNodes.foldl
    (fun (acc : List String) n =>
      if n.groupId.isNone && pg.1.has n.id then acc ++ [n.id] else acc)
    []
  let gIds := pg.2.keys
  let positions := finalSweepLoop ops nodeSizes pg.2 topLevelNodeIds gIds 50 pg.1
  let positions := match vp with
    | some v =>
        if v.width > 0 ∧ v.height > 0 then
          aspectCorrection ops v topLevelNodeIds gIds nodeSizes pg.2 positions
        else positions
    | none => positions
  (positions, pg.2)

-- =============================================
-- Alternate tree layout (horizontal / vertical)
-- =============================================

/-- `calcSubtreeSpan` of the tree path: the perpendicular-axis extent of a
subtree, memoised in `spans`; `visited` guards against cycles.  Returns
the span together with the updated `visited` and `spans`.  Fuel bounds the
recursion depth (at most one visit per node). -/
def calcSubtreeSpan (childrenMap : JMap (Option String) (List String))
    (nodeSizes : JMap String Sz) (isHorizontal : Bool) (siblingSpacing : ℚ) :
    ℕ → String → List String → JMap String ℚ → ℚ × List String × JMap String ℚ
  | 0, _, visited, spans => (0, visited, spans)
  | fuel + 1, nodeId, visited, spans =>
      if visited.contains nodeId then (0, visited, spans)
      else
        let visited := visited ++ [nodeId]
        let children := ((childrenMap.get (some nodeId)).getD []).filter
          (fun c => ¬ visited.contains c)
        let size := (nodeSizes.get nodeId).getD DEFAULT_SIZE
        let nodeSpan := if isHorizontal then size.height else size.width
        if children.length = 0 then (nodeSpan, visited, spans.set nodeId nodeSpan)
        else
          let st := children.enum.foldl
            (fun (st : ℚ × List String × JMap String ℚ) pr =>
              let t := if pr.1 > 0 then st.1 + siblingSpacing else st.1
              let r := calcSubtreeSpan childrenMap nodeSizes isHorizontal siblingSpacing
                fuel pr.2 st.2.1 st.2.2
              (t + r.1, r.2.1, r.2.2))
            (0, visited, spans)
          let span := max nodeSpan st.1
          (span, st.2.1, st.2.2.set nodeId span)

/-- `layoutSubtree` of the tree path: leaves centred in their span at a
depth-proportional offset, internal nodes centred over their first and
last child.  (The source also reads the first child's size there but never
uses it.)  Returns the updated `visited` and positions. -/
def layoutSubtree (childrenMap : JMap (Option String) (List String))
    (nodeSizes : JMap String Sz) (spans : JMap String ℚ) (isHorizontal : Bool)
    (depthSpacing siblingSpacing : ℚ) :
    ℕ → String → ℕ → ℚ → List String → JMap String Pt → List String × JMap String Pt
  | 0, _, _, _, visited, pos => (visited, pos)
  | fuel + 1, nodeId, depth, offset, visited, pos =>
      if visited.contains nodeId then (visited, pos)
      else
        let visited := visited ++ [nodeId]
        let children := ((childrenMap.get (some nodeId)).getD []).filter
          (fun c => ¬ visited.contains c)
        let size := (nodeSizes.get nodeId).getD DEFAULT_SIZE
        let span := (spans.get nodeId).getD
          (if isHorizontal then size.height else size.width)
        if children.length = 0 then
          let nodeSpan := if isHorizontal then size.height else size.width
          let center := offset + span / 2 - nodeSpan / 2
          (visited,
           if isHorizontal then pos.set nodeId ⟨(depth : ℚ) * depthSpacing, center⟩
           else pos.set nodeId ⟨center, (depth : ℚ) * depthSpacing⟩)
        else
          let totalChildSpan := children.enum.foldl
            (fun t pr =>
              (if pr.1 > 0 then t + siblingSpacing else t) + (spans.get pr.2).getD 0)
            0
          let st := children.foldl
            (fun (st : ℚ × List String × JMap String Pt) c =>
              let r := layoutSubtree childrenMap nodeSizes spans isHorizontal
                depthSpacing siblingSpacing fuel c (depth + 1) st.1 st.2.1 st.2.2
              (st.1 + (spans.get c).getD 0 + siblingSpacing, r.1, r.2))
            (offset + (span - totalChildSpan) / 2, visited, pos)
          let visited := st.2.1
          let pos := st.2.2
          match pos.get (children.headD ""), pos.get (children.getLastD "") with
          | some firstPos, some lastPos =>
              let lastSz := (nodeSizes.get (children.getLastD "")).getD DEFAULT_SIZE
              if isHorizontal then
                (visited, pos.set nodeId ⟨(depth : ℚ) * depthSpacing,
                  (firstPos.y + lastPos.y + lastSz.height) / 2 - size.height / 2⟩)
              else
                (visited, pos.set nodeId ⟨(firstPos.x + lastPos.x + lastSz.width) / 2
                  - size.width / 2, (depth : ℚ) * depthSpacing⟩)
          | _, _ => (visited, pos)

/-- One group of the tree path's group post-processing: size the group to
the bounding box of its placed members plus padding and header, place the
group there, and re-express member positions in the group-local frame. -/
def treeGroupOne (ideaNodes : List FlowNode) (nodeSizes : JMap String Sz)
    (st : JMap String Pt × JMap String Sz) (group : FlowNode) :
    JMap String Pt × JMap String Sz :=
  let members := ideaNodes.filter (fun n => n.groupId = some group.id)
  if members.length = 0 then
    (st.1.set group.id group.position, st.2.set group.id ⟨300, 200⟩)
  else
    match computeBBox (members.map FlowNode.id) st.1 nodeSizes false with
    | none => (st.1.set group.id group.position, st.2.set group.id ⟨300, 200⟩)
    | some bb =>
        let gx := bb.minX - GROUP_PADDING
        let gy := bb.minY - GROUP_PADDING - GROUP_HEADER
        let gw := bb.w + GROUP_PADDING * 2
        let gh := bb.h + GROUP_PADDING * 2 + GROUP_HEADER
        let pos := st.1.set group.id ⟨gx, gy⟩
        let pos := members.foldl
          (fun (pos : JMap String Pt) m =>
            match pos.get m.id with
            | some p => pos.vset m.id ⟨p.x - gx, p.y - gy⟩
            | none => pos)
          pos
        (pos, st.2.set group.id ⟨gw, gh⟩)

/-- The group post-processing of the tree path: `treeGroupOne` folded
over the group nodes. -/
def treeGroupStage (ideaNodes groupNodes : List FlowNode) (nodeSizes : JMap String Sz)
    (positions : JMap String Pt) : JMap String Pt × JMap String Sz :=
  groupNodes.foldl (treeGroupOne ideaNodes nodeSizes) (positions, JMap.empty)

/-- The horizontal / vertical branch of `computeAutoLayout`. -/
def treeLayout (ideaNodes groupNodes : List FlowNode)
    (childrenMap : JMap (Option String) (List String)) (roots : List String)
    (nodeSizes : JMap String Sz) (isHorizontal : Bool) :
    JMap String Pt × JMap String Sz :=
  let depthSpacing : ℚ := if isHorizontal then 250 else 200
  let siblingSpacing : ℚ := if isHorizontal then 100 else 200
  let fuel := ideaNodes.length + 1
  let spans := (roots.foldl
    (fun (st : List String × JMap String ℚ) root =>
      let r := calcSubtreeSpan childrenMap nodeSizes isHorizontal siblingSpacing
        fuel root st.1 st.2
      (r.2.1, r.2.2))
    ([], JMap.empty)).2
  let positions := (roots.foldl
    (fun (st : ℚ × List String × JMap String Pt) root =>
      let r := layoutSubtree childrenMap nodeSizes spans isHorizontal depthSpacing
        siblingSpacing fuel root 0 st.1 st.2.1 st.2.2
      (st.1 + (spans.get root).getD 0 + siblingSpacing * 2, r.1, r.2))
    (0, [], JMap.empty)).2.2
  treeGroupStage ideaNodes groupNodes nodeSizes positions

-- =============================================
-- Common post-processing
-- =============================================

/-- Selection-scope recentring: translate the laid-out top-level elements
so that their bounding-box centre matches the original centre of the
selected ungrouped nodes. -/
def selectionAdjust (nodeMap : JMap String FlowNode) (ideaNodes : List FlowNode)
    (nodeSizes groupSizes : JMap String Sz) (options : ArrangeOptions)
    (positions : JMap String Pt) : JMap String Pt :=
  let selLen := match options.selectedNodeIds with
    | some l => l.length
    | none => 0
  if options.scope = "selection" ∧ options.selectedNodeIds.isSome ∧ selLen > 0 then
    let nonGroupTargets := ideaNodes.filter (fun n => n.groupId.isNone)
    if nonGroupTargets.length > 0 then
      let ob := nonGroupTargets.foldl
        (fun (st : Option (ℚ × ℚ × ℚ × ℚ)) n =>
          let globalPos : Pt := match n.parentId with
            | some pid =>
                ⟨((nodeMap.get pid).map (fun p => p.position.x)).getD 0 + n.position.x,
                 ((nodeMap.get pid).map (fun p => p.position.y)).getD 0 + n.position.y⟩
            | none => n.position
          let size := (nodeSizes.get n.id).getD DEFAULT_SIZE
          match st with
          | none => some (globalPos.x, globalPos.y, globalPos.x + size.width,
              globalPos.y + size.height)
          | some (a, b, c, d) =>
              some (min a globalPos.x, min b globalPos.y,
                    max c (globalPos.x + size.width), max d (globalPos.y + size.height)))
        none
      match ob with
      | none => positions
      | some (mnX, mnY, mxX, mxY) =>
          let origCX := (mnX + mxX) / 2
          let origCY := (mnY + mxY) / 2
          let topLevelIds := positions.keys.filter
            (fun id => match nodeMap.get id with
              | some n => n.groupId.isNone
              | none => false)
          if topLevelIds.length > 0 then
            let merged := (nodeSizes.entries ++ groupSizes.entries).foldl
              (fun (m : JMap String Sz) e => m.set e.1 e.2) JMap.empty
            match computeBBox topLevelIds positions merged false with
            | none => positions
            | some bb =>
                let dx := origCX - (bb.minX + bb.maxX) / 2
                let dy := origCY - (bb.minY + bb.maxY) / 2
                topLevelIds.foldl
                  (fun (pos : JMap String Pt) id =>
                    let p := pos.val id
                    pos.vset id ⟨p.x + dx, p.y + dy⟩)
                  positions
          else positions
    else positions
  else positions

/-- Radial-mode edge handle assignment: each in-scope edge gets the
shortest handle combination, measured at global positions (group members
are offset by their group's position). -/
def radialEdgeHandles (nodeMap : JMap String FlowNode) (targetIds : List String)
    (edges : List FlowEdge) (nodeSizes groupSizes : JMap String Sz)
    (positions : JMap String Pt) : JMap String (String × String) :=
  let globalPositions := positions.entries.foldl
    (fun (g : JMap String Pt) e =>
      match (nodeMap.get e.1).bind FlowNode.groupId with
      | some gid =>
          if positions.has gid then
            g.set e.1 ⟨(positions.val gid).x + e.2.x, (positions.val gid).y + e.2.y⟩
          else g.set e.1 e.2
      | none => g.set e.1 e.2)
    JMap.empty
  edges.foldl
    (fun (eh : JMap String (String × String)) edge =>
      if ¬ targetIds.contains edge.source ∨ ¬ targetIds.contains edge.target then eh
      else
        match globalPositions.get edge.source, globalPositions.get edge.target with
        | some sp, some tp =>
            let ss := match nodeSizes.get edge.source with
              | some s => s
              | none => (groupSizes.get edge.source).getD DEFAULT_SIZE
            let ts := match nodeSizes.get edge.target with
              | some s => s
              | none => (groupSizes.get edge.target).getD DEFAULT_SIZE
            eh.set edge.id (getShortestHandles sp ss tp ts)
        | _, _ => eh)
    JMap.empty

/-- Tree-mode edge handle assignment: fixed handles per direction, for
in-scope tree edges only. -/
def treeEdgeHandles (targetIds : List String) (edges : List FlowEdge)
    (isHorizontal : Bool) : JMap String (String × String) :=
  let sourceHandle := if isHorizontal then "right" else "bottom"
  let targetHandle := if isHorizontal then "left" else "top"
  edges.foldl
    (fun (eh : JMap String (String × String)) edge =>
      if edge.edgeType ≠ some "tree" then eh
      else if targetIds.contains edge.source ∧ targetIds.contains edge.target then
        eh.set edge.id (sourceHandle, targetHandle)
      else eh)
    JMap.empty

/-- The virtual group of an id for hub-rank scoring: a group is its own
group, a plain node contributes its `groupId`. -/
def getGroupOf (nodeMap : JMap String FlowNode) (id : String) : Option String :=
  match nodeMap.get id with
  | none => none
  | some n => if n.nodeType = "group" then some id else n.groupId

/-- The hub-rank scores (radial mode): +1 per incident edge (tree and
crosslink edges de-duplicated together by `pairKey`), plus the fixed
cross-group bonus when the endpoints' groups differ and at least one is
grouped; groups score by member count instead. -/
def hubRankScores (nodeMap : JMap String FlowNode) (targetIds : List String)
    (ideaNodes groupNodes : List FlowNode) (edges : List FlowEdge) :
    JMap String ℤ :=
  let nodeScore0 := ideaNodes.foldl (fun (m : JMap String ℤ) n => m.set n.id 0) JMap.empty
  -- tree edges (from treeParentId links)
  let st := ideaNodes.foldl
    (fun (st : JMap String ℤ × List String) n =>
      match n.treeParentId with
      | none => st
      | some pid =>
          if ¬ targetIds.contains pid then st
          else
            let key := pairKey n.id pid
            if st.2.contains key then st
            else
              let ga := getGroupOf nodeMap n.id
              let gb := getGroupOf nodeMap pid
              let cross : ℤ := if ga ≠ gb ∧ (ga.isSome ∨ gb.isSome) then
                  RANK_CROSS_GROUP_BONUS else 0
              let m := st.1.vset n.id (st.1.val n.id + 1 + cross)
              let m := if m.has pid then m.vset pid (m.val pid + 1 + cross) else m
              (m, st.2 ++ [key]))
    (nodeScore0, [])
  -- crosslink edges (the loop runs over all edges; tree edges were
  -- already recorded under the same pair key and are skipped)
  let st := edges.foldl
    (fun (st : JMap String ℤ × List String) edge =>
      if edge.source = edge.target ∨ ¬ targetIds.contains edge.source ∨
          ¬ targetIds.contains edge.target then st
      else
        let key := pairKey edge.source edge.target
        if st.2.contains key then st
        else
          let ga := getGroupOf nodeMap edge.source
          let gb := getGroupOf nodeMap edge.target
          let cross : ℤ := if ga ≠ gb ∧ (ga.isSome ∨ gb.isSome) then
              RANK_CROSS_GROUP_BONUS else 0
          let m := if st.1.has edge.source then
              st.1.vset edge.source (st.1.val edge.source + 1 + cross)
            else st.1
          let m := if m.has edge.target then
              m.vset edge.target (m.val edge.target + 1 + cross)
            else m
          (m, st.2 ++ [key]))
    st
  -- group nodes score by member count
  groupNodes.foldl
    (fun (m : JMap String ℤ) g =>
      m.set g.id ((ideaNodes.filter (fun n => n.groupId = some g.id)).length : ℤ))
    st.1

/-- The fixed-threshold tier lookup: the first tier whose `minScore` the
score reaches wins, otherwise the default color. -/
def tierColor (tiers : List (ℤ × String)) (defaultColor : String) (score : ℤ) : String :=
  ((tiers.find? (fun t => score ≥ t.1)).map Prod.snd).getD defaultColor

/-- Radial-mode hub-rank color assignment. -/
def assignColors (nodeMap : JMap String FlowNode) (targetIds : List String)
    (ideaNodes groupNodes : List FlowNode) (edges : List FlowEdge) :
    JMap String String :=
  let scores := hubRankScores nodeMap targetIds ideaNodes groupNodes edges
  scores.entries.foldl
    (fun (nc : JMap String String) e =>
      let isGroup := groupNodes.any (fun g => g.id = e.1)
      let tiers := if isGroup then GROUP_RANK_TIERS else RANK_TIERS
      let dft := if isGroup then GROUP_RANK_DEFAULT_COLOR else RANK_DEFAULT_COLOR
      nc.set e.1 (tierColor tiers dft e.2))
    JMap.empty

-- =============================================
-- `computeAutoLayout`
-- =============================================

/-- `computeAutoLayout` of the source.  `sizeOf` is the DOM measurement
capability (`getNodeSize`), supplied by the caller; `ops` abstracts the
float library. -/
def computeAutoLayout (ops : Ops) (sizeOf : String → Sz) (nodes : List FlowNode)
    (edges : List FlowEdge) (options : ArrangeOptions) : LayoutResult :=
  let nodeMap := nodes.foldl (fun (m : JMap String FlowNode) n => m.set n.id n)
    (⟨[], fun _ => ⟨"", ⟨0, 0⟩, none, "", none, none⟩⟩ : JMap String FlowNode)
  let targetIds := computeTargetIds nodes nodeMap options
  let targetNodes := nodes.filter (fun n => targetIds.contains n.id)
  let ideaNodes := targetNodes.filter (fun n => n.nodeType = "idea")
  let groupNodes := targetNodes.filter (fun n => n.nodeType = "group")
  let childrenMap := buildChildrenMap ideaNodes targetIds
  let roots := (childrenMap.get none).getD []
  let nodeSizes := ideaNodes.foldl (fun (m : JMap String Sz) n => m.set n.id (sizeOf n.id))
    JMap.empty
  let isRadial := options.direction = "radial"
  let pg :=
    if isRadial then
      radialLayout ops edges options.viewport targetIds ideaNodes groupNodes childrenMap
        nodeSizes
    else
      treeLayout ideaNodes groupNodes childrenMap roots nodeSizes
        (options.direction = "horizontal")
  let positions := selectionAdjust nodeMap ideaNodes nodeSizes pg.2 options pg.1
  let edgeHandles :=
    if isRadial then radialEdgeHandles nodeMap targetIds edges nodeSizes pg.2 positions
    else treeEdgeHandles targetIds edges (options.direction = "horizontal")
  let nodeColors :=
    if isRadial then assignColors nodeMap targetIds ideaNodes groupNodes edges
    else JMap.empty
  ⟨positions, pg.2, edgeHandles, nodeColors⟩

-- =============================================
-- Predicates and helper definitions used by the verification
-- =============================================

/-- The virtual-adjacency invariant: no self-loop, and every neighbour
set is duplicate-free. -/
def adjInv (m : JMap String (List String)) : Prop :=
  ∀ v, v ∉ m.val v ∧ (m.val v).Nodup

/-- The per-node lower corner a `computeBBox` fold step contributes
(center or top-left coordinates, as selected by `cc`). -/
def bbLo (pos : JMap String Pt) (szs : JMap String Sz) (cc : Bool) (id : String) :
    ℚ × ℚ :=
  let p := pos.val id
  let sz := (szs.get id).getD DEFAULT_SIZE
  if cc then (p.x - sz.width / 2, p.y - sz.height / 2) else (p.x, p.y)

/-- The per-node upper corner a `computeBBox` fold step contributes. -/
def bbHi (pos : JMap String Pt) (szs : JMap String Sz) (cc : Bool) (id : String) :
    ℚ × ℚ :=
  let p := pos.val id
  let sz := (szs.get id).getD DEFAULT_SIZE
  if cc then (p.x + sz.width / 2, p.y + sz.height / 2)
  else (p.x + sz.width, p.y + sz.height)

/-- Reachability from a root through the `childrenMap` relation: the ids
the tree placement can ever visit (roots are the `none` entry; children
extend a reachable parent). -/
inductive TreeReach (cm : JMap (Option String) (List String)) : String → Prop
  | root {id : String} : id ∈ (cm.get none).getD [] → TreeReach cm id
  | child {p id : String} : TreeReach cm p → id ∈ (cm.get (some p)).getD [] →
      TreeReach cm id

/-- Two idea nodes naming each other as tree parent (a treeParentId
cycle), used as concrete input. -/
def c10CycleA : FlowNode := ⟨"n1", ⟨0, 0⟩, none, "idea", some "n2", none⟩

/-- The other node of the treeParentId cycle. -/
def c10CycleB : FlowNode := ⟨"n2", ⟨0, 0⟩, none, "idea", some "n1", none⟩

/-- A single parentless idea node, used as concrete input. -/
def c10Root : FlowNode := ⟨"r", ⟨0, 0⟩, none, "idea", none, none⟩

/-- The running x offset of a group inside the component row: widths of
the predecessors plus one 200 gap per predecessor. -/
def rowOffset (vSizes : JMap String Sz) : List String → String → ℚ
  | [], _ => 0
  | a :: rest, g =>
      if g = a then 0
      else ((vSizes.get a).getD DEFAULT_SIZE).width + 200 + rowOffset vSizes rest g

/-- The row-advance total of the component row fold (sum of widths plus a
200 gap per element, one trailing gap included as in the source's
`rowX`). -/
def rowWidth (vSizes : JMap String Sz) : List String → ℚ
  | [] => 0
  | a :: rest => ((vSizes.get a).getD DEFAULT_SIZE).width + 200 + rowWidth vSizes rest

/-- The axis-overlap test of the final sweep (top-left coordinates,
unpadded): positive intersection on both axes. -/
def sweepOverlap (p1 : Pt) (s1 : Sz) (p2 : Pt) (s2 : Sz) : Prop :=
  min (p1.x + s1.width) (p2.x + s2.width) - max p1.x p2.x > 0
  ∧ min (p1.y + s1.height) (p2.y + s2.height) - max p1.y p2.y > 0

/-- An ungrouped, parentless idea node, used as concrete input. -/
def c1N1 : FlowNode := ⟨"n1", ⟨0, 0⟩, none, "idea", none, none⟩

/-- A second ungrouped, parentless idea node, used as concrete input. -/
def c1N2 : FlowNode := ⟨"n2", ⟨0, 0⟩, none, "idea", none, none⟩

/-- A zero-member group node, used as concrete input. -/
def c5G1 : FlowNode := ⟨"g1", ⟨0, 0⟩, none, "group", none, none⟩

/-- A second zero-member group node, used as concrete input. -/
def c5G2 : FlowNode := ⟨"g2", ⟨0, 0⟩, none, "group", none, none⟩

/-- Stub for the float-library abstraction, used to evaluate the
embedding at concrete inputs (on the evaluated paths the library values
are either unused or consulted only at `sqrt 0`). -/
def stubOps : Ops := ⟨fun _ => 0, fun _ => 0, fun _ => 0, 0, fun _ _ _ => ⟨0, 0⟩⟩

/-- A single grouped idea node, used as concrete witness input. -/
def c7Member : FlowNode := ⟨"m1", ⟨0, 0⟩, none, "idea", none, some "g1"⟩

/-- The group of `c7Member`, used as concrete witness input. -/
def c7Group : FlowNode := ⟨"g1", ⟨5, 6⟩, none, "group", none, none⟩

/-- The factor-two square-root contract the non-overlap argument needs of
the float library: a non-negative result whose square is within a factor
of two of the argument, on non-negative inputs. -/
def SqrtSpec (s : ℚ → ℚ) : Prop :=
  ∀ q : ℚ, 0 ≤ q → 0 ≤ s q ∧ s q * s q ≤ 2 * q ∧ q ≤ 2 * (s q * s q)

/-- The node-vs-node push of one final-sweep step, for two nodes of the
default 180 × 50 size (mirrors the source's overlap branch). -/
def nnPush (s : ℚ → ℚ) (pA pB : Pt) : Pt × Pt :=
  let dx0 := pB.x + 180 / 2 - (pA.x + 180 / 2)
  let dy0 := pB.y + 50 / 2 - (pA.y + 50 / 2)
  let dist := s (dx0 * dx0 + dy0 * dy0)
  let d : ℚ × ℚ := if dist < 1 / 100 then (1, 0) else (dx0 / dist, dy0 / dist)
  let push := (min (min (pA.x + 180) (pB.x + 180) - max pA.x pB.x)
      (min (pA.y + 50) (pB.y + 50) - max pA.y pB.y) + 50) / 2
  (⟨pA.x - d.1 * push, pA.y - d.2 * push⟩, ⟨pB.x + d.1 * push, pB.y + d.2 * push⟩)

/-- A computable rational square root within the factor-two contract:
floor square root of the scaled integer num · den · 10000, divided back by
100 · den. -/
def ratSqrt (q : ℚ) : ℚ :=
  if q ≤ 0 then 0
  else (Nat.sqrt (q.num.toNat * q.den * 10000) : ℚ) / (100 * (q.den : ℚ))

/-- A concrete float library whose square root meets `SqrtSpec`. -/
def ratOps : Ops := ⟨ratSqrt, fun _ => 0, fun _ => 0, 0, fun _ _ _ => ⟨0, 0⟩⟩

/-- An ungrouped, parentless idea node, root of the two-node scenario. -/
def c2N1 : FlowNode := ⟨"n1", ⟨0, 0⟩, none, "idea", none, none⟩

/-- The second idea node of the two-node scenario, tree child of the
first. -/
def c2N2 : FlowNode := ⟨"n2", ⟨0, 0⟩, none, "idea", some "n1", none⟩

/-- The tree edge joining the two nodes of the scenario. -/
def c2Edge : FlowEdge := ⟨"e1", "n1", "n2", some "tree"⟩

/-- Radial mode, project scope, no viewport. -/
def c2Opts : ArrangeOptions := ⟨"radial", "project", none, none⟩

/-- The measured node sizes of the scenario (180 × 50 each). -/
def c2Szs : JMap String Sz := (JMap.empty.set "n1" ⟨180, 50⟩).set "n2" ⟨180, 50⟩

/-- The node map `computeAutoLayout` builds for the scenario. -/
def c2NodeMap : JMap String FlowNode :=
  ((⟨[], fun _ => ⟨"", ⟨0, 0⟩, none, "", none, none⟩⟩ : JMap String FlowNode).set "n1"
    c2N1).set "n2" c2N2

-- =============================================
-- Generic fold lemmas
-- =============================================

/-- Invariant preservation along a left fold. -/
theorem foldl_inv {σ β : Type} (f : σ → β → σ) (P : σ → Prop)
    (h : ∀ s b, P s → P (f s b)) : ∀ (l : List β) (s : σ), P s → P (l.foldl f s) := by
  intro l
  induction l with
  | nil => intro s hs; exact hs
  | cons b t ih => intro s hs; exact ih (f s b) (h s b hs)

/-- A left fold whose step is the identity whenever a (monotone) failure
flag stays `false` returns its input unchanged, and every element passed
the per-element check against that unchanged state. -/
theorem foldl_false_inv {σ β : Type} (f : σ × Bool → β → σ × Bool)
    (Q : σ → β → Prop)
    (hf : ∀ st b, (f st b).2 = false → f st b = st ∧ Q st.1 b) :
    ∀ (l : List β) (st : σ × Bool),
      (l.foldl f st).2 = false → l.foldl f st = st ∧ ∀ b ∈ l, Q st.1 b := by
  intro l
  induction l with
  | nil => intro st h; exact ⟨rfl, by simp⟩
  | cons b t ih =>
      intro st h
      simp only [List.foldl_cons] at h ⊢
      obtain ⟨h1, h2⟩ := ih (f st b) h
      have hb : (f st b).2 = false := by rw [h1] at h; exact h
      obtain ⟨h3, h4⟩ := hf st b hb
      rw [h3] at h1 h2 ⊢
      exact ⟨h1, by
        intro x hx
        rcases List.mem_cons.mp hx with hx | hx
        · subst hx; exact h4
        · exact h2 x hx⟩

-- =============================================
-- C4: shortest-handle correctness
-- =============================================

/-- The fold of `getShortestHandles` starting from a live best candidate:
the result is a candidate achieving the recorded distance, the recorded
distance never grows, and it is a lower bound of every scanned pair. -/
theorem shFold_spec (srcPos : Pt) (srcSize : Sz) (tgtPos : Pt) (tgtSize : Sz) :
    ∀ (l : List (String × String)) (bd : ℚ) (best : String × String),
      handleDistSq srcPos srcSize tgtPos tgtSize best = bd →
      ∃ bd' best',
        l.foldl (shStep srcPos srcSize tgtPos tgtSize) (some bd, best) = (some bd', best')
        ∧ handleDistSq srcPos srcSize tgtPos tgtSize best' = bd'
        ∧ bd' ≤ bd
        ∧ (best' = best ∨ best' ∈ l)
        ∧ ∀ p ∈ l, bd' ≤ handleDistSq srcPos srcSize tgtPos tgtSize p := by
  intro l
  induction l with
  | nil =>
      intro bd best hbd
      exact ⟨bd, best, rfl, hbd, le_refl bd, Or.inl rfl, by simp⟩
  | cons p t ih =>
      intro bd best hbd
      by_cases hlt : handleDistSq srcPos srcSize tgtPos tgtSize p < bd
      · have hstep : shStep srcPos srcSize tgtPos tgtSize (some bd, best) p
            = (some (handleDistSq srcPos srcSize tgtPos tgtSize p), p) := by
          simp [shStep, hlt]
        obtain ⟨bd', best', h1, h2, h3, h4, h5⟩ :=
          ih (handleDistSq srcPos srcSize tgtPos tgtSize p) p rfl
        refine ⟨bd', best', ?_, h2, le_of_lt (lt_of_le_of_lt h3 hlt), ?_, ?_⟩
        · simpa [hstep] using h1
        · rcases h4 with h4 | h4
          · exact Or.inr (by simp [h4])
          · exact Or.inr (List.mem_cons_of_mem _ h4)
        · intro q hq
          rcases List.mem_cons.mp hq with hq | hq
          · subst hq; exact h3
          · exact h5 q hq
      · have hstep : shStep srcPos srcSize tgtPos tgtSize (some bd, best) p
            = (some bd, best) := by
          simp [shStep, hlt]
        obtain ⟨bd', best', h1, h2, h3, h4, h5⟩ := ih bd best hbd
        refine ⟨bd', best', ?_, h2, h3, ?_, ?_⟩
        · simpa [hstep] using h1
        · rcases h4 with h4 | h4
          · exact Or.inl h4
          · exact Or.inr (List.mem_cons_of_mem _ h4)
        · intro q hq
          rcases List.mem_cons.mp hq with hq | hq
          · subst hq; exact le_trans h3 (not_lt.mp hlt)
          · exact h5 q hq

/-- `getShortestHandles` picks a combination from the 16 scanned pairs and
no scanned pair has a strictly smaller squared handle distance. -/
theorem getShortestHandles_min (srcPos : Pt) (srcSize : Sz) (tgtPos : Pt) (tgtSize : Sz) :
    getShortestHandles srcPos srcSize tgtPos tgtSize ∈ handlePairs ∧
    ∀ p ∈ handlePairs,
      handleDistSq srcPos srcSize tgtPos tgtSize
          (getShortestHandles srcPos srcSize tgtPos tgtSize)
        ≤ handleDistSq srcPos srcSize tgtPos tgtSize p := by
  have hl : handlePairs = ("top", "top") ::
      [("top", "bottom"), ("top", "left"), ("top", "right"),
       ("bottom", "top"), ("bottom", "bottom"), ("bottom", "left"), ("bottom", "right"),
       ("left", "top"), ("left", "bottom"), ("left", "left"), ("left", "right"),
       ("right", "top"), ("right", "bottom"), ("right", "left"), ("right", "right")] := by
    decide
  have hstep0 : shStep srcPos srcSize tgtPos tgtSize (none, ("right", "left")) ("top", "top")
      = (some (handleDistSq srcPos srcSize tgtPos tgtSize ("top", "top")), ("top", "top")) := by
    simp [shStep]
  obtain ⟨bd', best', h1, h2, h3, h4, h5⟩ :=
    shFold_spec srcPos srcSize tgtPos tgtSize
      [("top", "bottom"), ("top", "left"), ("top", "right"),
       ("bottom", "top"), ("bottom", "bottom"), ("bottom", "left"), ("bottom", "right"),
       ("left", "top"), ("left", "bottom"), ("left", "left"), ("left", "right"),
       ("right", "top"), ("right", "bottom"), ("right", "left"), ("right", "right")]
      (handleDistSq srcPos srcSize tgtPos tgtSize ("top", "top")) ("top", "top") rfl
  have hful : getShortestHandles srcPos srcSize tgtPos tgtSize = best' := by
    unfold getShortestHandles
    rw [hl, List.foldl_cons, hstep0, h1]
  constructor
  · rw [hful, hl]
    rcases h4 with h4 | h4
    · simp [h4]
    · exact List.mem_cons_of_mem _ h4
  · intro p hp
    rw [hful, h2]
    rw [hl] at hp
    rcases List.mem_cons.mp hp with hp | hp
    · subst hp; exact h3
    · exact h5 p hp

/-- C4: for every pair of source/target positions and sizes, the handle
pair returned by `getShortestHandles` is drawn from the four handle names
on each side, and no other of the 16 combinations yields a strictly
smaller distance between the corresponding handle attachment points
(stated via the squared distance the source compares, which orders
distances identically). -/
theorem c4_shortest_handles (srcPos : Pt) (srcSize : Sz) (tgtPos : Pt) (tgtSize : Sz) :
    (getShortestHandles srcPos srcSize tgtPos tgtSize).1 ∈ HANDLE_NAMES ∧
    (getShortestHandles srcPos srcSize tgtPos tgtSize).2 ∈ HANDLE_NAMES ∧
    ∀ sh ∈ HANDLE_NAMES, ∀ th ∈ HANDLE_NAMES,
      handleDistSq srcPos srcSize tgtPos tgtSize
          (getShortestHandles srcPos srcSize tgtPos tgtSize)
        ≤ handleDistSq srcPos srcSize tgtPos tgtSize (sh, th) := by
  obtain ⟨hmem, hmin⟩ := getShortestHandles_min srcPos srcSize tgtPos tgtSize
  have hNames : ∀ p ∈ handlePairs, p.1 ∈ HANDLE_NAMES ∧ p.2 ∈ HANDLE_NAMES := by decide
  refine ⟨(hNames _ hmem).1, (hNames _ hmem).2, ?_⟩
  intro sh hsh th hth
  apply hmin
  have : ∀ a ∈ HANDLE_NAMES, ∀ b ∈ HANDLE_NAMES, (a, b) ∈ handlePairs := by decide
  exact this sh hsh th hth

/-- Witness for C4 at a concrete input. -/
theorem c4_shortest_handles_witness :
    "top" ∈ HANDLE_NAMES ∧ "left" ∈ HANDLE_NAMES ∧
    handleDistSq ⟨0, 0⟩ ⟨180, 50⟩ ⟨400, 0⟩ ⟨180, 50⟩
        (getShortestHandles ⟨0, 0⟩ ⟨180, 50⟩ ⟨400, 0⟩ ⟨180, 50⟩)
      ≤ handleDistSq ⟨0, 0⟩ ⟨180, 50⟩ ⟨400, 0⟩ ⟨180, 50⟩ ("top", "left") := by
  refine ⟨by decide, by decide, ?_⟩
  exact (c4_shortest_handles ⟨0, 0⟩ ⟨180, 50⟩ ⟨400, 0⟩ ⟨180, 50⟩).2.2 "top" (by decide)
    "left" (by decide)

-- =============================================
-- C3: crossing non-increase of the greedy swap pass
-- =============================================

/-- The best-swap search: a strictly positive recorded reduction is
witnessed by a pair whose swap attains exactly that reduction. -/
theorem findBestSwap_spec (m : JMap String Pt) (edges : List (String × String))
    (base : ℕ) (cands : List String) :
    0 < (findBestSwap m edges base cands).2 →
    ∃ p, (findBestSwap m edges base cands).1 = some p ∧
      (countCrossings (swapPos m p.1 p.2) edges : ℤ)
        = (base : ℤ) - (findBestSwap m edges base cands).2 := by
  have h := foldl_inv
    (fun (st : Option (String × String) × ℤ) p =>
      let reduction : ℤ := (base : ℤ) - (countCrossings (swapPos m p.1 p.2) edges : ℤ)
      if reduction > st.2 then (some p, reduction) else st)
    (fun st => 0 < st.2 → ∃ p, st.1 = some p ∧
      (countCrossings (swapPos m p.1 p.2) edges : ℤ) = (base : ℤ) - st.2)
    (by
      intro st b hP
      dsimp only
      by_cases hgt : (base : ℤ) - (countCrossings (swapPos m b.1 b.2) edges : ℤ) > st.2
      · rw [if_pos hgt]
        intro _
        exact ⟨b, rfl, by ring⟩
      · rw [if_neg hgt]
        exact hP)
    (candPairs cands) (none, 0)
    (by intro h0; exact absurd h0 (lt_irrefl 0))
  exact h

/-- The pass loop of `reduceCrossingsBySwap` never increases the crossing
count: each applied swap was evaluated against a freshly computed base
count and attains a strictly positive reduction. -/
theorem reduceCrossingsLoop_le (cands : List String) (edges : List (String × String)) :
    ∀ (fuel : ℕ) (m : JMap String Pt) (any : Bool),
      countCrossings (reduceCrossingsLoop cands edges fuel m any).1 edges
        ≤ countCrossings m edges := by
  intro fuel
  induction fuel with
  | zero => intro m any; exact le_refl _
  | succ fuel ih =>
      intro m any
      show countCrossings (reduceCrossingsLoop cands edges (fuel + 1) m any).1 edges ≤ _
      rw [reduceCrossingsLoop]
      by_cases hbase : countCrossings m edges = 0
      · rw [if_pos hbase]
      · rw [if_neg hbase]
        by_cases hred : (findBestSwap m edges (countCrossings m edges) cands).2 ≤ 0
        · rw [if_pos hred]
        · rw [if_neg hred]
          obtain ⟨p, hp1, hp2⟩ := findBestSwap_spec m edges (countCrossings m edges) cands
            (lt_of_not_le hred)
          rw [hp1]
          have hle : countCrossings (swapPos m p.1 p.2) edges ≤ countCrossings m edges := by
            have hc : (countCrossings (swapPos m p.1 p.2) edges : ℤ)
                ≤ (countCrossings m edges : ℤ) := by
              rw [hp2]
              have := lt_of_not_le hred
              omega
            exact_mod_cast hc
          exact le_trans (ih (swapPos m p.1 p.2) true) hle

/-- C3: `reduceCrossingsBySwap` never increases the crossing count, for
every swappable id list, center-position map, edge list and pass cap. -/
theorem c3_crossing_nonincrease (swappableIds : List String) (centerPos : JMap String Pt)
    (edges : List (String × String)) (maxPasses : ℕ) :
    countCrossings (reduceCrossingsBySwap swappableIds centerPos edges maxPasses).1 edges
      ≤ countCrossings centerPos edges := by
  rw [reduceCrossingsBySwap]
  by_cases h1 : edges.length < 2 ∨ swappableIds.length < 2
  · rw [if_pos h1]
  · rw [if_neg h1]
    by_cases h2 : (swappableIds.filter (fun id =>
        (edges.foldl (fun s e => addUniq (addUniq s e.1) e.2) []).contains id
          && centerPos.has id)).length < 2
    · simp only [if_pos h2]
      exact le_refl _
    · simp only [if_neg h2]
      exact reduceCrossingsLoop_le _ edges maxPasses centerPos false

-- =============================================
-- C6: hub selection
-- =============================================

/-- A non-group candidate's hub score is non-negative (it accumulates
degree and neighbouring-group counts). -/
theorem hubScore_nonneg (groupNodeIds : List String) (vAdj : JMap String (List String))
    (id : String) (h : ¬ groupNodeIds.contains id = true) :
    0 ≤ hubScore groupNodeIds vAdj id := by
  rw [hubScore, if_neg h]
  have hst := foldl_inv
    (fun (st : ℤ × ℤ) nb => (st.1 + 1, if groupNodeIds.contains nb then st.2 + 1 else st.2))
    (fun st => 0 ≤ st.1 ∧ 0 ≤ st.2)
    (by
      intro st b hP
      obtain ⟨h1, h2⟩ := hP
      constructor
      · show 0 ≤ st.1 + 1
        omega
      · show 0 ≤ (if groupNodeIds.contains b = true then st.2 + 1 else st.2)
        split <;> omega)
    ((vAdj.get id).getD []) (0, 0) ⟨le_refl 0, le_refl 0⟩
  obtain ⟨h1, h2⟩ := hst
  dsimp only
  exact add_nonneg (mul_nonneg h2 (by norm_num)) h1

/-- A group candidate's hub score is the fixed −1000. -/
theorem hubScore_group (groupNodeIds : List String) (vAdj : JMap String (List String))
    (id : String) (h : groupNodeIds.contains id = true) :
    hubScore groupNodeIds vAdj id = -1000 := by
  rw [hubScore, if_pos h]

/-- The `reduce` fold of `findHub`: the result is the first maximal
candidate of `b :: cs` (the running best is replaced only by a strictly
higher score). -/
theorem findHubFold_spec (groupNodeIds : List String) (vAdj : JMap String (List String)) :
    ∀ (cs : List String) (b r : String),
      cs.foldl (fun best id => if hubScore groupNodeIds vAdj id
          > hubScore groupNodeIds vAdj best then id else best) b = r →
      (r = b ∧ ∀ x ∈ cs, hubScore groupNodeIds vAdj x ≤ hubScore groupNodeIds vAdj b)
      ∨ (∃ l1 l2, cs = l1 ++ r :: l2
          ∧ hubScore groupNodeIds vAdj b < hubScore groupNodeIds vAdj r
          ∧ (∀ x ∈ l1, hubScore groupNodeIds vAdj x < hubScore groupNodeIds vAdj r)
          ∧ (∀ x ∈ l2, hubScore groupNodeIds vAdj x ≤ hubScore groupNodeIds vAdj r)) := by
  intro cs
  induction cs with
  | nil =>
      intro b r hr
      simp only [List.foldl_nil] at hr
      exact Or.inl ⟨hr.symm, by simp⟩
  | cons c cs ih =>
      intro b r hr
      rw [List.foldl_cons] at hr
      by_cases hgt : hubScore groupNodeIds vAdj c > hubScore groupNodeIds vAdj b
      · rw [if_pos hgt] at hr
        rcases ih c r hr with ⟨h1, h2⟩ | ⟨l1, l2, h1, h2, h3, h4⟩
        · refine Or.inr ⟨[], cs, ?_, ?_, by simp, ?_⟩
          · rw [h1]; rfl
          · rw [h1]; exact hgt
          · intro x hx; rw [h1]; exact h2 x hx
        · refine Or.inr ⟨c :: l1, l2, ?_, lt_trans hgt h2, ?_, h4⟩
          · rw [List.cons_append]; exact congrArg (fun t => c :: t) h1
          · intro x hx
            rcases List.mem_cons.mp hx with hx | hx
            · subst hx; exact h2
            · exact h3 x hx
      · rw [if_neg hgt] at hr
        rcases ih b r hr with ⟨h1, h2⟩ | ⟨l1, l2, h1, h2, h3, h4⟩
        · refine Or.inl ⟨h1, ?_⟩
          intro x hx
          rcases List.mem_cons.mp hx with hx | hx
          · subst hx; exact not_lt.mp hgt
          · exact h2 x hx
        · refine Or.inr ⟨c :: l1, l2, ?_, h2, ?_, h4⟩
          · rw [List.cons_append]; exact congrArg (fun t => c :: t) h1
          · intro x hx
            rcases List.mem_cons.mp hx with hx | hx
            · subst hx; exact lt_of_le_of_lt (not_lt.mp hgt) h2
            · exact h3 x hx

/-- C6: the hub of a component maximises the hub score (group neighbours
× 100 + degree), groups themselves score the fixed −1000, ties go to the
first maximal candidate encountered, and whenever the component contains
at least one non-group virtual node the hub is a non-group node. -/
theorem c6_hub_selection (groupNodeIds : List String) (vAdj : JMap String (List String))
    (comp : List String) (hne : comp ≠ []) :
    findHub groupNodeIds vAdj comp ∈ comp
    ∧ (∀ x ∈ comp, hubScore groupNodeIds vAdj x
        ≤ hubScore groupNodeIds vAdj (findHub groupNodeIds vAdj comp))
    ∧ (∃ l1 l2, comp = l1 ++ (findHub groupNodeIds vAdj comp) :: l2
        ∧ ∀ x ∈ l1, hubScore groupNodeIds vAdj x
            < hubScore groupNodeIds vAdj (findHub groupNodeIds vAdj comp))
    ∧ (∀ id, groupNodeIds.contains id = true → hubScore groupNodeIds vAdj id = -1000)
    ∧ ((∃ x ∈ comp, ¬ groupNodeIds.contains x = true) →
        ¬ groupNodeIds.contains (findHub groupNodeIds vAdj comp) = true) := by
  match comp, hne with
  | c :: cs, _ =>
      have hspec := findHubFold_spec groupNodeIds vAdj cs c
        (findHub groupNodeIds vAdj (c :: cs)) rfl
      have hmax : ∀ x ∈ c :: cs, hubScore groupNodeIds vAdj x
          ≤ hubScore groupNodeIds vAdj (findHub groupNodeIds vAdj (c :: cs)) := by
        rcases hspec with ⟨h1, h2⟩ | ⟨l1, l2, h1, h2, h3, h4⟩
        · intro x hx
          rcases List.mem_cons.mp hx with hx | hx
          · subst hx; rw [h1]
          · rw [h1]; exact h2 x hx
        · intro x hx
          rcases List.mem_cons.mp hx with hx | hx
          · subst hx; exact le_of_lt h2
          · rw [h1] at hx
            rcases List.mem_append.mp hx with hx | hx
            · exact le_of_lt (h3 x hx)
            · rcases List.mem_cons.mp hx with hx | hx
              · subst hx; exact le_refl _
              · exact h4 x hx
      have hmem : findHub groupNodeIds vAdj (c :: cs) ∈ c :: cs := by
        rcases hspec with ⟨h1, _⟩ | ⟨l1, l2, h1, _, _, _⟩
        · rw [h1]; exact List.mem_cons_self c cs
        · refine List.mem_cons_of_mem c ?_
          have hin : findHub groupNodeIds vAdj (c :: cs)
              ∈ l1 ++ findHub groupNodeIds vAdj (c :: cs) :: l2 :=
            List.mem_append_right l1 (List.mem_cons_self _ _)
          rwa [← h1] at hin
      refine ⟨hmem, hmax, ?_, fun id h => hubScore_group groupNodeIds vAdj id h, ?_⟩
      · rcases hspec with ⟨h1, _⟩ | ⟨l1, l2, h1, h2, h3, _⟩
        · refine ⟨[], cs, ?_, by simp⟩
          rw [h1]; rfl
        · refine ⟨c :: l1, l2, ?_, ?_⟩
          · rw [List.cons_append]; exact congrArg (fun t => c :: t) h1
          · intro x hx
            rcases List.mem_cons.mp hx with hx | hx
            · subst hx; exact h2
            · exact h3 x hx
      · rintro ⟨x, hx, hxng⟩ hg
        have h1 : 0 ≤ hubScore groupNodeIds vAdj x := hubScore_nonneg groupNodeIds vAdj x hxng
        have h2 := hmax x hx
        have h3 := hubScore_group groupNodeIds vAdj _ hg
        omega

/-- Witness for C6 at a concrete component. -/
theorem c6_hub_selection_witness :
    (["a", "g"] : List String) ≠ [] ∧
    (findHub ["g"] JMap.empty ["a", "g"] ∈ (["a", "g"] : List String)
    ∧ (∀ x ∈ (["a", "g"] : List String), hubScore ["g"] JMap.empty x
        ≤ hubScore ["g"] JMap.empty (findHub ["g"] JMap.empty ["a", "g"]))
    ∧ (∃ l1 l2, (["a", "g"] : List String) = l1 ++ (findHub ["g"] JMap.empty ["a", "g"]) :: l2
        ∧ ∀ x ∈ l1, hubScore ["g"] JMap.empty x
            < hubScore ["g"] JMap.empty (findHub ["g"] JMap.empty ["a", "g"]))
    ∧ (∀ id, (["g"] : List String).contains id = true → hubScore ["g"] JMap.empty id = -1000)
    ∧ ((∃ x ∈ (["a", "g"] : List String), ¬ (["g"] : List String).contains x = true) →
        ¬ (["g"] : List String).contains (findHub ["g"] JMap.empty ["a", "g"]) = true)) :=
  ⟨by decide, c6_hub_selection ["g"] JMap.empty ["a", "g"] (by decide)⟩

-- =============================================
-- C8: virtual adjacency invariants
-- =============================================

theorem mem_addUniq {α : Type} [DecidableEq α] (l : List α) (x y : α) :
    y ∈ addUniq l x ↔ y ∈ l ∨ y = x := by
  rw [addUniq]
  split_ifs with hc
  · constructor
    · exact Or.inl
    · rintro (h1 | rfl)
      · exact h1
      · simpa using hc
  · simp [List.mem_append]

theorem addUniq_nodup {α : Type} [DecidableEq α] (l : List α) (x : α)
    (h : l.Nodup) : (addUniq l x).Nodup := by
  rw [addUniq]
  split_ifs with hc
  · exact h
  · refine List.Nodup.append h (List.nodup_singleton x) ?_
    rw [List.disjoint_singleton]
    simpa using hc

theorem JMap.val_vset_self {κ α : Type} [DecidableEq κ] (m : JMap κ α) (k : κ) (v : α) :
    (m.vset k v).val k = v := by simp [JMap.vset]

theorem JMap.val_vset_ne {κ α : Type} [DecidableEq κ] (m : JMap κ α) (k : κ) (v : α)
    (x : κ) (h : x ≠ k) : (m.vset k v).val x = m.val x := by simp [JMap.vset, h]

theorem JMap.val_set_self {κ α : Type} [DecidableEq κ] (m : JMap κ α) (k : κ) (v : α) :
    (m.set k v).val k = v := by simp [JMap.set]

theorem JMap.val_set_ne {κ α : Type} [DecidableEq κ] (m : JMap κ α) (k : κ) (v : α)
    (x : κ) (h : x ≠ k) : (m.set k v).val x = m.val x := by simp [JMap.set, h]

theorem adjInv_empty : adjInv JMap.empty := by
  intro v
  refine ⟨?_, ?_⟩
  · show v ∉ ([] : List String)
    simp
  · show ([] : List String).Nodup
    exact List.nodup_nil

theorem adjInv_set_empty (m : JMap String (List String)) (k : String) (h : adjInv m) :
    adjInv (m.set k []) := by
  intro v
  by_cases hv : v = k
  · subst hv
    rw [JMap.val_set_self]
    exact ⟨by simp, List.nodup_nil⟩
  · rw [JMap.val_set_ne m k [] v hv]
    exact h v

theorem adjInv_insertPair (m : JMap String (List String)) (a b : String)
    (hab : a ≠ b) (h : adjInv m) : adjInv (vAdjInsertPair m a b) := by
  have hm1b : (m.vset a (addUniq (m.val a) b)).val b = m.val b :=
    JMap.val_vset_ne m a _ b (Ne.symm hab)
  intro v
  simp only [vAdjInsertPair]
  by_cases hvb : v = b
  · subst hvb
    rw [JMap.val_vset_self, hm1b]
    constructor
    · intro hmem
      rcases (mem_addUniq _ _ _).mp hmem with h1 | h1
      · exact (h _).1 h1
      · exact hab h1.symm
    · exact addUniq_nodup _ _ (h _).2
  · rw [JMap.val_vset_ne _ b _ v hvb]
    by_cases hva : v = a
    · subst hva
      rw [JMap.val_vset_self]
      constructor
      · intro hmem
        rcases (mem_addUniq _ _ _).mp hmem with h1 | h1
        · exact (h _).1 h1
        · exact hab h1
      · exact addUniq_nodup _ _ (h _).2
    · rw [JMap.val_vset_ne _ a _ v hva]
      exact h v

theorem adjInv_ensure (m : JMap String (List String)) (k : String) (h : adjInv m) :
    adjInv (vAdjEnsure m k) := by
  rw [vAdjEnsure]
  split_ifs
  · exact h
  · exact adjInv_set_empty m k h

theorem crossStep_inv (targetIds : List String) (groupMemberMap : JMap String String)
    (st : JMap String (List String) × List String) (edge : FlowEdge)
    (h : adjInv st.1) : adjInv (crossStep targetIds groupMemberMap st edge).1 := by
  simp only [crossStep]
  split_ifs with h1 h2 h3
  · exact h
  · exact h
  · exact h
  · exact adjInv_insertPair st.1 _ _ h2 h

theorem treeStep_inv (groupMemberMap : JMap String String) (parentId? : Option String)
    (st : JMap String (List String) × List String) (childId : String)
    (h : adjInv st.1) : adjInv (treeStep groupMemberMap parentId? st childId).1 := by
  match parentId? with
  | none => exact h
  | some parentId =>
      simp only [treeStep]
      split_ifs with h1 h2
      · exact h
      · exact h
      · exact adjInv_insertPair _ _ _ (Ne.symm h1)
          (adjInv_ensure _ _ (adjInv_ensure _ _ h))

/-- A crosslink edge whose unordered pair key was already processed
leaves the state unchanged. -/
theorem crossStep_skip (targetIds : List String) (groupMemberMap : JMap String String)
    (st : JMap String (List String) × List String) (edge : FlowEdge)
    (h : st.2.contains (pairKey ((groupMemberMap.get edge.source).getD edge.source)
        ((groupMemberMap.get edge.target).getD edge.target)) = true) :
    crossStep targetIds groupMemberMap st edge = st := by
  simp only [crossStep]
  by_cases h1 : ¬ targetIds.contains edge.source = true
      ∨ ¬ targetIds.contains edge.target = true
  · rw [if_pos h1]
  · rw [if_neg h1]
    by_cases h2 : ((groupMemberMap.get edge.source).getD edge.source)
        = ((groupMemberMap.get edge.target).getD edge.target)
    · rw [if_pos h2]
    · rw [if_neg h2, if_pos h]

/-- A tree relation whose unordered pair key was already processed leaves
the state unchanged. -/
theorem treeStep_skip (groupMemberMap : JMap String String) (parentId : String)
    (st : JMap String (List String) × List String) (childId : String)
    (h : st.2.contains (pairKey ((groupMemberMap.get parentId).getD parentId)
        ((groupMemberMap.get childId).getD childId)) = true) :
    treeStep groupMemberMap (some parentId) st childId = st := by
  simp only [treeStep]
  by_cases h1 : ((groupMemberMap.get childId).getD childId)
      = ((groupMemberMap.get parentId).getD parentId)
  · rw [if_pos h1]
  · rw [if_neg h1, if_pos h]

theorem charListLt_asymm : ∀ a b : List Char, charListLt a b = true → charListLt b a = false := by
  intro a
  induction a with
  | nil =>
      intro b hb
      match b with
      | [] => simp [charListLt] at hb
      | c :: cs => simp [charListLt]
  | cons x xs ih =>
      intro b hb
      match b with
      | [] => simp [charListLt] at hb
      | y :: ys =>
          rw [charListLt] at hb
          rw [charListLt]
          by_cases h1 : x.toNat < y.toNat
          · rw [if_pos h1] at hb
            rw [if_neg (by omega), if_pos h1]
          · rw [if_neg h1] at hb
            by_cases h2 : y.toNat < x.toNat
            · rw [if_pos h2] at hb
              exact absurd hb (by simp)
            · rw [if_neg h2] at hb
              rw [if_neg h2, if_neg h1]
              exact ih ys hb

theorem charListLt_total_eq : ∀ a b : List Char,
    charListLt a b = false → charListLt b a = false → a = b := by
  intro a
  induction a with
  | nil =>
      intro b h1 h2
      match b with
      | [] => rfl
      | c :: cs => simp [charListLt] at h1
  | cons x xs ih =>
      intro b h1 h2
      match b with
      | [] => simp [charListLt] at h2
      | y :: ys =>
          rw [charListLt] at h1 h2
          by_cases h3 : x.toNat < y.toNat
          · rw [if_pos h3] at h1
            exact absurd h1 (by simp)
          · rw [if_neg h3] at h1
            by_cases h4 : y.toNat < x.toNat
            · rw [if_pos h4] at h2
              exact absurd h2 (by simp)
            · rw [if_neg h4] at h1
              rw [if_neg h4, if_neg h3] at h2
              have hxy : x = y := by
                have hn : x.toNat = y.toNat := by omega
                exact Char.ext (UInt32.ext hn)
              rw [hxy, ih ys h1 h2]

/-- The ordered pair key is symmetric: A–B and B–A produce the same key. -/
theorem pairKey_comm (a b : String) : pairKey a b = pairKey b a := by
  rw [pairKey, pairKey, strLt, strLt]
  by_cases h1 : charListLt a.data b.data = true
  · rw [if_pos h1, if_neg (by rw [charListLt_asymm _ _ h1]; simp)]
  · have h1' : charListLt a.data b.data = false := by simpa using h1
    by_cases h2 : charListLt b.data a.data = true
    · rw [if_neg (by simp [h1']), if_pos h2]
    · have h2' : charListLt b.data a.data = false := by simpa using h2
      have hd : a.data = b.data := charListLt_total_eq _ _ h1' h2'
      have hab : a = b := by
        cases a
        cases b
        exact congrArg String.mk hd
      subst hab
      rfl

/-- C8: the virtual adjacency graph has no self-loops, records each
neighbour at most once (duplicate-free neighbour sets), and its edge
de-duplication key is orientation-independent, so a pair already
processed in either orientation leaves the construction state unchanged. -/
theorem c8_virtual_adjacency (targetIds : List String) (ideaNodes groupNodes : List FlowNode)
    (groupMemberMap : JMap String String)
    (childrenMap : JMap (Option String) (List String)) (edges : List FlowEdge) :
    adjInv (buildVirtualAdj targetIds ideaNodes groupNodes groupMemberMap childrenMap
      edges).2
    ∧ (∀ a b : String, pairKey a b = pairKey b a)
    ∧ (∀ (st : JMap String (List String) × List String) (edge : FlowEdge),
        st.2.contains (pairKey ((groupMemberMap.get edge.source).getD edge.source)
          ((groupMemberMap.get edge.target).getD edge.target)) = true →
        crossStep targetIds groupMemberMap st edge = st)
    ∧ (∀ (parentId : String) (st : JMap String (List String) × List String)
        (childId : String),
        st.2.contains (pairKey ((groupMemberMap.get parentId).getD parentId)
          ((groupMemberMap.get childId).getD childId)) = true →
        treeStep groupMemberMap (some parentId) st childId = st) := by
  refine ⟨?_, pairKey_comm,
    fun st edge h => crossStep_skip targetIds groupMemberMap st edge h,
    fun pid st cid h => treeStep_skip groupMemberMap pid st cid h⟩
  rw [buildVirtualAdj]
  dsimp only
  exact foldl_inv _ (fun (st : JMap String (List String) × List String) => adjInv st.1)
    (fun s pr hs => foldl_inv _
      (fun (st : JMap String (List String) × List String) => adjInv st.1)
      (fun s' b hs' => treeStep_inv groupMemberMap pr.1 s' b hs') pr.2 s hs)
    childrenMap.entries _
    (foldl_inv _ (fun (st : JMap String (List String) × List String) => adjInv st.1)
      (fun s e hs => crossStep_inv targetIds groupMemberMap s e hs) edges _
      (foldl_inv _ adjInv (fun m k hm => adjInv_ensure m k hm) _ JMap.empty adjInv_empty))

/-- Witness for C8: a crosslink whose key was already recorded is a
no-op of the construction state. -/
theorem c8_virtual_adjacency_witness :
    ((["a|b"] : List String).contains
      (pairKey (((JMap.empty : JMap String String).get "a").getD "a")
        (((JMap.empty : JMap String String).get "b").getD "b")) = true)
    ∧ crossStep ["a", "b"] JMap.empty
        ((JMap.empty : JMap String (List String)), ["a|b"]) ⟨"e", "a", "b", none⟩
      = ((JMap.empty : JMap String (List String)), ["a|b"]) := by
  refine ⟨by decide, ?_⟩
  exact (c8_virtual_adjacency ["a", "b"] [] [] JMap.empty JMap.empty []).2.2.1
    ((JMap.empty : JMap String (List String)), ["a|b"]) ⟨"e", "a", "b", none⟩ (by decide)

-- =============================================
-- C7: local-frame containment of group members
-- =============================================

/-- Invariant preservation along a left fold, with the step hypothesis
restricted to elements of the folded list. -/
theorem foldl_inv_mem {σ β : Type} (f : σ → β → σ) (P : σ → Prop) :
    ∀ (l : List β), (∀ s, ∀ b ∈ l, P s → P (f s b)) → ∀ s, P s → P (l.foldl f s) := by
  intro l
  induction l with
  | nil => intro _ s hs; exact hs
  | cons b t ih =>
      intro h s hs
      exact ih (fun s' b' hb' hs' => h s' b' (List.mem_cons_of_mem b hb') hs')
        (f s b) (h s b (List.mem_cons_self b t) hs)

/-- A property the fold step establishes at one element of the list and
every step preserves holds of the fold's result. -/
theorem foldl_one {σ β : Type} (f : σ → β → σ) (P : σ → Prop) (b : β)
    (hens : ∀ s, P (f s b)) (hpres : ∀ s b', P s → P (f s b')) :
    ∀ (l : List β), b ∈ l → ∀ s, P (l.foldl f s) := by
  intro l
  induction l with
  | nil => intro hb; exact absurd hb (List.not_mem_nil b)
  | cons a t ih =>
      intro hb s
      rcases List.mem_cons.mp hb with rfl | hb
      · exact foldl_inv f P hpres t (f s b) (hens s)
      · exact ih hb (f s a)

theorem JMap.get_of_has {κ α : Type} [DecidableEq κ] (m : JMap κ α) (k : κ)
    (h : m.has k = true) : m.get k = some (m.val k) := by
  rw [JMap.has] at h
  rw [JMap.get, if_pos h]

theorem JMap.get_some {κ α : Type} [DecidableEq κ] (m : JMap κ α) (k : κ) (v : α)
    (h : m.get k = some v) : m.has k = true ∧ m.val k = v := by
  rw [JMap.get] at h
  split_ifs at h with hc
  · refine ⟨hc, ?_⟩
    injection h


theorem JMap.has_set_self {κ α : Type} [DecidableEq κ] (m : JMap κ α) (k : κ) (v : α) :
    (m.set k v).has k = true := by
  rw [JMap.has, JMap.set]
  split_ifs with hc
  · exact hc
  · simp

theorem JMap.has_set_of_has {κ α : Type} [DecidableEq κ] (m : JMap κ α) (k x : κ)
    (v : α) (h : m.has x = true) : (m.set k v).has x = true := by
  rw [JMap.has] at h
  rw [JMap.has, JMap.set]
  split_ifs with hc
  · exact h
  · simp at h ⊢
    exact Or.inl h

theorem JMap.get_set_self {κ α : Type} [DecidableEq κ] (m : JMap κ α) (k : κ) (v : α) :
    (m.set k v).get k = some v := by
  rw [JMap.get_of_has _ _ (JMap.has_set_self m k v), JMap.val_set_self]

theorem JMap.get_set_ne {κ α : Type} [DecidableEq κ] (m : JMap κ α) (k : κ) (v : α)
    (x : κ) (h : x ≠ k) : (m.set k v).get x = m.get x := by
  have hc : (m.set k v).keys.contains x = m.keys.contains x := by
    rw [JMap.set]
    split_ifs with hk
    · rfl
    · simp [h]
  rw [JMap.get, JMap.get, JMap.val_set_ne m k v x h, hc]

theorem JMap.get_vset_ne {κ α : Type} [DecidableEq κ] (m : JMap κ α) (k : κ) (v : α)
    (x : κ) (h : x ≠ k) : (m.vset k v).get x = m.get x := by
  rw [JMap.get, JMap.get, JMap.val_vset_ne m k v x h]
  rfl

theorem JMap.get_vset_of_get {κ α : Type} [DecidableEq κ] (m : JMap κ α) (k : κ)
    (v w : α) (h : m.get k = some w) : (m.vset k v).get k = some v := by
  have hh := (JMap.get_some m k w h).1
  rw [JMap.has] at hh
  rw [JMap.get, JMap.vset]
  dsimp only
  rw [if_pos hh]
  simp

/-- One simulation step only re-stores existing keys of the position map. -/
theorem simStep_keys (ops : Ops) (nodeIds : List String)
    (edgeList : List (String × String)) (nodeSizes : JMap String Sz)
    (config : SimConfig) (iter : ℕ) (cp vel : JMap String Pt) :
    (simStep ops nodeIds edgeList nodeSizes config iter cp vel).1.keys = cp.keys := by
  rw [simStep]
  dsimp only
  refine foldl_inv _ (fun (m : JMap String Pt) => m.keys = cp.keys) ?_ nodeIds _ ?_
  · intro s b hs; exact hs
  · refine foldl_inv _
      (fun (st : JMap String Pt × JMap String Pt) => st.1.keys = cp.keys)
      ?_ (candPairs nodeIds) _ ?_
    · intro s p hs
      dsimp only
      split
      · exact hs
      · exact hs
    · refine foldl_inv _
        (fun (st : JMap String Pt × JMap String Pt × ℚ) => st.1.keys = cp.keys)
        ?_ nodeIds _ rfl
      intro s b hs; exact hs

/-- The simulation loop only re-stores existing keys of the position map. -/
theorem simLoop_keys (ops : Ops) (nodeIds : List String)
    (edgeList : List (String × String)) (nodeSizes : JMap String Sz)
    (config : SimConfig) :
    ∀ (fuel iter : ℕ) (cp vel : JMap String Pt),
      (simLoop ops nodeIds edgeList nodeSizes config fuel iter cp vel).keys = cp.keys := by
  intro fuel
  induction fuel with
  | zero => intro iter cp vel; rfl
  | succ n ih =>
      intro iter cp vel
      rw [simLoop]
      split
      · exact simStep_keys ops nodeIds edgeList nodeSizes config iter cp vel
      · exact (ih (iter + 1) _ _).trans
          (simStep_keys ops nodeIds edgeList nodeSizes config iter cp vel)

theorem runForceSimulation_keys (ops : Ops) (nodeIds : List String)
    (centerPos : JMap String Pt) (edgeList : List (String × String))
    (nodeSizes : JMap String Sz) (config : SimConfig) :
    (runForceSimulation ops nodeIds centerPos edgeList nodeSizes config).keys
      = centerPos.keys := by
  rw [runForceSimulation]
  exact simLoop_keys ops nodeIds edgeList nodeSizes config config.iterations 0 centerPos _

theorem reduceCrossingsLoop_keys (cands : List String) (edges : List (String × String)) :
    ∀ (fuel : ℕ) (m : JMap String Pt) (any : Bool),
      (reduceCrossingsLoop cands edges fuel m any).1.keys = m.keys := by
  intro fuel
  induction fuel with
  | zero => intro m any; rfl
  | succ n ih =>
      intro m any
      rw [reduceCrossingsLoop]
      dsimp only
      split_ifs with h1 h2
      · rfl
      · rfl
      · split
        · rfl
        · exact ih _ true

theorem reduceCrossingsBySwap_keys (swappableIds : List String)
    (centerPos : JMap String Pt) (edges : List (String × String)) (maxPasses : ℕ) :
    (reduceCrossingsBySwap swappableIds centerPos edges maxPasses).1.keys
      = centerPos.keys := by
  rw [reduceCrossingsBySwap]
  split_ifs with h1
  · rfl
  · dsimp only
    split_ifs with h2
    · rfl
    · exact reduceCrossingsLoop_keys _ edges maxPasses centerPos false

theorem resolveOverlapsPair_keys (ops : Ops) (nodeSizes : JMap String Sz) (pad : ℚ)
    (st : JMap String Pt × Bool) (p : String × String) :
    (resolveOverlapsPair ops nodeSizes pad st p).1.keys = st.1.keys := by
  rw [resolveOverlapsPair]
  cases hA : st.1.get p.1 with
  | none => rfl
  | some pa =>
      cases hB : st.1.get p.2 with
      | none => rfl
      | some pb =>
          dsimp only
          split
          · rfl
          · rfl

theorem resolveOverlapsLoop_keys (ops : Ops) (nodeIds : List String)
    (nodeSizes : JMap String Sz) (pad : ℚ) :
    ∀ (fuel : ℕ) (m : JMap String Pt),
      (resolveOverlapsLoop ops nodeIds nodeSizes pad fuel m).keys = m.keys := by
  intro fuel
  induction fuel with
  | zero => intro m; rfl
  | succ n ih =>
      intro m
      rw [resolveOverlapsLoop]
      have hfold : ((candPairs nodeIds).foldl (resolveOverlapsPair ops nodeSizes pad)
          (m, false)).1.keys = m.keys :=
        foldl_inv _ (fun (st : JMap String Pt × Bool) => st.1.keys = m.keys)
          (fun s b hs => (resolveOverlapsPair_keys ops nodeSizes pad s b).trans hs)
          (candPairs nodeIds) (m, false) rfl
      split
      · exact (ih _).trans hfold
      · exact hfold

theorem resolveOverlaps_keys (ops : Ops) (nodeIds : List String)
    (centerPos : JMap String Pt) (nodeSizes : JMap String Sz) (pad : ℚ) :
    (resolveOverlaps ops nodeIds centerPos nodeSizes pad).keys = centerPos.keys := by
  rw [resolveOverlaps]
  exact resolveOverlapsLoop_keys ops nodeIds nodeSizes pad 20 centerPos

/-- After the seeding stage every member id is stored in the center
position map (the fill loop adds every id the BFS placement missed). -/
theorem giSeed_has (ops : Ops) (members : List FlowNode)
    (adj : JMap String (List String)) (id : String)
    (h : id ∈ members.map FlowNode.id) :
    (giSeed ops members adj).has id = true := by
  rw [giSeed]
  dsimp only
  refine foldl_one _ (fun (st : JMap String Pt × ℕ) => st.1.has id = true) id ?_ ?_
    (members.map FlowNode.id) h _
  · intro s
    dsimp only
    split_ifs with hc
    · exact hc
    · exact JMap.has_set_self s.1 id _
  · intro s b hs
    dsimp only
    split_ifs with hc
    · exact hs
    · exact JMap.has_set_of_has s.1 b id _ hs

/-- The simulated, crossing-reduced center position map keeps every
member id as a key. -/
theorem giCenterPos_has (ops : Ops) (members : List FlowNode)
    (nodeSizes : JMap String Sz) (allEdges : List FlowEdge) (id : String)
    (h : id ∈ members.map FlowNode.id) :
    (giCenterPos ops members nodeSizes allEdges).has id = true := by
  have hseed := giSeed_has ops members (giAdj members allEdges) id h
  rw [JMap.has] at hseed
  rw [giCenterPos]
  split_ifs with hrc
  · rw [JMap.has, resolveOverlaps_keys, reduceCrossingsBySwap_keys,
      runForceSimulation_keys]
    exact hseed
  · rw [JMap.has, reduceCrossingsBySwap_keys, runForceSimulation_keys]
    exact hseed

/-- `computeBBox` over a list containing a stored id returns a box that
covers that id's rectangle, with the width and height fields derived from
the extremes. -/
theorem computeBBox_bounds (ids : List String) (pos : JMap String Pt)
    (szs : JMap String Sz) (cc : Bool) (id : String) (hmem : id ∈ ids)
    (hhas : pos.has id = true) :
    ∃ bb : BBox, computeBBox ids pos szs cc = some bb ∧
      bb.minX ≤ (bbLo pos szs cc id).1 ∧ bb.minY ≤ (bbLo pos szs cc id).2 ∧
      (bbHi pos szs cc id).1 ≤ bb.maxX ∧ (bbHi pos szs cc id).2 ≤ bb.maxY ∧
      bb.w = bb.maxX - bb.minX ∧ bb.h = bb.maxY - bb.minY := by
  have hP : ∃ a b c d, (ids.foldl
      (fun (st : Option (ℚ × ℚ × ℚ × ℚ)) i =>
        match pos.get i with
        | none => st
        | some p =>
            let sz := (szs.get i).getD DEFAULT_SIZE
            let lo : ℚ × ℚ := if cc then (p.x - sz.width / 2, p.y - sz.height / 2)
              else (p.x, p.y)
            let hi : ℚ × ℚ := if cc then (p.x + sz.width / 2, p.y + sz.height / 2)
              else (p.x + sz.width, p.y + sz.height)
            match st with
            | none => some (lo.1, lo.2, hi.1, hi.2)
            | some (a, b, c, d) => some (min a lo.1, min b lo.2, max c hi.1, max d hi.2))
      none) = some (a, b, c, d)
      ∧ a ≤ (bbLo pos szs cc id).1 ∧ b ≤ (bbLo pos szs cc id).2
      ∧ (bbHi pos szs cc id).1 ≤ c ∧ (bbHi pos szs cc id).2 ≤ d := by
    refine foldl_one _ (fun (st : Option (ℚ × ℚ × ℚ × ℚ)) =>
      ∃ a b c d, st = some (a, b, c, d)
        ∧ a ≤ (bbLo pos szs cc id).1 ∧ b ≤ (bbLo pos szs cc id).2
        ∧ (bbHi pos szs cc id).1 ≤ c ∧ (bbHi pos szs cc id).2 ≤ d) id ?_ ?_ ids hmem none
    · intro s
      rw [JMap.get_of_has pos id hhas]
      dsimp only
      rcases s with _ | ⟨a, b, c, d⟩
      · exact ⟨_, _, _, _, rfl, le_refl _, le_refl _, le_refl _, le_refl _⟩
      · refine ⟨_, _, _, _, rfl, ?_, ?_, ?_, ?_⟩
        · exact min_le_right a _
        · exact min_le_right b _
        · exact le_max_right c _
        · exact le_max_right d _
    · intro s b' hs
      obtain ⟨a, b, c, d, hst, h1, h2, h3, h4⟩ := hs
      subst hst
      cases hg : pos.get b' with
      | none => exact ⟨a, b, c, d, rfl, h1, h2, h3, h4⟩
      | some p =>
          dsimp only
          refine ⟨_, _, _, _, rfl, ?_, ?_, ?_, ?_⟩
          · exact le_trans (min_le_left a _) h1
          · exact le_trans (min_le_left b _) h2
          · exact le_trans h3 (le_max_left c _)
          · exact le_trans h4 (le_max_left d _)
  obtain ⟨a, b, c, d, hst, h1, h2, h3, h4⟩ := hP
  refine ⟨⟨a, b, c, d, c - a, d - b⟩, ?_, h1, h2, h3, h4, rfl, rfl⟩
  rw [computeBBox]
  dsimp only
  rw [hst]
  rfl

/-- A fold that stores `g k` at every key `k` of a list yields `g id` at
each listed id. -/
theorem foldl_set_get {α : Type} [Inhabited α] (g : String → α) (l : List String)
    (id : String) (hmem : id ∈ l) (m0 : JMap String α) :
    (l.foldl (fun m k => m.set k (g k)) m0).get id = some (g id) := by
  refine foldl_one _ (fun (m : JMap String α) => m.get id = some (g id)) id ?_ ?_ l hmem m0
  · intro s
    exact JMap.get_set_self s id (g id)
  · intro s b hs
    by_cases hb : b = id
    · subst hb
      exact JMap.get_set_self s b (g b)
    · rw [JMap.get_set_ne s b (g b) id (fun hx => hb hx.symm)]
      exact hs

/-- Radial path: every member position returned by the group-internal
layouter lies inside the group box, below the header strip. -/
theorem gi_containment (ops : Ops) (members : List FlowNode) (nodeSizes : JMap String Sz)
    (allEdges : List FlowEdge) (m : FlowNode) (q : Pt) (hm : m ∈ members)
    (hq : (computeGroupInternalLayout ops members nodeSizes allEdges).memberPositions.get
        m.id = some q) :
    0 ≤ q.x
    ∧ q.x + ((nodeSizes.get m.id).getD DEFAULT_SIZE).width
        ≤ (computeGroupInternalLayout ops members nodeSizes allEdges).width
    ∧ GROUP_HEADER ≤ q.y
    ∧ q.y + ((nodeSizes.get m.id).getD DEFAULT_SIZE).height
        ≤ (computeGroupInternalLayout ops members nodeSizes allEdges).height := by
  have hlen : ¬ members.length = 0 := by
    intro h0
    rw [List.length_eq_zero] at h0
    subst h0
    exact absurd hm (List.not_mem_nil m)
  have hid : m.id ∈ members.map FlowNode.id := List.mem_map_of_mem FlowNode.id hm
  have hhas := giCenterPos_has ops members nodeSizes allEdges m.id hid
  obtain ⟨bb, hbb, h1, h2, h3, h4, hw, hh⟩ := computeBBox_bounds
    (members.map FlowNode.id) (giCenterPos ops members nodeSizes allEdges)
    nodeSizes true m.id hid hhas
  rw [computeGroupInternalLayout, if_neg hlen] at hq ⊢
  dsimp only at hq ⊢
  rw [hbb] at hq ⊢
  dsimp only at hq ⊢
  have hget := foldl_set_get
    (fun idd => (⟨((giCenterPos ops members nodeSizes allEdges).val idd).x
        - ((nodeSizes.get idd).getD DEFAULT_SIZE).width / 2 - bb.minX + GROUP_PADDING,
      ((giCenterPos ops members nodeSizes allEdges).val idd).y
        - ((nodeSizes.get idd).getD DEFAULT_SIZE).height / 2 - bb.minY
        + GROUP_PADDING + GROUP_HEADER⟩ : Pt))
    (members.map FlowNode.id) m.id hid JMap.empty
  have hqq := Option.some.inj (hget.symm.trans hq)
  subst hqq
  simp only [bbLo, bbHi, if_true] at h1 h2 h3 h4
  dsimp only at h1 h2 h3 h4 ⊢
  simp only [GROUP_PADDING, GROUP_HEADER] at *
  refine ⟨by linarith, by linarith, by linarith, by linarith⟩

/-- The member re-expression fold of `treeGroupOne`: the listed occurrence
of a stored key is shifted by `F`, every other element leaves it alone. -/
theorem foldl_vset_shift (F : Pt → Pt) (k : String) (l1 l2 : List FlowNode)
    (x0 : FlowNode) (base : JMap String Pt) (p : Pt) (hx0 : x0.id = k)
    (hne1 : ∀ x ∈ l1, x.id ≠ k) (hne2 : ∀ x ∈ l2, x.id ≠ k)
    (hbase : base.get k = some p) :
    ((l1 ++ x0 :: l2).foldl
      (fun (pos : JMap String Pt) x =>
        match pos.get x.id with
        | some pp => pos.vset x.id (F pp)
        | none => pos) base).get k = some (F p) := by
  rw [List.foldl_append, List.foldl_cons]
  have hpre : (l1.foldl
      (fun (pos : JMap String Pt) x =>
        match pos.get x.id with
        | some pp => pos.vset x.id (F pp)
        | none => pos) base).get k = some p := by
    refine foldl_inv_mem _ (fun (pos : JMap String Pt) => pos.get k = some p) l1 ?_
      base hbase
    intro pos x hx hs
    cases hgx : pos.get x.id with
    | none => exact hs
    | some pp =>
        dsimp only
        rw [JMap.get_vset_ne pos x.id (F pp) k (fun he => hne1 x hx he.symm)]
        exact hs
  have hmid : ((fun (pos : JMap String Pt) (x : FlowNode) =>
      match pos.get x.id with
      | some pp => pos.vset x.id (F pp)
      | none => pos)
      (l1.foldl (fun (pos : JMap String Pt) (x : FlowNode) =>
        match pos.get x.id with
        | some pp => pos.vset x.id (F pp)
        | none => pos) base) x0).get k = some (F p) := by
    dsimp only
    rw [hx0, hpre]
    exact JMap.get_vset_of_get _ k (F p) p hpre
  refine foldl_inv_mem _ (fun (pos : JMap String Pt) => pos.get k = some (F p)) l2 ?_
    _ hmid
  intro pos x hx hs
  cases hgx : pos.get x.id with
  | none => exact hs
  | some pp =>
      dsimp only
      rw [JMap.get_vset_ne pos x.id (F pp) k (fun he => hne2 x hx he.symm)]
      exact hs

/-- `treeGroupOne` never creates a position for an absent key other than
the group's own id. -/
theorem treeGroupOne_notouch (ideaNodes : List FlowNode) (nodeSizes : JMap String Sz)
    (st : JMap String Pt × JMap String Sz) (g : FlowNode) (k : String)
    (hk : k ≠ g.id) (h : st.1.get k = none) :
    (treeGroupOne ideaNodes nodeSizes st g).1.get k = none := by
  rw [treeGroupOne]
  dsimp only
  split_ifs with hlen
  · rw [JMap.get_set_ne _ _ _ _ hk]
    exact h
  · cases hbb : computeBBox
        (List.map FlowNode.id (List.filter (fun n => n.groupId = some g.id) ideaNodes))
        st.1 nodeSizes false with
    | none =>
        dsimp only
        rw [JMap.get_set_ne _ _ _ _ hk]
        exact h
    | some bb =>
        dsimp only
        refine foldl_inv _ (fun (pos : JMap String Pt) => pos.get k = none) ?_ _ _ ?_
        · intro pos x hs
          by_cases hx : x.id = k
          · rw [hx, hs]
            exact hs
          · cases hgx : pos.get x.id with
            | none => exact hs
            | some pp =>
                dsimp only
                rw [JMap.get_vset_ne pos x.id _ k (fun he => hx he.symm)]
                exact hs
        · dsimp only
          rw [JMap.get_set_ne _ _ _ _ hk]
          exact h

/-- A `treeGroupOne` step for a different group, none of whose members
carries a given key, preserves that key's position and another group's
stored size. -/
theorem treeGroupOne_preserve (ideaNodes : List FlowNode) (nodeSizes : JMap String Sz)
    (st : JMap String Pt × JMap String Sz) (g : FlowNode) (k1 k2 : String)
    (hk1 : k1 ≠ g.id) (hk2 : k2 ≠ g.id)
    (hmem : ∀ x ∈ ideaNodes.filter (fun n => n.groupId = some g.id), x.id ≠ k1) :
    (treeGroupOne ideaNodes nodeSizes st g).1.get k1 = st.1.get k1
    ∧ (treeGroupOne ideaNodes nodeSizes st g).2.get k2 = st.2.get k2 := by
  rw [treeGroupOne]
  dsimp only
  split_ifs with hlen
  · exact ⟨JMap.get_set_ne _ _ _ _ hk1, JMap.get_set_ne _ _ _ _ hk2⟩
  · cases hbb : computeBBox
        (List.map FlowNode.id (List.filter (fun n => n.groupId = some g.id) ideaNodes))
        st.1 nodeSizes false with
    | none =>
        exact ⟨JMap.get_set_ne _ _ _ _ hk1, JMap.get_set_ne _ _ _ _ hk2⟩
    | some bb =>
        dsimp only
        refine ⟨?_, JMap.get_set_ne _ _ _ _ hk2⟩
        refine foldl_inv_mem _
          (fun (pos : JMap String Pt) => pos.get k1 = st.1.get k1) _ ?_ _ ?_
        · intro pos x hx hs
          cases hgx : pos.get x.id with
          | none => exact hs
          | some pp =>
              dsimp only
              rw [JMap.get_vset_ne pos x.id (⟨pp.x - (bb.minX - GROUP_PADDING),
                pp.y - (bb.minY - GROUP_PADDING - GROUP_HEADER)⟩ : Pt) k1
                (fun he => hmem x hx he.symm)]
              exact hs
        · exact JMap.get_set_ne _ _ _ _ hk1

/-- The `treeGroupOne` step of a member's own group: whatever position the
step returns for the member fits in the group box it stores. -/
theorem treeGroupOne_containment (ideaNodes : List FlowNode) (nodeSizes : JMap String Sz)
    (st : JMap String Pt × JMap String Sz) (group m : FlowNode) (q : Pt) (s : Sz)
    (hm : m ∈ ideaNodes.filter (fun n => n.groupId = some group.id))
    (hnd : ((ideaNodes.filter (fun n => n.groupId = some group.id)).map
      FlowNode.id).Nodup)
    (hmid : m.id ≠ group.id)
    (hq : (treeGroupOne ideaNodes nodeSizes st group).1.get m.id = some q)
    (hs : (treeGroupOne ideaNodes nodeSizes st group).2.get group.id = some s) :
    0 ≤ q.x ∧ q.x + ((nodeSizes.get m.id).getD DEFAULT_SIZE).width ≤ s.width
    ∧ GROUP_HEADER ≤ q.y
    ∧ q.y + ((nodeSizes.get m.id).getD DEFAULT_SIZE).height ≤ s.height := by
  have hlen : ¬ (ideaNodes.filter (fun n => n.groupId = some group.id)).length = 0 := by
    intro h0
    rw [List.length_eq_zero] at h0
    rw [h0] at hm
    exact absurd hm (List.not_mem_nil m)
  cases hpos : st.1.get m.id with
  | none =>
      rw [treeGroupOne_notouch ideaNodes nodeSizes st group m.id hmid hpos] at hq
      exact absurd hq (by simp)
  | some p =>
      have hhas := (JMap.get_some st.1 m.id p hpos).1
      have hval := (JMap.get_some st.1 m.id p hpos).2
      obtain ⟨bb, hbb, h1, h2, h3, h4, hw, hh⟩ := computeBBox_bounds
        (List.map FlowNode.id (List.filter (fun n => n.groupId = some group.id) ideaNodes))
        st.1 nodeSizes false m.id (List.mem_map_of_mem FlowNode.id hm) hhas
      rw [treeGroupOne] at hq hs
      dsimp only at hq hs
      rw [if_neg hlen] at hq hs
      rw [hbb] at hq hs
      dsimp only at hq hs
      rw [JMap.get_set_self] at hs
      obtain ⟨M1, M2, hsp⟩ := List.append_of_mem hm
      have hndsp := hnd
      rw [hsp, List.map_append, List.map_cons] at hndsp
      have hdisj12 := List.disjoint_of_nodup_append hndsp
      have hnotin1 : m.id ∉ M1.map FlowNode.id := fun hin =>
        hdisj12 hin (List.mem_cons_self m.id (M2.map FlowNode.id))
      have hnotin2 : m.id ∉ M2.map FlowNode.id :=
        (List.nodup_cons.mp (List.Nodup.of_append_right hndsp)).1
      have hne1 : ∀ x ∈ M1, x.id ≠ m.id := fun x hx he =>
        hnotin1 (he ▸ List.mem_map_of_mem FlowNode.id hx)
      have hne2 : ∀ x ∈ M2, x.id ≠ m.id := fun x hx he =>
        hnotin2 (he ▸ List.mem_map_of_mem FlowNode.id hx)
      have hbase : (st.1.set group.id
          (⟨bb.minX - GROUP_PADDING, bb.minY - GROUP_PADDING - GROUP_HEADER⟩ : Pt)).get
          m.id = some p := by
        rw [JMap.get_set_ne _ _ _ _ hmid]
        exact hpos
      have hshift := foldl_vset_shift
        (fun pp => (⟨pp.x - (bb.minX - GROUP_PADDING),
          pp.y - (bb.minY - GROUP_PADDING - GROUP_HEADER)⟩ : Pt))
        m.id M1 M2 m
        (st.1.set group.id
          (⟨bb.minX - GROUP_PADDING, bb.minY - GROUP_PADDING - GROUP_HEADER⟩ : Pt))
        p rfl hne1 hne2 hbase
      rw [hsp] at hq
      have hqq := Option.some.inj (hshift.symm.trans hq)
      have hss := Option.some.inj hs
      subst hqq
      subst hss
      simp only [bbLo, bbHi, Bool.false_eq_true, if_false] at h1 h2 h3 h4
      rw [hval] at h1 h2 h3 h4
      dsimp only at h1 h2 h3 h4 ⊢
      simp only [GROUP_PADDING, GROUP_HEADER] at *
      refine ⟨by linarith, by linarith, by linarith, by linarith⟩

/-- Tree path: with duplicate-free node ids and idea ids disjoint from
group ids, every member position returned by the group post-processing
lies inside its group's stored box, below the header strip. -/
theorem treeGroupStage_containment (ideaNodes groupNodes : List FlowNode)
    (nodeSizes : JMap String Sz) (positions : JMap String Pt) (group m : FlowNode)
    (q : Pt) (s : Sz)
    (hNI : (ideaNodes.map FlowNode.id).Nodup)
    (hNG : (groupNodes.map FlowNode.id).Nodup)
    (hdisj : ∀ n ∈ ideaNodes, ∀ g ∈ groupNodes, n.id ≠ g.id)
    (hg : group ∈ groupNodes) (hm : m ∈ ideaNodes) (hmg : m.groupId = some group.id)
    (hq : (treeGroupStage ideaNodes groupNodes nodeSizes positions).1.get m.id = some q)
    (hs : (treeGroupStage ideaNodes groupNodes nodeSizes positions).2.get group.id
      = some s) :
    0 ≤ q.x ∧ q.x + ((nodeSizes.get m.id).getD DEFAULT_SIZE).width ≤ s.width
    ∧ GROUP_HEADER ≤ q.y
    ∧ q.y + ((nodeSizes.get m.id).getD DEFAULT_SIZE).height ≤ s.height := by
  obtain ⟨G1, G2, hsp⟩ := List.append_of_mem hg
  have hNGsp := hNG
  rw [hsp, List.map_append, List.map_cons] at hNGsp
  have hnotin2 : group.id ∉ G2.map FlowNode.id :=
    (List.nodup_cons.mp (List.Nodup.of_append_right hNGsp)).1
  have hGne : ∀ g' ∈ G2, group.id ≠ g'.id := fun g' hg' he =>
    hnotin2 (he ▸ List.mem_map_of_mem FlowNode.id hg')
  have hGmem : ∀ g' ∈ G2, g' ∈ groupNodes := fun g' hg' => by
    rw [hsp]
    exact List.mem_append_right G1 (List.mem_cons_of_mem group hg')
  rw [treeGroupStage, hsp, List.foldl_append, List.foldl_cons] at hq hs
  set T := treeGroupOne ideaNodes nodeSizes
    (G1.foldl (treeGroupOne ideaNodes nodeSizes) (positions, JMap.empty)) group with hT
  have hinj := List.inj_on_of_nodup_map hNI
  have hstep : ∀ (st : JMap String Pt × JMap String Sz), ∀ g' ∈ G2,
      (st.1.get m.id = T.1.get m.id ∧ st.2.get group.id = T.2.get group.id) →
      ((treeGroupOne ideaNodes nodeSizes st g').1.get m.id = T.1.get m.id
        ∧ (treeGroupOne ideaNodes nodeSizes st g').2.get group.id
          = T.2.get group.id) := by
    intro st g' hg' hst
    have hpr := treeGroupOne_preserve ideaNodes nodeSizes st g' m.id group.id
      (hdisj m hm g' (hGmem g' hg'))
      (hGne g' hg')
      (fun x hx he => by
        have hxi := (List.mem_filter.mp hx).1
        have hxg := (List.mem_filter.mp hx).2
        have hxm : x = m := hinj hxi hm he
        rw [hxm] at hxg
        rw [hmg] at hxg
        simp at hxg
        exact hGne g' hg' hxg)
    exact ⟨hpr.1.trans hst.1, hpr.2.trans hst.2⟩
  have hP := foldl_inv_mem (treeGroupOne ideaNodes nodeSizes)
    (fun (st : JMap String Pt × JMap String Sz) =>
      st.1.get m.id = T.1.get m.id ∧ st.2.get group.id = T.2.get group.id)
    G2 hstep T ⟨rfl, rfl⟩
  rw [hP.1] at hq
  rw [hP.2] at hs
  have hmf : m ∈ ideaNodes.filter (fun n => n.groupId = some group.id) :=
    List.mem_filter.mpr ⟨hm, by simp [hmg]⟩
  have hndf : ((ideaNodes.filter (fun n => n.groupId = some group.id)).map
      FlowNode.id).Nodup :=
    List.Nodup.sublist (List.Sublist.map FlowNode.id (List.filter_sublist ideaNodes)) hNI
  exact treeGroupOne_containment ideaNodes nodeSizes _ group m q s hmf hndf
    (hdisj m hm group hg) hq hs

/-- C7: for every group laid out with at least one member, each member
position returned in the group's local coordinate frame satisfies
`0 ≤ x`, `x + width ≤ group.width`, `header ≤ y` and
`y + height ≤ group.height` — in the radial path's group-internal
layouter, and in the horizontal/vertical tree path's group
post-processing (the latter under duplicate-free node ids with idea ids
disjoint from group ids). -/
theorem c7_local_containment :
    (∀ (ops : Ops) (members : List FlowNode) (nodeSizes : JMap String Sz)
      (allEdges : List FlowEdge) (m : FlowNode) (q : Pt), m ∈ members →
      (computeGroupInternalLayout ops members nodeSizes allEdges).memberPositions.get m.id
        = some q →
      0 ≤ q.x
      ∧ q.x + ((nodeSizes.get m.id).getD DEFAULT_SIZE).width
          ≤ (computeGroupInternalLayout ops members nodeSizes allEdges).width
      ∧ GROUP_HEADER ≤ q.y
      ∧ q.y + ((nodeSizes.get m.id).getD DEFAULT_SIZE).height
          ≤ (computeGroupInternalLayout ops members nodeSizes allEdges).height)
    ∧ (∀ (ideaNodes groupNodes : List FlowNode) (nodeSizes : JMap String Sz)
      (positions : JMap String Pt) (group m : FlowNode) (q : Pt) (s : Sz),
      (ideaNodes.map FlowNode.id).Nodup → (groupNodes.map FlowNode.id).Nodup →
      (∀ n ∈ ideaNodes, ∀ g ∈ groupNodes, n.id ≠ g.id) →
      group ∈ groupNodes → m ∈ ideaNodes → m.groupId = some group.id →
      (treeGroupStage ideaNodes groupNodes nodeSizes positions).1.get m.id = some q →
      (treeGroupStage ideaNodes groupNodes nodeSizes positions).2.get group.id = some s →
      0 ≤ q.x ∧ q.x + ((nodeSizes.get m.id).getD DEFAULT_SIZE).width ≤ s.width
      ∧ GROUP_HEADER ≤ q.y
      ∧ q.y + ((nodeSizes.get m.id).getD DEFAULT_SIZE).height ≤ s.height) :=
  ⟨fun ops members nodeSizes allEdges m q hm hq =>
      gi_containment ops members nodeSizes allEdges m q hm hq,
   fun ideaNodes groupNodes nodeSizes positions group m q s hNI hNG hdisj hg hm hmg hq hs =>
      treeGroupStage_containment ideaNodes groupNodes nodeSizes positions group m q s
        hNI hNG hdisj hg hm hmg hq hs⟩

set_option maxRecDepth 100000 in
unseal Rat.add Rat.mul Rat.sub Rat.inv in
/-- Witness for C7: one idea node of default size in one group, in both
paths; the returned local position is `(40, 70)` inside the stored group
box. -/
theorem c7_local_containment_witness :
    ((computeGroupInternalLayout stubOps [c7Member] JMap.empty []).memberPositions.get
        c7Member.id = some ⟨40, 70⟩
      ∧ 0 ≤ (40 : ℚ)
      ∧ (40 : ℚ) + (((JMap.empty : JMap String Sz).get c7Member.id).getD
            DEFAULT_SIZE).width
          ≤ (computeGroupInternalLayout stubOps [c7Member] JMap.empty []).width
      ∧ GROUP_HEADER ≤ (70 : ℚ)
      ∧ (70 : ℚ) + (((JMap.empty : JMap String Sz).get c7Member.id).getD
            DEFAULT_SIZE).height
          ≤ (computeGroupInternalLayout stubOps [c7Member] JMap.empty []).height)
    ∧ ((treeGroupStage [c7Member] [c7Group] JMap.empty
          (JMap.empty.set "m1" ⟨0, 0⟩)).1.get c7Member.id = some ⟨40, 70⟩
      ∧ (treeGroupStage [c7Member] [c7Group] JMap.empty
          (JMap.empty.set "m1" ⟨0, 0⟩)).2.get c7Group.id = some ⟨260, 160⟩
      ∧ 0 ≤ (40 : ℚ)
      ∧ (40 : ℚ) + (((JMap.empty : JMap String Sz).get c7Member.id).getD
            DEFAULT_SIZE).width ≤ (⟨260, 160⟩ : Sz).width
      ∧ GROUP_HEADER ≤ (70 : ℚ)
      ∧ (70 : ℚ) + (((JMap.empty : JMap String Sz).get c7Member.id).getD
            DEFAULT_SIZE).height ≤ (⟨260, 160⟩ : Sz).height) := by
  have h1 := c7_local_containment.1 stubOps [c7Member] JMap.empty [] c7Member
    ⟨40, 70⟩ (List.mem_singleton.mpr rfl) (by rfl)
  have h2 := c7_local_containment.2 [c7Member] [c7Group] JMap.empty
    (JMap.empty.set "m1" ⟨0, 0⟩) c7Group c7Member ⟨40, 70⟩ ⟨260, 160⟩
    (by decide) (by decide) (by decide)
    (List.mem_singleton.mpr rfl) (List.mem_singleton.mpr rfl) rfl (by rfl) (by rfl)
  exact ⟨⟨by rfl, h1.1, h1.2.1, h1.2.2.1, h1.2.2.2⟩,
    ⟨by rfl, by rfl, h2.1, h2.2.1, h2.2.2.1, h2.2.2.2⟩⟩

-- =============================================
-- C9: degenerate input policy
-- =============================================

/-- A fold whose step is the identity returns its input. -/
theorem foldl_id {σ β : Type} (f : σ → β → σ) (l : List β) (s : σ)
    (h : ∀ s' b, f s' b = s') : l.foldl f s = s :=
  foldl_inv f (fun s' => s' = s) (fun s' b hs => (h s' b).trans hs) l s rfl

/-- An empty node list yields an empty target set outside selection scope. -/
theorem computeTargetIds_empty_nodes (nm : JMap String FlowNode)
    (options : ArrangeOptions) (hscope : options.scope = "project") :
    computeTargetIds [] nm options = [] := by
  rw [computeTargetIds]
  cases hS : options.selectedNodeIds with
  | none => rfl
  | some sel =>
      dsimp only
      rw [hscope, if_neg (by decide : ¬ ("project" : String) = "selection")]
      rfl

/-- Without idea nodes the selection recentring is a no-op. -/
theorem selectionAdjust_empty (nm : JMap String FlowNode) (ns gs : JMap String Sz)
    (options : ArrangeOptions) (positions : JMap String Pt) :
    selectionAdjust nm [] ns gs options positions = positions := by
  rw [selectionAdjust]
  dsimp only
  split_ifs <;> rfl

/-- With an empty target set the radial edge-handle pass stores nothing. -/
theorem radialEdgeHandles_empty_targets (nm : JMap String FlowNode)
    (edges : List FlowEdge) (ns gs : JMap String Sz) (positions : JMap String Pt) :
    radialEdgeHandles nm [] edges ns gs positions = JMap.empty := by
  rw [radialEdgeHandles]
  refine foldl_id _ edges JMap.empty ?_
  intro eh edge
  rw [if_pos]
  exact Or.inl (by simp)

/-- With an empty target set the tree edge-handle pass stores nothing. -/
theorem treeEdgeHandles_empty_targets (edges : List FlowEdge) (isHorizontal : Bool) :
    treeEdgeHandles [] edges isHorizontal = JMap.empty := by
  rw [treeEdgeHandles]
  refine foldl_id _ edges JMap.empty ?_
  intro eh edge
  split_ifs with h1 h2 h3
  · rfl
  · exact absurd h2.1 (by simp)
  · exact absurd h2.1 (by simp)
  · rfl

/-- With no nodes in scope the hub-rank scoring stores nothing. -/
theorem hubRankScores_empty (nm : JMap String FlowNode) (edges : List FlowEdge) :
    hubRankScores nm [] [] [] edges = JMap.empty := by
  rw [hubRankScores]
  dsimp only
  simp only [List.foldl_nil]
  have hid : edges.foldl
      (fun (st : JMap String ℤ × List String) edge =>
        if edge.source = edge.target ∨ ¬ ([] : List String).contains edge.source ∨
            ¬ ([] : List String).contains edge.target then st
        else
          let key := pairKey edge.source edge.target
          if st.2.contains key then st
          else
            let ga := getGroupOf nm edge.source
            let gb := getGroupOf nm edge.target
            let cross : ℤ := if ga ≠ gb ∧ (ga.isSome ∨ gb.isSome) then
                RANK_CROSS_GROUP_BONUS else 0
            let m := if st.1.has edge.source then
                st.1.vset edge.source (st.1.val edge.source + 1 + cross)
              else st.1
            let m := if m.has edge.target then
                m.vset edge.target (m.val edge.target + 1 + cross)
              else m
            (m, st.2 ++ [key]))
      (JMap.empty, []) = (JMap.empty, []) := by
    refine foldl_id _ edges _ ?_
    intro st e
    rw [if_pos]
    exact Or.inr (Or.inl (by simp))
  rw [hid]

/-- With no nodes in scope the color assignment stores nothing. -/
theorem assignColors_empty (nm : JMap String FlowNode) (edges : List FlowEdge) :
    assignColors nm [] [] [] edges = JMap.empty := by
  rw [assignColors, hubRankScores_empty]
  rfl

/-- The radial branch of an empty layout returns empty maps. -/
theorem radialLayout_empty (ops : Ops) (edges : List FlowEdge) (vp : Option Sz)
    (cm : JMap (Option String) (List String)) (ns : JMap String Sz) :
    radialLayout ops edges vp [] [] [] cm ns = (JMap.empty, JMap.empty) := by
  cases vp with
  | none => rfl
  | some v =>
      rw [radialLayout]
      dsimp only
      split_ifs <;> rfl

/-- An empty node list yields a result whose four mappings are all empty
(project scope; the direction, edges and viewport are arbitrary). -/
theorem computeAutoLayout_empty_nodes (ops : Ops) (sizeOf : String → Sz)
    (edges : List FlowEdge) (options : ArrangeOptions)
    (hscope : options.scope = "project") :
    (computeAutoLayout ops sizeOf [] edges options).positions.keys = []
    ∧ (computeAutoLayout ops sizeOf [] edges options).groupSizes.keys = []
    ∧ (computeAutoLayout ops sizeOf [] edges options).edgeHandles.keys = []
    ∧ (computeAutoLayout ops sizeOf [] edges options).nodeColors.keys = [] := by
  rw [computeAutoLayout]
  dsimp only
  rw [computeTargetIds_empty_nodes _ options hscope]
  simp only [List.filter_nil, List.foldl_nil, buildChildrenMap]
  by_cases hdir : options.direction = "radial"
  · simp only [if_pos hdir]
    rw [radialLayout_empty]
    rw [selectionAdjust_empty, radialEdgeHandles_empty_targets, assignColors_empty]
    exact ⟨rfl, rfl, rfl, rfl⟩
  · simp only [if_neg hdir]
    rw [selectionAdjust_empty, treeEdgeHandles_empty_targets]
    exact ⟨rfl, rfl, rfl, rfl⟩

/-- A stored-value fold keyed by a projection with key-determined values
yields the key's value at every listed element. -/
theorem foldl_set_get_key {α β : Type} [Inhabited α] (key : β → String) (f : String → α)
    (l : List β) (b0 : β) (hmem : b0 ∈ l) (m0 : JMap String α) :
    (l.foldl (fun m b => m.set (key b) (f (key b))) m0).get (key b0)
      = some (f (key b0)) := by
  refine foldl_one _ (fun (m : JMap String α) => m.get (key b0) = some (f (key b0)))
    b0 ?_ ?_ l hmem m0
  · intro s
    exact JMap.get_set_self s (key b0) (f (key b0))
  · intro s b hs
    by_cases hb : key b = key b0
    · rw [hb]
      exact JMap.get_set_self s (key b0) (f (key b0))
    · rw [JMap.get_set_ne s (key b) (f (key b)) (key b0) (fun hx => hb hx.symm)]
      exact hs

/-- `treeGroupOne` changes the stored sizes only at its own group id. -/
theorem treeGroupOne_size_ne (ideaNodes : List FlowNode) (nodeSizes : JMap String Sz)
    (st : JMap String Pt × JMap String Sz) (g : FlowNode) (k : String)
    (hk : k ≠ g.id) :
    (treeGroupOne ideaNodes nodeSizes st g).2.get k = st.2.get k := by
  rw [treeGroupOne]
  dsimp only
  split_ifs with hlen
  · exact JMap.get_set_ne _ _ _ _ hk
  · cases hbb : computeBBox
        (List.map FlowNode.id (List.filter (fun n => n.groupId = some g.id) ideaNodes))
        st.1 nodeSizes false with
    | none => exact JMap.get_set_ne _ _ _ _ hk
    | some bb => exact JMap.get_set_ne _ _ _ _ hk

/-- Tree path: an in-scope group with zero members is stored with the
default 300 × 200 box. -/
theorem treeGroupStage_empty_group_default (ideaNodes groupNodes : List FlowNode)
    (nodeSizes : JMap String Sz) (positions : JMap String Pt) (group : FlowNode)
    (hg : group ∈ groupNodes)
    (hz : (ideaNodes.filter (fun n => n.groupId = some group.id)).length = 0) :
    (treeGroupStage ideaNodes groupNodes nodeSizes positions).2.get group.id
      = some ⟨300, 200⟩ := by
  rw [treeGroupStage]
  refine foldl_one _ (fun (st : JMap String Pt × JMap String Sz) =>
    st.2.get group.id = some ⟨300, 200⟩) group ?_ ?_ groupNodes hg _
  · intro s
    rw [treeGroupOne]
    dsimp only
    rw [if_pos hz]
    exact JMap.get_set_self _ _ _
  · intro s g hs
    by_cases hgid : g.id = group.id
    · have hzg : (ideaNodes.filter (fun n => n.groupId = some g.id)).length = 0 := by
        rw [hgid]
        exact hz
      rw [treeGroupOne]
      dsimp only
      rw [if_pos hzg, hgid]
      exact JMap.get_set_self _ _ _
    · rw [treeGroupOne_size_ne ideaNodes nodeSizes s g group.id
        (fun hx => hgid hx.symm)]
      exact hs

/-- `radialGroupFinalize` stores every laid-out group's box size. -/
theorem radialGroupFinalize_size (groupLayouts : JMap String GroupLayout)
    (groupNodes : List FlowNode) (positions : JMap String Pt) (gid : String)
    (gl : GroupLayout) (h : groupLayouts.get gid = some gl) :
    (radialGroupFinalize groupLayouts groupNodes positions).2.get gid
      = some ⟨gl.width, gl.height⟩ := by
  have hmemk : gid ∈ groupLayouts.keys := by
    have hh := (JMap.get_some _ _ _ h).1
    rw [JMap.has] at hh
    simpa using hh
  have hval := (JMap.get_some _ _ _ h).2
  rw [radialGroupFinalize]
  dsimp only
  have hst : ((groupLayouts.entries.foldl
      (fun (st : JMap String Pt × JMap String Sz) e =>
        (e.2.memberPositions.entries.foldl
          (fun (pos : JMap String Pt) me => pos.set me.1 me.2) st.1,
         st.2.set e.1 ⟨e.2.width, e.2.height⟩))
      (positions, JMap.empty)).2).get gid = some ⟨gl.width, gl.height⟩ := by
    rw [show groupLayouts.entries
        = groupLayouts.keys.map (fun k => (k, groupLayouts.val k)) from rfl]
    rw [List.foldl_map]
    refine foldl_one _ (fun (st : JMap String Pt × JMap String Sz) =>
      st.2.get gid = some ⟨gl.width, gl.height⟩) gid ?_ ?_ groupLayouts.keys hmemk _
    · intro s
      dsimp only
      rw [hval]
      exact JMap.get_set_self _ _ _
    · intro s k hs
      dsimp only
      by_cases hk : k = gid
      · rw [hk, hval]
        exact JMap.get_set_self _ _ _
      · rw [JMap.get_set_ne _ _ _ _ (fun hx => hk hx.symm)]
        exact hs
  refine foldl_inv _ (fun (st : JMap String Pt × JMap String Sz) =>
    st.2.get gid = some ⟨gl.width, gl.height⟩) ?_ groupNodes _ hst
  intro s g hs
  dsimp only
  split_ifs with h1 h2
  · exact hs
  · exact hs
  · by_cases hk : g.id = gid
    · rw [hk] at h2
      rw [JMap.has] at h2
      have := (JMap.get_some _ _ _ hs).1
      rw [JMap.has] at this
      exact absurd this h2
    · rw [JMap.get_set_ne _ _ _ _ (fun hx => hk hx.symm)]
      exact hs

/-- Radial path: an in-scope group with zero members is stored with the
default 300 × 200 box (its internal layout returns the default box, which
stage K records). -/
theorem radialLayout_group_default (ops : Ops) (edges : List FlowEdge) (vp : Option Sz)
    (targetIds : List String) (ideaNodes groupNodes : List FlowNode)
    (childrenMap : JMap (Option String) (List String)) (nodeSizes : JMap String Sz)
    (group : FlowNode) (hg : group ∈ groupNodes)
    (hz : (ideaNodes.filter (fun n => n.groupId = some group.id)).length = 0) :
    (radialLayout ops edges vp targetIds ideaNodes groupNodes childrenMap
      nodeSizes).2.get group.id = some ⟨300, 200⟩ := by
  have h2 : computeGroupInternalLayout ops
      (ideaNodes.filter (fun n => n.groupId = some group.id)) nodeSizes edges
      = ⟨JMap.empty, 300, 200⟩ := by
    rw [computeGroupInternalLayout, if_pos hz]
  have hGL : (radialGroupLayouts ops ideaNodes groupNodes nodeSizes edges).get group.id
      = some (⟨JMap.empty, 300, 200⟩ : GroupLayout) := by
    rw [radialGroupLayouts]
    have h1 := foldl_set_get_key FlowNode.id
      (fun gid => computeGroupInternalLayout ops
        (ideaNodes.filter (fun n => n.groupId = some gid)) nodeSizes edges)
      groupNodes group hg JMap.empty
    exact h1.trans (by rw [h2])
  rw [radialLayout.eq_def]
  dsimp only
  exact radialGroupFinalize_size _ groupNodes _ group.id ⟨JMap.empty, 300, 200⟩ hGL

/-- Counterexample for C9: with an EMPTY node list but selection scope and
a tree edge between two selected (absent) ids, the returned edgeHandles
mapping is not empty — the tree-mode handle loop only checks membership in
the selected target set, not presence of the nodes. -/
theorem c9_counterexample :
    (computeAutoLayout stubOps (fun _ => DEFAULT_SIZE) []
      [⟨"e1", "n1", "n2", some "tree"⟩]
      ⟨"horizontal", "selection", some ["n1", "n2"], none⟩).edgeHandles.keys = ["e1"]
    ∧ (computeAutoLayout stubOps (fun _ => DEFAULT_SIZE) []
      [⟨"e1", "n1", "n2", some "tree"⟩]
      ⟨"horizontal", "selection", some ["n1", "n2"], none⟩).edgeHandles.get "e1"
      = some ("right", "left") :=
  ⟨rfl, rfl⟩

/-- C9 (amended): an empty node list yields an all-empty result in project
scope (in selection scope the edge-handle mapping can be non-empty, see the
counterexample); a zero-member group receives the default 300 × 200 box in
the group-internal layouter, in the radial path's stored group sizes, and
in the tree path's stored group sizes. -/
theorem c9_degenerate_inputs :
    (∀ (ops : Ops) (sizeOf : String → Sz) (edges : List FlowEdge)
      (options : ArrangeOptions), options.scope = "project" →
      (computeAutoLayout ops sizeOf [] edges options).positions.keys = []
      ∧ (computeAutoLayout ops sizeOf [] edges options).groupSizes.keys = []
      ∧ (computeAutoLayout ops sizeOf [] edges options).edgeHandles.keys = []
      ∧ (computeAutoLayout ops sizeOf [] edges options).nodeColors.keys = [])
    ∧ (∀ (ops : Ops) (members : List FlowNode) (nodeSizes : JMap String Sz)
      (allEdges : List FlowEdge), members.length = 0 →
      computeGroupInternalLayout ops members nodeSizes allEdges
        = ⟨JMap.empty, 300, 200⟩)
    ∧ (∀ (ops : Ops) (edges : List FlowEdge) (vp : Option Sz)
      (targetIds : List String) (ideaNodes groupNodes : List FlowNode)
      (childrenMap : JMap (Option String) (List String)) (nodeSizes : JMap String Sz)
      (group : FlowNode), group ∈ groupNodes →
      (ideaNodes.filter (fun n => n.groupId = some group.id)).length = 0 →
      (radialLayout ops edges vp targetIds ideaNodes groupNodes childrenMap
        nodeSizes).2.get group.id = some ⟨300, 200⟩)
    ∧ (∀ (ideaNodes groupNodes : List FlowNode) (nodeSizes : JMap String Sz)
      (positions : JMap String Pt) (group : FlowNode), group ∈ groupNodes →
      (ideaNodes.filter (fun n => n.groupId = some group.id)).length = 0 →
      (treeGroupStage ideaNodes groupNodes nodeSizes positions).2.get group.id
        = some ⟨300, 200⟩) :=
  ⟨fun ops sizeOf edges options hscope =>
      computeAutoLayout_empty_nodes ops sizeOf edges options hscope,
   fun ops members nodeSizes allEdges hz => by
      rw [computeGroupInternalLayout, if_pos hz],
   fun ops edges vp targetIds ideaNodes groupNodes childrenMap nodeSizes group hg hz =>
      radialLayout_group_default ops edges vp targetIds ideaNodes groupNodes
        childrenMap nodeSizes group hg hz,
   fun ideaNodes groupNodes nodeSizes positions group hg hz =>
      treeGroupStage_empty_group_default ideaNodes groupNodes nodeSizes positions
        group hg hz⟩

/-- Witness for C9: concrete empty-node project-scope call with all four
mappings empty, and a concrete zero-member group receiving the default
box in all three places. -/
theorem c9_degenerate_inputs_witness :
    ((⟨"radial", "project", none, none⟩ : ArrangeOptions).scope = "project"
      ∧ (computeAutoLayout stubOps (fun _ => DEFAULT_SIZE) []
          [⟨"e1", "a", "b", none⟩] ⟨"radial", "project", none, none⟩).positions.keys = []
      ∧ (computeAutoLayout stubOps (fun _ => DEFAULT_SIZE) []
          [⟨"e1", "a", "b", none⟩] ⟨"radial", "project", none, none⟩).edgeHandles.keys
        = [])
    ∧ computeGroupInternalLayout stubOps [] JMap.empty [] = ⟨JMap.empty, 300, 200⟩
    ∧ (radialLayout stubOps [] none [] [] [c7Group] JMap.empty JMap.empty).2.get
        c7Group.id = some ⟨300, 200⟩
    ∧ (treeGroupStage [] [c7Group] JMap.empty JMap.empty).2.get c7Group.id
      = some ⟨300, 200⟩ := by
  have h1 := c9_degenerate_inputs.1 stubOps (fun _ => DEFAULT_SIZE)
    [⟨"e1", "a", "b", none⟩] ⟨"radial", "project", none, none⟩ rfl
  have h2 := c9_degenerate_inputs.2.1 stubOps [] JMap.empty [] rfl
  have h3 := c9_degenerate_inputs.2.2.1 stubOps [] none [] [] [c7Group] JMap.empty
    JMap.empty c7Group (List.mem_singleton.mpr rfl) rfl
  have h4 := c9_degenerate_inputs.2.2.2 [] [c7Group] JMap.empty JMap.empty c7Group
    (List.mem_singleton.mpr rfl) rfl
  exact ⟨⟨rfl, h1.1, h1.2.2.1⟩, h2, h3, h4⟩

-- =============================================
-- C10: tree-mode reachability
-- =============================================

theorem JMap.has_set_inv {κ α : Type} [DecidableEq κ] (m : JMap κ α) (a : κ) (v : α)
    (k : κ) (h : (m.set a v).has k = true) : k = a ∨ m.has k = true := by
  rw [JMap.has, JMap.set] at h
  rw [JMap.has]
  split_ifs at h with hc
  · exact Or.inr h
  · simp at h
    rcases h with h | h
    · exact Or.inr (by simpa using h)
    · exact Or.inl h

/-- The selection recentring never adds or removes position keys. -/
theorem selectionAdjust_keys (nm : JMap String FlowNode) (ideaNodes : List FlowNode)
    (ns gs : JMap String Sz) (options : ArrangeOptions) (positions : JMap String Pt) :
    (selectionAdjust nm ideaNodes ns gs options positions).keys = positions.keys := by
  rw [selectionAdjust]
  dsimp only
  split_ifs with h1 h2 h3
  · cases hob : (ideaNodes.filter (fun n => n.groupId.isNone)).foldl
        (fun (st : Option (ℚ × ℚ × ℚ × ℚ)) n =>
          let globalPos : Pt := match n.parentId with
            | some pid =>
                ⟨((nm.get pid).map (fun p => p.position.x)).getD 0 + n.position.x,
                 ((nm.get pid).map (fun p => p.position.y)).getD 0 + n.position.y⟩
            | none => n.position
          let size := (ns.get n.id).getD DEFAULT_SIZE
          match st with
          | none => some (globalPos.x, globalPos.y, globalPos.x + size.width,
              globalPos.y + size.height)
          | some (a, b, c, d) =>
              some (min a globalPos.x, min b globalPos.y,
                    max c (globalPos.x + size.width), max d (globalPos.y + size.height)))
        none with
    | none => rfl
    | some q =>
        obtain ⟨mnX, mnY, mxX, mxY⟩ := q
        dsimp only
        cases hbb : computeBBox
              (positions.keys.filter
                (fun id => match nm.get id with
                  | some n => n.groupId.isNone
                  | none => false))
              positions
              ((ns.entries ++ gs.entries).foldl
                (fun (m : JMap String Sz) e => m.set e.1 e.2) JMap.empty) false with
        | none => rfl
        | some bb =>
            dsimp only
            refine foldl_inv _ (fun (pos : JMap String Pt) => pos.keys = positions.keys)
              ?_ _ _ rfl
            intro s b hs
            exact hs
  · split <;> rfl
  · rfl
  · rfl

/-- `layoutSubtree` called at a reachable node only ever stores reachable
ids: any key of its output map was a key of the input map or is reachable
through the children relation. -/
theorem layoutSubtree_reach (cm : JMap (Option String) (List String))
    (ns : JMap String Sz) (spans : JMap String ℚ) (isHorizontal : Bool)
    (ds ss : ℚ) :
    ∀ (fuel : ℕ) (nodeId : String) (depth : ℕ) (offset : ℚ) (visited : List String)
      (pos : JMap String Pt) (k : String),
      TreeReach cm nodeId →
      (layoutSubtree cm ns spans isHorizontal ds ss fuel nodeId depth offset visited
        pos).2.has k = true →
      pos.has k = true ∨ TreeReach cm k := by
  intro fuel
  induction fuel with
  | zero =>
      intro nodeId depth offset visited pos k _ hk
      exact Or.inl hk
  | succ n ih =>
      intro nodeId depth offset visited pos k hreach hk
      have hset : ∀ (m : JMap String Pt) (v : Pt),
          (m.has k = true → pos.has k = true ∨ TreeReach cm k) →
          (m.set nodeId v).has k = true → pos.has k = true ∨ TreeReach cm k := by
        intro m v hm hkk
        rcases JMap.has_set_inv _ _ _ _ hkk with rfl | hkk
        · exact Or.inr hreach
        · exact hm hkk
      rw [layoutSubtree] at hk
      by_cases h1 : visited.contains nodeId
      · rw [if_pos h1] at hk
        exact Or.inl hk
      · rw [if_neg h1] at hk
        dsimp only at hk
        by_cases h2 : (((cm.get (some nodeId)).getD []).filter
            (fun c => ¬ (visited ++ [nodeId]).contains c)).length = 0
        · rw [if_pos h2] at hk
          split at hk <;> exact hset _ _ (fun h => Or.inl h) hk
        · rw [if_neg h2] at hk
          have hchild : ∀ c ∈ (((cm.get (some nodeId)).getD []).filter
              (fun c => ¬ (visited ++ [nodeId]).contains c)), TreeReach cm c := by
            intro c hc
            exact TreeReach.child hreach (List.mem_filter.mp hc).1
          have hP : ∀ (init : ℚ × List String × JMap String Pt), init.2.2 = pos →
              ((((cm.get (some nodeId)).getD []).filter
                (fun c => ¬ (visited ++ [nodeId]).contains c)).foldl
                (fun (st : ℚ × List String × JMap String Pt) c =>
                  (st.1 + (spans.get c).getD 0 + ss,
                   (layoutSubtree cm ns spans isHorizontal ds ss n c (depth + 1) st.1
                     st.2.1 st.2.2).1,
                   (layoutSubtree cm ns spans isHorizontal ds ss n c (depth + 1) st.1
                     st.2.1 st.2.2).2))
                init).2.2.has k = true →
              pos.has k = true ∨ TreeReach cm k := by
            intro init hinit
            refine foldl_inv_mem _
              (fun (st : ℚ × List String × JMap String Pt) =>
                st.2.2.has k = true → pos.has k = true ∨ TreeReach cm k)
              (((cm.get (some nodeId)).getD []).filter
                (fun c => ¬ (visited ++ [nodeId]).contains c)) ?_ init ?_
            · intro st c hc hst hk'
              rcases ih c (depth + 1) st.1 st.2.1 st.2.2 k (hchild c hc) hk' with h | h
              · exact hst h
              · exact Or.inr h
            · intro hk'
              rw [hinit] at hk'
              exact Or.inl hk'
          split at hk
          · split at hk <;> exact hset _ _ (hP _ rfl) hk
          · exact hP _ rfl hk

/-- `treeGroupOne` adds at most its own group id to the position keys. -/
theorem treeGroupOne_keys (ideaNodes : List FlowNode) (ns : JMap String Sz)
    (st : JMap String Pt × JMap String Sz) (g : FlowNode) (k : String)
    (hk : (treeGroupOne ideaNodes ns st g).1.has k = true) :
    st.1.has k = true ∨ k = g.id := by
  rw [treeGroupOne] at hk
  dsimp only at hk
  split_ifs at hk with h1
  · rcases JMap.has_set_inv _ _ _ _ hk with rfl | hk
    · exact Or.inr rfl
    · exact Or.inl hk
  · revert hk
    cases hbb : computeBBox
        (List.map FlowNode.id (List.filter (fun n => n.groupId = some g.id) ideaNodes))
        st.1 ns false with
    | none =>
        intro hk
        rcases JMap.has_set_inv _ _ _ _ hk with rfl | hk
        · exact Or.inr rfl
        · exact Or.inl hk
    | some bb =>
        intro hk
        dsimp only at hk
        have hkeys : ((List.filter (fun n => n.groupId = some g.id) ideaNodes).foldl
            (fun (pos : JMap String Pt) m =>
              match pos.get m.id with
              | some p => pos.vset m.id ⟨p.x - (bb.minX - GROUP_PADDING),
                  p.y - (bb.minY - GROUP_PADDING - GROUP_HEADER)⟩
              | none => pos)
            (st.1.set g.id ⟨bb.minX - GROUP_PADDING,
              bb.minY - GROUP_PADDING - GROUP_HEADER⟩)).keys
            = (st.1.set g.id (⟨bb.minX - GROUP_PADDING,
              bb.minY - GROUP_PADDING - GROUP_HEADER⟩ : Pt)).keys := by
          refine foldl_inv _ (fun (pos : JMap String Pt) =>
            pos.keys = (st.1.set g.id (⟨bb.minX - GROUP_PADDING,
              bb.minY - GROUP_PADDING - GROUP_HEADER⟩ : Pt)).keys) ?_ _ _ rfl
          intro pos m hs
          cases hg : pos.get m.id with
          | none => exact hs
          | some p => exact hs
        have hk2 : (st.1.set g.id (⟨bb.minX - GROUP_PADDING,
            bb.minY - GROUP_PADDING - GROUP_HEADER⟩ : Pt)).has k = true := by
          rw [JMap.has, ← hkeys]
          exact hk
        rcases JMap.has_set_inv _ _ _ _ hk2 with rfl | hk2
        · exact Or.inr rfl
        · exact Or.inl hk2

/-- The tree path's group post-processing adds only group ids to the
position keys. -/
theorem treeGroupStage_keys (ideaNodes groupNodes : List FlowNode)
    (ns : JMap String Sz) (positions : JMap String Pt) (k : String)
    (hk : (treeGroupStage ideaNodes groupNodes ns positions).1.has k = true) :
    positions.has k = true ∨ ∃ g ∈ groupNodes, k = g.id := by
  rw [treeGroupStage] at hk
  refine foldl_inv_mem (treeGroupOne ideaNodes ns)
    (fun (st : JMap String Pt × JMap String Sz) =>
      st.1.has k = true → positions.has k = true ∨ ∃ g ∈ groupNodes, k = g.id)
    groupNodes ?_ (positions, JMap.empty) (fun h => Or.inl h) hk
  intro st g hg hst hk'
  rcases treeGroupOne_keys ideaNodes ns st g k hk' with h | rfl
  · exact hst h
  · exact Or.inr ⟨g, hg, rfl⟩

/-- Tree layout: every returned position key is a group id or an id
reachable from a root through the children relation. -/
theorem treeLayout_reach (ideaNodes groupNodes : List FlowNode)
    (cm : JMap (Option String) (List String)) (roots : List String)
    (ns : JMap String Sz) (isHorizontal : Bool) (k : String)
    (hroots : ∀ r ∈ roots, TreeReach cm r)
    (hk : (treeLayout ideaNodes groupNodes cm roots ns isHorizontal).1.has k = true) :
    (∃ g ∈ groupNodes, k = g.id) ∨ TreeReach cm k := by
  rw [treeLayout] at hk
  dsimp only at hk
  have hPOS : ∀ (spans2 : JMap String ℚ) (ds2 ss2 : ℚ) (fuel : ℕ)
      (init : ℚ × List String × JMap String Pt), init.2.2.has k = false →
      (roots.foldl (fun (st : ℚ × List String × JMap String Pt) root =>
        (st.1 + (spans2.get root).getD 0 + ss2 * 2,
         (layoutSubtree cm ns spans2 isHorizontal ds2 ss2 fuel root 0 st.1
           st.2.1 st.2.2).1,
         (layoutSubtree cm ns spans2 isHorizontal ds2 ss2 fuel root 0 st.1
           st.2.1 st.2.2).2))
        init).2.2.has k = true →
      TreeReach cm k := by
    intro spans2 ds2 ss2 fuel init hinit
    refine foldl_inv_mem _
      (fun (st : ℚ × List String × JMap String Pt) =>
        st.2.2.has k = true → TreeReach cm k) roots ?_ init ?_
    · intro st root hr hst hk'
      rcases layoutSubtree_reach cm ns spans2 isHorizontal ds2 ss2 fuel root 0 st.1
        st.2.1 st.2.2 k (hroots root hr) hk' with h | h
      · exact hst h
      · exact h
    · intro hk'
      rw [hinit] at hk'
      exact absurd hk' (by simp)
  rcases treeGroupStage_keys ideaNodes groupNodes ns _ k hk with h | h
  · refine Or.inr (hPOS _ _ _ _ _ ?_ h)
    rfl
  · exact Or.inl h

/-- C10: in horizontal or vertical mode an id receives a position only if
it is a scoped group id or is reachable from a root through the in-scope
treeParentId children relation; and on the concrete two-node treeParentId
cycle the returned positions map is empty (the cycle nodes are silently
omitted). -/
theorem c10_tree_reachability :
    (∀ (ops : Ops) (sizeOf : String → Sz) (nodes : List FlowNode)
      (edges : List FlowEdge) (options : ArrangeOptions) (id : String),
      ¬ options.direction = "radial" →
      (computeAutoLayout ops sizeOf nodes edges options).positions.has id = true →
      (let nodeMap := nodes.foldl (fun (m : JMap String FlowNode) n => m.set n.id n)
        (⟨[], fun _ => ⟨"", ⟨0, 0⟩, none, "", none, none⟩⟩ : JMap String FlowNode)
       let targetIds := computeTargetIds nodes nodeMap options
       let targetNodes := nodes.filter (fun n => targetIds.contains n.id)
       let ideaNodes := targetNodes.filter (fun n => n.nodeType = "idea")
       let groupNodes := targetNodes.filter (fun n => n.nodeType = "group")
       (∃ g ∈ groupNodes, id = g.id)
       ∨ TreeReach (buildChildrenMap ideaNodes targetIds) id))
    ∧ (computeAutoLayout stubOps (fun _ => DEFAULT_SIZE) [c10CycleA, c10CycleB] []
        ⟨"horizontal", "project", none, none⟩).positions.keys = [] := by
  constructor
  · intro ops sizeOf nodes edges options id hdir hk
    dsimp only
    rw [computeAutoLayout] at hk
    dsimp only at hk
    rw [if_neg hdir] at hk
    have hka : (treeLayout
        ((nodes.filter (fun n => (computeTargetIds nodes
          (nodes.foldl (fun (m : JMap String FlowNode) n => m.set n.id n)
            (⟨[], fun _ => ⟨"", ⟨0, 0⟩, none, "", none, none⟩⟩ : JMap String FlowNode))
          options).contains n.id)).filter (fun n => n.nodeType = "idea"))
        ((nodes.filter (fun n => (computeTargetIds nodes
          (nodes.foldl (fun (m : JMap String FlowNode) n => m.set n.id n)
            (⟨[], fun _ => ⟨"", ⟨0, 0⟩, none, "", none, none⟩⟩ : JMap String FlowNode))
          options).contains n.id)).filter (fun n => n.nodeType = "group"))
        (buildChildrenMap
          ((nodes.filter (fun n => (computeTargetIds nodes
            (nodes.foldl (fun (m : JMap String FlowNode) n => m.set n.id n)
              (⟨[], fun _ => ⟨"", ⟨0, 0⟩, none, "", none, none⟩⟩ : JMap String FlowNode))
            options).contains n.id)).filter (fun n => n.nodeType = "idea"))
          (computeTargetIds nodes
            (nodes.foldl (fun (m : JMap String FlowNode) n => m.set n.id n)
              (⟨[], fun _ => ⟨"", ⟨0, 0⟩, none, "", none, none⟩⟩ : JMap String FlowNode))
            options))
        (((buildChildrenMap
          ((nodes.filter (fun n => (computeTargetIds nodes
            (nodes.foldl (fun (m : JMap String FlowNode) n => m.set n.id n)
              (⟨[], fun _ => ⟨"", ⟨0, 0⟩, none, "", none, none⟩⟩ : JMap String FlowNode))
            options).contains n.id)).filter (fun n => n.nodeType = "idea"))
          (computeTargetIds nodes
            (nodes.foldl (fun (m : JMap String FlowNode) n => m.set n.id n)
              (⟨[], fun _ => ⟨"", ⟨0, 0⟩, none, "", none, none⟩⟩ : JMap String FlowNode))
            options)).get none).getD [])
        (((nodes.filter (fun n => (computeTargetIds nodes
          (nodes.foldl (fun (m : JMap String FlowNode) n => m.set n.id n)
            (⟨[], fun _ => ⟨"", ⟨0, 0⟩, none, "", none, none⟩⟩ : JMap String FlowNode))
          options).contains n.id)).filter (fun n => n.nodeType = "idea")).foldl
          (fun (m : JMap String Sz) n => m.set n.id (sizeOf n.id)) JMap.empty)
        (options.direction = "horizontal")).1.has id = true := by
      rw [JMap.has, selectionAdjust_keys] at hk
      exact hk
    refine treeLayout_reach _ _ _ _ _ _ id ?_ hka
    intro r hr
    exact TreeReach.root hr
  · rfl

set_option maxRecDepth 100000 in
unseal Rat.add Rat.mul Rat.sub Rat.inv in
/-- Witness for C10: a single parentless idea node in horizontal mode is
placed, and the reachability disjunction holds for it. -/
theorem c10_tree_reachability_witness :
    (¬ ("horizontal" : String) = "radial")
    ∧ (computeAutoLayout stubOps (fun _ => DEFAULT_SIZE) [c10Root] []
        ⟨"horizontal", "project", none, none⟩).positions.has "r" = true
    ∧ ((∃ g ∈ ([] : List FlowNode), "r" = g.id)
      ∨ TreeReach (buildChildrenMap [c10Root] ["r"]) "r") := by
  refine ⟨by decide, by rfl, ?_⟩
  exact c10_tree_reachability.1 stubOps (fun _ => DEFAULT_SIZE) [c10Root] []
    ⟨"horizontal", "project", none, none⟩ "r" (by decide) (by rfl)

-- =============================================
-- C5: the component group row
-- =============================================

/-- The row fold never touches keys outside its list. -/
theorem rowFold_get_ne (vSizes : JMap String Sz) (l : List String) (gid : String)
    (hgid : gid ∉ l) (base : JMap String Pt) (x0 h0 : ℚ) :
    ((l.foldl (fun (st : JMap String Pt × ℚ × ℚ) g =>
        (st.1.set g ⟨st.2.1 + ((vSizes.get g).getD DEFAULT_SIZE).width / 2, 0⟩,
         st.2.1 + ((vSizes.get g).getD DEFAULT_SIZE).width + 200,
         max st.2.2 ((vSizes.get g).getD DEFAULT_SIZE).height))
      (base, x0, h0)).1).get gid = base.get gid := by
  refine foldl_inv_mem _
    (fun (st : JMap String Pt × ℚ × ℚ) => st.1.get gid = base.get gid) l ?_ _ rfl
  intro st b hb hst
  dsimp only
  rw [JMap.get_set_ne st.1 b _ gid (fun he => hgid (he.symm ▸ hb))]
  exact hst

/-- The component row fold: its running x advance, and each listed
group's stored center (running offset plus half width, y = 0). -/
theorem rowFold_spec (vSizes : JMap String Sz) :
    ∀ (l : List String), l.Nodup → ∀ (base : JMap String Pt) (x0 h0 : ℚ),
      ((l.foldl (fun (st : JMap String Pt × ℚ × ℚ) g =>
          (st.1.set g ⟨st.2.1 + ((vSizes.get g).getD DEFAULT_SIZE).width / 2, 0⟩,
           st.2.1 + ((vSizes.get g).getD DEFAULT_SIZE).width + 200,
           max st.2.2 ((vSizes.get g).getD DEFAULT_SIZE).height))
        (base, x0, h0)).2.1 = x0 + rowWidth vSizes l)
      ∧ ∀ gid ∈ l, ((l.foldl (fun (st : JMap String Pt × ℚ × ℚ) g =>
          (st.1.set g ⟨st.2.1 + ((vSizes.get g).getD DEFAULT_SIZE).width / 2, 0⟩,
           st.2.1 + ((vSizes.get g).getD DEFAULT_SIZE).width + 200,
           max st.2.2 ((vSizes.get g).getD DEFAULT_SIZE).height))
        (base, x0, h0)).1).get gid
          = some ⟨x0 + rowOffset vSizes l gid
              + ((vSizes.get gid).getD DEFAULT_SIZE).width / 2, 0⟩ := by
  intro l
  induction l with
  | nil =>
      intro _ base x0 h0
      refine ⟨by simp [rowWidth], ?_⟩
      intro gid hgid
      exact absurd hgid (List.not_mem_nil gid)
  | cons a rest ih =>
      intro hnd base x0 h0
      obtain ⟨ha, hndr⟩ := List.nodup_cons.mp hnd
      rw [List.foldl_cons]
      obtain ⟨ihx, ihget⟩ := ih hndr
        (base.set a ⟨x0 + ((vSizes.get a).getD DEFAULT_SIZE).width / 2, 0⟩)
        (x0 + ((vSizes.get a).getD DEFAULT_SIZE).width + 200)
        (max h0 ((vSizes.get a).getD DEFAULT_SIZE).height)
      constructor
      · rw [ihx, rowWidth]
        ring
      · intro gid hgid
        rcases List.mem_cons.mp hgid with rfl | hgid
        · rw [rowFold_get_ne vSizes rest gid ha]
          rw [JMap.get_set_self]
          simp only [Option.some.injEq, Pt.mk.injEq]
          refine ⟨?_, trivial⟩
          rw [rowOffset, if_pos rfl]
          ring
        · have hne : gid ≠ a := fun he => ha (he ▸ hgid)
          rw [ihget gid hgid]
          simp only [Option.some.injEq, Pt.mk.injEq]
          refine ⟨?_, trivial⟩
          rw [rowOffset, if_neg hne]
          ring

/-- The centring fold of the component row: the listed occurrence of a
stored key is shifted left by `c` and its y reset to 0; other elements
leave it alone. -/
theorem foldl_vset_center (c : ℚ) (k : String) (l1 l2 : List String)
    (base : JMap String Pt) (p : Pt)
    (hne1 : ∀ x ∈ l1, x ≠ k) (hne2 : ∀ x ∈ l2, x ≠ k)
    (hbase : base.get k = some p) :
    ((l1 ++ k :: l2).foldl (fun (cp : JMap String Pt) gid =>
      cp.vset gid ⟨(cp.val gid).x - c, 0⟩) base).get k = some ⟨p.x - c, 0⟩ := by
  rw [List.foldl_append, List.foldl_cons]
  have hpre : (l1.foldl (fun (cp : JMap String Pt) gid =>
      cp.vset gid ⟨(cp.val gid).x - c, 0⟩) base).get k = some p := by
    refine foldl_inv_mem _ (fun (cp : JMap String Pt) => cp.get k = some p) l1 ?_
      base hbase
    intro cp x hx hs
    rw [JMap.get_vset_ne cp x _ k (fun he => hne1 x hx he.symm)]
    exact hs
  have hval := (JMap.get_some _ _ _ hpre).2
  have hmid : ((l1.foldl (fun (cp : JMap String Pt) gid =>
      cp.vset gid ⟨(cp.val gid).x - c, 0⟩) base).vset k
      ⟨((l1.foldl (fun (cp : JMap String Pt) gid =>
        cp.vset gid ⟨(cp.val gid).x - c, 0⟩) base).val k).x - c, 0⟩).get k
      = some ⟨p.x - c, 0⟩ := by
    rw [hval]
    exact JMap.get_vset_of_get _ k _ p hpre
  refine foldl_inv_mem _ (fun (cp : JMap String Pt) => cp.get k = some ⟨p.x - c, 0⟩)
    l2 ?_ _ hmid
  intro cp x hx hs
  rw [JMap.get_vset_ne cp x _ k (fun he => hne2 x hx he.symm)]
  exact hs

/-- A pair-state fold whose map component only stores keys of its list
leaves other keys' entries unchanged. -/
theorem foldl_pair_set_get_ne {β : Type} (key : β → String) (k : String)
    (f : JMap String Pt × List ℚ → β → Pt) (g : JMap String Pt × List ℚ → β → List ℚ)
    (l : List β) (hne : ∀ b ∈ l, key b ≠ k) (init : JMap String Pt × List ℚ) :
    ((l.foldl (fun st b => (st.1.set (key b) (f st b), g st b)) init).1).get k
      = init.1.get k := by
  refine foldl_inv_mem _
    (fun (st : JMap String Pt × List ℚ) => st.1.get k = init.1.get k) l ?_ init rfl
  intro st b hb hst
  dsimp only
  rw [JMap.get_set_ne st.1 (key b) _ k (fun he => hne b hb he.symm)]
  exact hst

/-- A fold that only re-stores keys of its list leaves other keys'
entries unchanged. -/
theorem foldl_vset_get_ne {β : Type} (key : β → String) (k : String)
    (f : JMap String Pt → β → Pt) (l : List β) (hne : ∀ b ∈ l, key b ≠ k)
    (init : JMap String Pt) :
    (l.foldl (fun m b => m.vset (key b) (f m b)) init).get k = init.get k := by
  refine foldl_inv_mem _ (fun (m : JMap String Pt) => m.get k = init.get k) l ?_ init rfl
  intro m b hb hm
  rw [JMap.get_vset_ne m (key b) _ k (fun he => hne b hb he.symm)]
  exact hm

/-- C5 (amended): in every component containing a (duplicate-free) group
set, the groups are stably sorted by descending area and placed on ONE
HORIZONTAL row — regardless of the viewport orientation, since the
arranger takes no orientation input — each at y = 0 with its running
offset (widths plus a fixed 200 gap) re-centred so the row is symmetric
about x = 0. -/
theorem c5_group_row (vAdj : JMap String (List String)) (groupNodeIds : List String)
    (vSizes : JMap String Sz) (comp : List String) (centerPos : JMap String Pt)
    (hnd : (comp.filter (fun id => groupNodeIds.contains id)).Nodup)
    (hlen : ¬ (comp.filter (fun id => groupNodeIds.contains id)).length = 0) :
    List.Sorted (fun a b => vArea vSizes b ≤ vArea vSizes a)
      (List.insertionSort (fun a b => vArea vSizes b ≤ vArea vSizes a)
        (comp.filter (fun id => groupNodeIds.contains id)))
    ∧ (List.insertionSort (fun a b => vArea vSizes b ≤ vArea vSizes a)
        (comp.filter (fun id => groupNodeIds.contains id))).Perm
        (comp.filter (fun id => groupNodeIds.contains id))
    ∧ ∀ gid ∈ List.insertionSort (fun a b => vArea vSizes b ≤ vArea vSizes a)
        (comp.filter (fun id => groupNodeIds.contains id)),
      (arrangeComponentRow vAdj groupNodeIds vSizes comp centerPos).get gid
        = some ⟨rowOffset vSizes
              (List.insertionSort (fun a b => vArea vSizes b ≤ vArea vSizes a)
                (comp.filter (fun id => groupNodeIds.contains id))) gid
            + ((vSizes.get gid).getD DEFAULT_SIZE).width / 2
            - (rowWidth vSizes
              (List.insertionSort (fun a b => vArea vSizes b ≤ vArea vSizes a)
                (comp.filter (fun id => groupNodeIds.contains id))) - 200) / 2, 0⟩ := by
  haveI hTot : IsTotal String (fun a b => vArea vSizes b ≤ vArea vSizes a) :=
    ⟨fun a b => le_total (vArea vSizes b) (vArea vSizes a)⟩
  haveI hTr : IsTrans String (fun a b => vArea vSizes b ≤ vArea vSizes a) :=
    ⟨fun a b c h1 h2 => le_trans h2 h1⟩
  have hperm := List.perm_insertionSort (fun a b => vArea vSizes b ≤ vArea vSizes a)
    (comp.filter (fun id => groupNodeIds.contains id))
  refine ⟨List.sorted_insertionSort _ _, hperm, ?_⟩
  intro gid hgid
  have hsnd0 : (List.insertionSort (fun a b => vArea vSizes b ≤ vArea vSizes a)
      (comp.filter (fun id => groupNodeIds.contains id))).Nodup :=
    hperm.nodup_iff.mpr hnd
  have hgidG : gid ∈ comp.filter (fun id => groupNodeIds.contains id) :=
    hperm.mem_iff.mp hgid
  have hgidC : groupNodeIds.contains gid = true := by
    have := (List.mem_filter.mp hgidG).2
    simpa using this
  have hGneB : ∀ b ∈ comp.filter (fun id => ¬ groupNodeIds.contains id), b ≠ gid := by
    intro b hb he
    have hbc := (List.mem_filter.mp hb).2
    rw [he] at hbc
    simp at hbc
    exact hbc (by simpa using hgidC)
  have hneSB : ∀ (r : String → String → Prop) (hr : DecidableRel r),
      ∀ b ∈ @List.insertionSort String r hr
        (comp.filter (fun id => ¬ groupNodeIds.contains id)), b ≠ gid := by
    intro r hr b hb
    exact hGneB b ((List.perm_insertionSort r _).mem_iff.mp hb)
  obtain ⟨hx, hget⟩ := rowFold_spec vSizes
    (List.insertionSort (fun a b => vArea vSizes b ≤ vArea vSizes a)
      (comp.filter (fun id => groupNodeIds.contains id))) hsnd0 centerPos 0 0
  have hbase := hget gid hgid
  obtain ⟨S1, S2, hsp⟩ := List.append_of_mem hgid
  have hsnd := hsnd0
  rw [hsp] at hsnd
  have h12 := List.disjoint_of_nodup_append hsnd
  have hnotin1 : gid ∉ S1 := fun hin => h12 hin (List.mem_cons_self gid S2)
  have hnotin2 : gid ∉ S2 := (List.nodup_cons.mp (List.Nodup.of_append_right hsnd)).1
  have hne1 : ∀ x ∈ S1, x ≠ gid := fun x hx he => hnotin1 (he ▸ hx)
  have hne2 : ∀ x ∈ S2, x ≠ gid := fun x hx he => hnotin2 (he ▸ hx)
  rw [arrangeComponentRow]
  dsimp only
  rw [if_neg hlen]
  rw [hsp] at hx hbase ⊢
  rw [hx]
  have hcp := foldl_vset_center
    ((0 + rowWidth vSizes (S1 ++ gid :: S2) - 200) / 2) gid S1 S2 _ _ hne1 hne2 hbase
  split_ifs with hbr hbl
  · rw [hcp]
    simp only [Option.some.injEq, Pt.mk.injEq]
    exact ⟨by ring, trivial⟩
  · refine (foldl_vset_get_ne (fun b => b) gid _ _ ?_ _).trans
      ((foldl_pair_set_get_ne (fun b => b) gid _ _ _ ?_ _).trans ?_)
    · intro b hb
      exact hneSB _ _ b hb
    · intro b hb
      exact hneSB _ _ b hb
    · rw [hcp]
      simp only [Option.some.injEq, Pt.mk.injEq]
      exact ⟨by ring, trivial⟩
  · refine (foldl_pair_set_get_ne (fun b => b) gid _ _ _ ?_ _).trans ?_
    · intro b hb
      exact hneSB _ _ b hb
    · rw [hcp]
      simp only [Option.some.injEq, Pt.mk.injEq]
      exact ⟨by ring, trivial⟩

set_option maxRecDepth 1000000 in
unseal Rat.add Rat.mul Rat.sub Rat.inv in
/-- Counterexample for C5: with a portrait (vertical-orientation) viewport
100 × 200, two connected zero-member groups still end on one HORIZONTAL
row — equal y, different x — not top-to-bottom. -/
theorem c5_counterexample :
    (computeAutoLayout stubOps (fun _ => DEFAULT_SIZE) [c5G1, c5G2]
      [⟨"e1", "g1", "g2", some "crosslink"⟩]
      ⟨"radial", "project", none, some ⟨100, 200⟩⟩).positions.get "g1" = some ⟨60, 0⟩
    ∧ (computeAutoLayout stubOps (fun _ => DEFAULT_SIZE) [c5G1, c5G2]
      [⟨"e1", "g1", "g2", some "crosslink"⟩]
      ⟨"radial", "project", none, some ⟨100, 200⟩⟩).positions.get "g2"
      = some ⟨440, 0⟩ := by
  exact ⟨by rfl, by rfl⟩

set_option maxRecDepth 100000 in
unseal Rat.add Rat.mul Rat.sub Rat.inv in
/-- Witness for C5: two default-sized groups in one component land at
y = 0 with the first centred at x = −190 (row width 2·180 + gap 200,
centred about 0). -/
theorem c5_group_row_witness :
    ((["g1", "g2"] : List String).filter (fun id =>
        (["g1", "g2"] : List String).contains id)).Nodup
    ∧ ¬ ((["g1", "g2"] : List String).filter (fun id =>
        (["g1", "g2"] : List String).contains id)).length = 0
    ∧ (arrangeComponentRow JMap.empty ["g1", "g2"] JMap.empty ["g1", "g2"]
        JMap.empty).get "g1" = some ⟨-190, 0⟩ := by
  refine ⟨by decide, by decide, ?_⟩
  have h := (c5_group_row JMap.empty ["g1", "g2"] JMap.empty ["g1", "g2"] JMap.empty
    (by decide) (by decide)).2.2 "g1" (by decide)
  rw [h]
  rfl

-- =============================================
-- C1: the final overlap sweep
-- =============================================

/-- `foldl_false_inv` with the fold hypothesis first, so the step shape
is inferred from it. -/
theorem foldl_false_inv2 {σ β : Type} (f : σ × Bool → β → σ × Bool)
    (Q : σ → β → Prop) (l : List β) (st : σ × Bool)
    (h : (l.foldl f st).2 = false)
    (hf : ∀ st' b, (f st' b).2 = false → f st' b = st' ∧ Q st'.1 b) :
    l.foldl f st = st ∧ ∀ b ∈ l, Q st.1 b :=
  foldl_false_inv f Q hf l st h

/-- C1 (amended): when a full pass of the final overlap sweep reports no
overlap, the pass was an identity and every checked pair — node vs group,
group vs group, node vs node — has non-overlapping (unpadded, top-left)
rectangles.  The sweep is the only stage checking all three categories;
the aspect-correction repair that can run after it checks only the first
two, so node-node overlaps introduced by the rescale survive (see the
counterexample). -/
theorem c1_no_overlap (ops : Ops) (nodeSizes groupSizes : JMap String Sz)
    (topIds gIds : List String) (m : JMap String Pt)
    (h : (finalSweepPass ops nodeSizes groupSizes topIds gIds m).2 = false) :
    (finalSweepPass ops nodeSizes groupSizes topIds gIds m).1 = m
    ∧ (∀ nId ∈ topIds, ∀ np, m.get nId = some np → ∀ gid ∈ gIds, ∀ gp gs,
        m.get gid = some gp → groupSizes.get gid = some gs →
        ¬ sweepOverlap np ((nodeSizes.get nId).getD DEFAULT_SIZE) gp gs)
    ∧ (∀ pr ∈ candPairs gIds, ∀ p1 s1 p2 s2,
        m.get pr.1 = some p1 → groupSizes.get pr.1 = some s1 →
        m.get pr.2 = some p2 → groupSizes.get pr.2 = some s2 →
        ¬ sweepOverlap p1 s1 p2 s2)
    ∧ (∀ pr ∈ candPairs topIds, ∀ pA pB,
        m.get pr.1 = some pA → m.get pr.2 = some pB →
        ¬ sweepOverlap pA ((nodeSizes.get pr.1).getD DEFAULT_SIZE)
          pB ((nodeSizes.get pr.2).getD DEFAULT_SIZE)) := by
  rw [finalSweepPass] at h ⊢
  dsimp only at h ⊢
  obtain ⟨hid3, hq3⟩ := foldl_false_inv2 _
    (fun (mm : JMap String Pt) (pr : String × String) =>
      ∀ pA pB, mm.get pr.1 = some pA → mm.get pr.2 = some pB →
        ¬ sweepOverlap pA ((nodeSizes.get pr.1).getD DEFAULT_SIZE)
          pB ((nodeSizes.get pr.2).getD DEFAULT_SIZE))
    (candPairs topIds) _ h (by
      intro st' pr
      cases hA : st'.1.get pr.1 with
      | none =>
          intro _
          refine ⟨rfl, ?_⟩
          intro pA pB h1 h2
          rw [hA] at h1
          cases h1
      | some pA0 =>
          cases hB : st'.1.get pr.2 with
          | none =>
              intro _
              refine ⟨rfl, ?_⟩
              intro pA pB h1 h2
              rw [hB] at h2
              cases h2
          | some pB0 =>
              intro hfb
              dsimp only at hfb ⊢
              split at hfb
              next hov => simp at hfb
              next hov =>
                rw [if_neg hov]
                refine ⟨rfl, ?_⟩
                intro pA pB h1 h2
                rw [hA] at h1
                rw [hB] at h2
                injection h1 with h1
                injection h2 with h2
                subst h1
                subst h2
                exact hov)
  rw [hid3] at h
  obtain ⟨hid2, hq2⟩ := foldl_false_inv2 _
    (fun (mm : JMap String Pt) (pr : String × String) =>
      ∀ p1 s1 p2 s2, mm.get pr.1 = some p1 → groupSizes.get pr.1 = some s1 →
        mm.get pr.2 = some p2 → groupSizes.get pr.2 = some s2 →
        ¬ sweepOverlap p1 s1 p2 s2)
    (candPairs gIds) _ h (by
      intro st' pr
      cases hA : st'.1.get pr.1 with
      | none =>
          intro _
          refine ⟨rfl, ?_⟩
          intro p1 s1 p2 s2 h1' h2' h3' h4'
          rw [hA] at h1'
          cases h1'
      | some p10 =>
          cases hS1 : groupSizes.get pr.1 with
          | none =>
              intro _
              refine ⟨rfl, ?_⟩
              intro p1 s1 p2 s2 h1' h2' h3' h4'
              rw [hS1] at h2'
              cases h2'
          | some s10 =>
              cases hB : st'.1.get pr.2 with
              | none =>
                  intro _
                  refine ⟨rfl, ?_⟩
                  intro p1 s1 p2 s2 h1' h2' h3' h4'
                  rw [hB] at h3'
                  cases h3'
              | some p20 =>
                  cases hS2 : groupSizes.get pr.2 with
                  | none =>
                      intro _
                      refine ⟨rfl, ?_⟩
                      intro p1 s1 p2 s2 h1' h2' h3' h4'
                      rw [hS2] at h4'
                      cases h4'
                  | some s20 =>
                      intro hfb
                      dsimp only at hfb ⊢
                      split at hfb
                      next hov => simp at hfb
                      next hov =>
                        rw [if_neg hov]
                        refine ⟨rfl, ?_⟩
                        intro p1 s1 p2 s2 h1' h2' h3' h4'
                        rw [hA] at h1'
                        rw [hS1] at h2'
                        rw [hB] at h3'
                        rw [hS2] at h4'
                        injection h1' with h1'
                        injection h2' with h2'
                        injection h3' with h3'
                        injection h4' with h4'
                        subst h1'
                        subst h2'
                        subst h3'
                        subst h4'
                        exact hov)
  rw [hid2] at h
  obtain ⟨hid1, hq1⟩ := foldl_false_inv2 _
    (fun (mm : JMap String Pt) (nId : String) =>
      ∀ np, mm.get nId = some np → ∀ gid ∈ gIds, ∀ gp gs,
        mm.get gid = some gp → groupSizes.get gid = some gs →
        ¬ sweepOverlap np ((nodeSizes.get nId).getD DEFAULT_SIZE) gp gs)
    topIds _ h (by
      intro st' nId
      cases hN : st'.1.get nId with
      | none =>
          intro _
          refine ⟨rfl, ?_⟩
          intro np hnp
          rw [hN] at hnp
          cases hnp
      | some np0 =>
          intro hfb
          dsimp only at hfb ⊢
          obtain ⟨hidIn, hqIn⟩ := foldl_false_inv2 _
            (fun (mm : JMap String Pt) (gid : String) =>
              ∀ gp gs, mm.get gid = some gp → groupSizes.get gid = some gs →
                ¬ sweepOverlap np0 ((nodeSizes.get nId).getD DEFAULT_SIZE) gp gs)
            gIds st' hfb (by
              intro st'' gid
              cases hG : st''.1.get gid with
              | none =>
                  intro _
                  refine ⟨rfl, ?_⟩
                  intro gp gs hgp hgs
                  rw [hG] at hgp
                  cases hgp
              | some gp0 =>
                  cases hS : groupSizes.get gid with
                  | none =>
                      intro _
                      refine ⟨rfl, ?_⟩
                      intro gp gs hgp hgs
                      rw [hS] at hgs
                      cases hgs
                  | some gs0 =>
                      intro hfb'
                      dsimp only at hfb' ⊢
                      split at hfb'
                      next hov => simp at hfb'
                      next hov =>
                        rw [if_neg hov]
                        refine ⟨rfl, ?_⟩
                        intro gp gs hgp hgs
                        rw [hG] at hgp
                        rw [hS] at hgs
                        injection hgp with hgp
                        injection hgs with hgs
                        subst hgp
                        subst hgs
                        exact hov)
          refine ⟨hidIn, ?_⟩
          intro np hnp gid hg gp gs hgp hgs
          rw [hN] at hnp
          injection hnp with hnp
          subst hnp
          exact hqIn gid hg gp gs hgp hgs)
  rw [hid2, hid1] at hq3
  rw [hid1] at hq2
  refine ⟨?_, ?_, ?_, ?_⟩
  · rw [hid3, hid2, hid1]
  · intro nId hn np hnp gid hg gp gs hgp hgs
    exact hq1 nId hn np hnp gid hg gp gs hgp hgs
  · intro pr hpr p1 s1 p2 s2 h1' h2' h3' h4'
    exact hq2 pr hpr p1 s1 p2 s2 h1' h2' h3' h4'
  · intro pr hpr pA pB h1' h2'
    exact hq3 pr hpr pA pB h1' h2'

set_option maxRecDepth 100000 in
unseal Rat.add Rat.mul Rat.sub Rat.inv in
theorem c1_no_overlap_witness :
    ¬ sweepOverlap ⟨0, 0⟩ DEFAULT_SIZE ⟨1000, 0⟩ DEFAULT_SIZE :=
  (c1_no_overlap stubOps JMap.empty JMap.empty ["a", "b"] []
      ((JMap.empty.set "a" ⟨0, 0⟩).set "b" ⟨1000, 0⟩) (by rfl)).2.2.2
    ("a", "b") (by simp [candPairs]) ⟨0, 0⟩ ⟨1000, 0⟩ (by rfl) (by rfl)

set_option maxRecDepth 1000000 in
unseal Rat.add Rat.mul Rat.sub Rat.inv in
/-- C1 counterexample: in radial mode with a wide viewport, two connected
groups and two ungrouped idea nodes, the aspect-correction rescale runs
after the final sweep and its repair step checks only node-group and
group-group pairs, so the two top-level nodes are returned overlapping
(both at x = 900, vertical distance 39.12 < 50 = node height). -/
theorem c1_counterexample :
    (computeAutoLayout stubOps (fun _ => DEFAULT_SIZE) [c5G1, c5G2, c1N1, c1N2]
        [⟨"e1", "g1", "g2", some "crosslink"⟩]
        ⟨"radial", "project", none, some ⟨2000, 100⟩⟩).positions.get "n1"
      = some ⟨900, 66951/1150⟩
    ∧ (computeAutoLayout stubOps (fun _ => DEFAULT_SIZE) [c5G1, c5G2, c1N1, c1N2]
        [⟨"e1", "g1", "g2", some "crosslink"⟩]
        ⟨"radial", "project", none, some ⟨2000, 100⟩⟩).positions.get "n2"
      = some ⟨900, 111939/1150⟩
    ∧ sweepOverlap ⟨900, 66951/1150⟩ DEFAULT_SIZE ⟨900, 111939/1150⟩ DEFAULT_SIZE :=
  ⟨by rfl, by rfl, by refine ⟨?_, ?_⟩ <;> norm_num [sweepOverlap, DEFAULT_SIZE, DEFAULT_NODE_WIDTH, DEFAULT_NODE_HEIGHT, min_def, max_def]⟩

theorem finalSweepPass_keys (ops : Ops) (szs gsz : JMap String Sz) (tI gI : List String)
    (m : JMap String Pt) :
    (finalSweepPass ops szs gsz tI gI m).1.keys = m.keys := by
  rw [finalSweepPass]
  dsimp only
  refine foldl_inv _ (fun (st : JMap String Pt × Bool) => st.1.keys = m.keys) ?_ _ _ ?_
  · intro st pr hst
    dsimp only
    cases hA : st.1.get pr.1 with
    | none => exact hst
    | some pa =>
        cases hB : st.1.get pr.2 with
        | none => exact hst
        | some pb =>
            dsimp only
            split
            · exact hst
            · exact hst
  · refine foldl_inv _ (fun (st : JMap String Pt × Bool) => st.1.keys = m.keys) ?_ _ _ ?_
    · intro st pr hst
      dsimp only
      cases hA : st.1.get pr.1 with
      | none => exact hst
      | some p1 =>
          cases hS1 : gsz.get pr.1 with
          | none => exact hst
          | some s1 =>
              cases hB : st.1.get pr.2 with
              | none => exact hst
              | some p2 =>
                  cases hS2 : gsz.get pr.2 with
                  | none => exact hst
                  | some s2 =>
                      dsimp only
                      split
                      · exact hst
                      · exact hst
    · refine foldl_inv _ (fun (st : JMap String Pt × Bool) => st.1.keys = m.keys) ?_ _ _ ?_
      · intro st nId hst
        dsimp only
        cases hN : st.1.get nId with
        | none => exact hst
        | some np =>
            dsimp only
            refine foldl_inv _ (fun (st : JMap String Pt × Bool) => st.1.keys = m.keys) ?_ _ _ hst
            intro st' gid hst'
            dsimp only
            cases hG : st'.1.get gid with
            | none => exact hst'
            | some gp =>
                cases hS : gsz.get gid with
                | none => exact hst'
                | some gs =>
                    dsimp only
                    split
                    · exact hst'
                    · exact hst'
      · rfl

theorem finalSweepLoop_keys (ops : Ops) (szs gsz : JMap String Sz) (tI gI : List String) :
    ∀ (fuel : ℕ) (m : JMap String Pt),
      (finalSweepLoop ops szs gsz tI gI fuel m).keys = m.keys := by
  intro fuel
  induction fuel with
  | zero => intro m; rfl
  | succ n ih =>
      intro m
      rw [show finalSweepLoop ops szs gsz tI gI (n + 1) m
        = (let r := finalSweepPass ops szs gsz tI gI m;
           if r.2 then finalSweepLoop ops szs gsz tI gI n r.1 else r.1) from rfl]
      dsimp only
      split
      · rw [ih]
        exact finalSweepPass_keys ops szs gsz tI gI m
      · exact finalSweepPass_keys ops szs gsz tI gI m

theorem finalSweepPass_two (ops : Ops) (szs gsz : JMap String Sz) (m : JMap String Pt)
    (pA pB : Pt) (hA : m.get "n1" = some pA) (hB : m.get "n2" = some pB)
    (hs1 : szs.get "n1" = some ⟨180, 50⟩) (hs2 : szs.get "n2" = some ⟨180, 50⟩) :
    finalSweepPass ops szs gsz ["n1", "n2"] [] m
      = if 0 < min (pA.x + 180) (pB.x + 180) - max pA.x pB.x
            ∧ 0 < min (pA.y + 50) (pB.y + 50) - max pA.y pB.y
        then ((m.vset "n1" (nnPush ops.sqrt pA pB).1).vset "n2" (nnPush ops.sqrt pA pB).2,
              true)
        else (m, false) := by
  rw [finalSweepPass]
  dsimp only [candPairs, List.map, List.append, List.foldl]
  rw [hA]
  dsimp only
  rw [hB]
  dsimp only
  rw [hA, hB, hs1, hs2]
  dsimp only [Option.getD, nnPush]

theorem c2_overlap_bound (pA pB : Pt)
    (hov : sweepOverlap pA ⟨180, 50⟩ pB ⟨180, 50⟩) :
    (pB.x - pA.x) * (pB.x - pA.x) + (pB.y - pA.y) * (pB.y - pA.y) < 34900 := by
  obtain ⟨hx, hy⟩ := hov
  have hx' : 0 < min (pA.x + 180) (pB.x + 180) - max pA.x pB.x := hx
  have hy' : 0 < min (pA.y + 50) (pB.y + 50) - max pA.y pB.y := hy
  have e1 : min (pA.x + 180) (pB.x + 180) ≤ pA.x + 180 := min_le_left _ _
  have e2 : min (pA.x + 180) (pB.x + 180) ≤ pB.x + 180 := min_le_right _ _
  have e3 : pA.x ≤ max pA.x pB.x := le_max_left _ _
  have e4 : pB.x ≤ max pA.x pB.x := le_max_right _ _
  have f1 : min (pA.y + 50) (pB.y + 50) ≤ pA.y + 50 := min_le_left _ _
  have f2 : min (pA.y + 50) (pB.y + 50) ≤ pB.y + 50 := min_le_right _ _
  have f3 : pA.y ≤ max pA.y pB.y := le_max_left _ _
  have f4 : pB.y ≤ max pA.y pB.y := le_max_right _ _
  have hdx1 : pB.x - pA.x < 180 := by linarith
  have hdx2 : -(180 : ℚ) < pB.x - pA.x := by linarith
  have hdy1 : pB.y - pA.y < 50 := by linarith
  have hdy2 : -(50 : ℚ) < pB.y - pA.y := by linarith
  nlinarith [mul_pos (by linarith : (0:ℚ) < 180 - (pB.x - pA.x))
      (by linarith : (0:ℚ) < 180 + (pB.x - pA.x)),
    mul_pos (by linarith : (0:ℚ) < 50 - (pB.y - pA.y))
      (by linarith : (0:ℚ) < 50 + (pB.y - pA.y))]

theorem c2_grow_near (dx dy p D : ℚ) (hp : 25 ≤ p)
    (hx2 : dx * dx + dy * dy ≤ 2 * (D * D)) (hD : D < 1/100) (hD0 : 0 ≤ D) :
    dx * dx + dy * dy + 1250 ≤ (dx + 2 * p) * (dx + 2 * p) + dy * dy := by
  have hDsq : D * D < 1 / 10000 := by nlinarith
  have hdxlow : -(1/50 : ℚ) ≤ dx := by nlinarith [sq_nonneg (dx + 1/50)]
  nlinarith [mul_nonneg (by linarith : (0:ℚ) ≤ p - 25) (by linarith : (0:ℚ) ≤ dx + p)]

theorem c2_grow_far (dx dy p D : ℚ) (hp : 25 ≤ p) (hD : 1/100 ≤ D)
    (hDup : D * D ≤ 2 * (dx * dx + dy * dy)) :
    dx * dx + dy * dy + 1250
      ≤ (dx * (D + 2 * p) / D) * (dx * (D + 2 * p) / D)
        + (dy * (D + 2 * p) / D) * (dy * (D + 2 * p) / D) := by
  have hq0 : (0:ℚ) ≤ dx * dx + dy * dy :=
    add_nonneg (mul_self_nonneg dx) (mul_self_nonneg dy)
  have hDpos : (0:ℚ) < D := by linarith
  rw [div_mul_div_comm, div_mul_div_comm, div_add_div_same]
  rw [le_div_iff₀ (by positivity : (0:ℚ) < D * D)]
  have hp2 : (625:ℚ) ≤ p * p := by nlinarith
  nlinarith [mul_nonneg (mul_nonneg hq0 (le_of_lt hDpos)) (by linarith : (0:ℚ) ≤ p),
    mul_nonneg (by linarith : (0:ℚ) ≤ 2 * (dx * dx + dy * dy) - D * D)
      (by linarith : (0:ℚ) ≤ p * p - 625),
    mul_nonneg (mul_self_nonneg D) (by linarith : (0:ℚ) ≤ p * p - 625)]

theorem c2_grow (s : ℚ → ℚ) (hs : SqrtSpec s) (pA pB : Pt)
    (hx : 0 < min (pA.x + 180) (pB.x + 180) - max pA.x pB.x)
    (hy : 0 < min (pA.y + 50) (pB.y + 50) - max pA.y pB.y) :
    (pB.x - pA.x) * (pB.x - pA.x) + (pB.y - pA.y) * (pB.y - pA.y) + 1250
      ≤ ((nnPush s pA pB).2.x - (nnPush s pA pB).1.x)
          * ((nnPush s pA pB).2.x - (nnPush s pA pB).1.x)
        + ((nnPush s pA pB).2.y - (nnPush s pA pB).1.y)
          * ((nnPush s pA pB).2.y - (nnPush s pA pB).1.y) := by
  have hdx : pB.x + 180 / 2 - (pA.x + 180 / 2) = pB.x - pA.x := by ring
  have hdy : pB.y + 50 / 2 - (pA.y + 50 / 2) = pB.y - pA.y := by ring
  have hq0 : (0:ℚ) ≤ (pB.x - pA.x) * (pB.x - pA.x) + (pB.y - pA.y) * (pB.y - pA.y) :=
    add_nonneg (mul_self_nonneg _) (mul_self_nonneg _)
  obtain ⟨hD0, hDup, hDlow⟩ := hs _ hq0
  have hpge : (25:ℚ) ≤ (min (min (pA.x + 180) (pB.x + 180) - max pA.x pB.x)
      (min (pA.y + 50) (pB.y + 50) - max pA.y pB.y) + 50) / 2 := by
    have h1 : 0 < min (min (pA.x + 180) (pB.x + 180) - max pA.x pB.x)
        (min (pA.y + 50) (pB.y + 50) - max pA.y pB.y) := lt_min hx hy
    linarith
  rw [nnPush]
  dsimp only
  rw [hdx, hdy]
  by_cases hDs : s ((pB.x - pA.x) * (pB.x - pA.x) + (pB.y - pA.y) * (pB.y - pA.y)) < 1 / 100
  · rw [if_pos hDs]
    dsimp only
    have hexp : ∀ t : ℚ, pB.x + 1 * t - (pA.x - 1 * t) = pB.x - pA.x + 2 * t :=
      fun t => by ring
    have hexp2 : ∀ t : ℚ, pB.y + 0 * t - (pA.y - 0 * t) = pB.y - pA.y :=
      fun t => by ring
    rw [hexp, hexp2]
    exact c2_grow_near _ _ _ _ hpge hDlow hDs hD0
  · rw [if_neg hDs]
    dsimp only
    set S := s ((pB.x - pA.x) * (pB.x - pA.x) + (pB.y - pA.y) * (pB.y - pA.y)) with hSd
    set P := (min (min (pA.x + 180) (pB.x + 180) - max pA.x pB.x)
        (min (pA.y + 50) (pB.y + 50) - max pA.y pB.y) + 50) / 2 with hPd
    have hD100 : (1/100:ℚ) ≤ S := not_lt.mp hDs
    have hSne : S ≠ 0 := by
      intro h
      rw [h] at hD100
      norm_num at hD100
    have hexp : pB.x + (pB.x - pA.x) / S * P - (pA.x - (pB.x - pA.x) / S * P)
        = (pB.x - pA.x) * (S + 2 * P) / S := by
      field_simp
      ring
    have hexp2 : pB.y + (pB.y - pA.y) / S * P - (pA.y - (pB.y - pA.y) / S * P)
        = (pB.y - pA.y) * (S + 2 * P) / S := by
      field_simp
      ring
    rw [hexp, hexp2]
    exact c2_grow_far _ _ _ _ hpge hD100 hDup

theorem finalSweepLoop_two (ops : Ops) (hs : SqrtSpec ops.sqrt)
    (szs gsz : JMap String Sz)
    (hs1 : szs.get "n1" = some ⟨180, 50⟩) (hs2 : szs.get "n2" = some ⟨180, 50⟩) :
    ∀ (fuel : ℕ) (m : JMap String Pt) (pA pB : Pt),
      m.get "n1" = some pA → m.get "n2" = some pB →
      (34900 : ℚ) ≤ (pB.x - pA.x) * (pB.x - pA.x) + (pB.y - pA.y) * (pB.y - pA.y)
        + 1250 * fuel →
      ∃ pA' pB',
        (finalSweepLoop ops szs gsz ["n1", "n2"] [] fuel m).get "n1" = some pA'
        ∧ (finalSweepLoop ops szs gsz ["n1", "n2"] [] fuel m).get "n2" = some pB'
        ∧ ¬ sweepOverlap pA' ⟨180, 50⟩ pB' ⟨180, 50⟩ := by
  intro fuel
  induction fuel with
  | zero =>
      intro m pA pB hA hB hq
      refine ⟨pA, pB, hA, hB, ?_⟩
      intro hov
      have hlt := c2_overlap_bound pA pB hov
      push_cast at hq
      linarith
  | succ n ih =>
      intro m pA pB hA hB hq
      rw [show finalSweepLoop ops szs gsz ["n1", "n2"] [] (n + 1) m
        = (let r := finalSweepPass ops szs gsz ["n1", "n2"] [] m;
           if r.2 then finalSweepLoop ops szs gsz ["n1", "n2"] [] n r.1 else r.1) from rfl]
      dsimp only
      rw [finalSweepPass_two ops szs gsz m pA pB hA hB hs1 hs2]
      by_cases hov : 0 < min (pA.x + 180) (pB.x + 180) - max pA.x pB.x
          ∧ 0 < min (pA.y + 50) (pB.y + 50) - max pA.y pB.y
      · rw [if_pos hov]
        dsimp only
        have hA1 : ((m.vset "n1" (nnPush ops.sqrt pA pB).1).vset "n2"
              (nnPush ops.sqrt pA pB).2).get "n1" = some (nnPush ops.sqrt pA pB).1 := by
          rw [JMap.get_vset_ne _ _ _ _ (by decide)]
          exact JMap.get_vset_of_get m "n1" _ pA hA
        have hB1 : ((m.vset "n1" (nnPush ops.sqrt pA pB).1).vset "n2"
              (nnPush ops.sqrt pA pB).2).get "n2" = some (nnPush ops.sqrt pA pB).2 := by
          refine JMap.get_vset_of_get _ "n2" _ pB ?_
          rw [JMap.get_vset_ne _ _ _ _ (by decide)]
          exact hB
        have hgrow := c2_grow ops.sqrt hs pA pB hov.1 hov.2
        refine ih _ _ _ hA1 hB1 ?_
        push_cast at hq ⊢
        linarith
      · rw [if_neg hov]
        dsimp only
        refine ⟨pA, pB, hA, hB, ?_⟩
        intro hovS
        exact hov hovS

set_option maxRecDepth 1000000 in
set_option maxHeartbeats 4000000 in
unseal Rat.add Rat.mul Rat.sub Rat.inv in
theorem c2_shape (ops : Ops) :
    ∃ f : String → Pt,
      (computeAutoLayout ops (fun _ => ⟨180, 50⟩) [c2N1, c2N2] [c2Edge] c2Opts).positions
        = finalSweepLoop ops c2Szs JMap.empty ["n1", "n2"] [] 50 ⟨["n1", "n2"], f⟩
      ∧ (computeAutoLayout ops (fun _ => ⟨180, 50⟩) [c2N1, c2N2] [c2Edge] c2Opts).edgeHandles
        = radialEdgeHandles c2NodeMap ["n1", "n2"] [c2Edge] c2Szs JMap.empty
            (finalSweepLoop ops c2Szs JMap.empty ["n1", "n2"] [] 50 ⟨["n1", "n2"], f⟩)
      ∧ (computeAutoLayout ops (fun _ => ⟨180, 50⟩) [c2N1, c2N2] [c2Edge]
            c2Opts).nodeColors.get "n1" = some "#3b82f6"
      ∧ (computeAutoLayout ops (fun _ => ⟨180, 50⟩) [c2N1, c2N2] [c2Edge]
            c2Opts).nodeColors.get "n2" = some "#3b82f6" :=
  ⟨_, rfl, rfl, rfl, rfl⟩

/-- C2: for the two-node scenario (ungrouped plain nodes n1 and n2 of size
180 × 50 joined by one tree edge, radial mode, no groups, no viewport),
for every float library whose square root meets the factor-two contract:
the returned positions hold both nodes and their rectangles do not
mutually overlap, edgeHandles maps the edge to the handle pair of the 16
combinations minimising the squared handle-point distance, and nodeColors
maps both nodes to the default plain-node color #3b82f6 (hub-rank score 1,
below the lowest tier threshold 2). -/
theorem c2_two_node (ops : Ops) (hs : SqrtSpec ops.sqrt) :
    ∃ pA pB : Pt,
      (computeAutoLayout ops (fun _ => ⟨180, 50⟩) [c2N1, c2N2] [c2Edge]
          c2Opts).positions.get "n1" = some pA
      ∧ (computeAutoLayout ops (fun _ => ⟨180, 50⟩) [c2N1, c2N2] [c2Edge]
          c2Opts).positions.get "n2" = some pB
      ∧ ¬ sweepOverlap pA ⟨180, 50⟩ pB ⟨180, 50⟩
      ∧ (computeAutoLayout ops (fun _ => ⟨180, 50⟩) [c2N1, c2N2] [c2Edge]
          c2Opts).edgeHandles.get "e1"
        = some (getShortestHandles pA ⟨180, 50⟩ pB ⟨180, 50⟩)
      ∧ (∀ pr ∈ handlePairs,
          handleDistSq pA ⟨180, 50⟩ pB ⟨180, 50⟩
              (getShortestHandles pA ⟨180, 50⟩ pB ⟨180, 50⟩)
            ≤ handleDistSq pA ⟨180, 50⟩ pB ⟨180, 50⟩ pr)
      ∧ (computeAutoLayout ops (fun _ => ⟨180, 50⟩) [c2N1, c2N2] [c2Edge]
          c2Opts).nodeColors.get "n1" = some "#3b82f6"
      ∧ (computeAutoLayout ops (fun _ => ⟨180, 50⟩) [c2N1, c2N2] [c2Edge]
          c2Opts).nodeColors.get "n2" = some "#3b82f6" := by
  obtain ⟨f, hpos, heh, hc1, hc2⟩ := c2_shape ops
  have hA0 : (⟨["n1", "n2"], f⟩ : JMap String Pt).get "n1" = some (f "n1") := rfl
  have hB0 : (⟨["n1", "n2"], f⟩ : JMap String Pt).get "n2" = some (f "n2") := rfl
  have hsz1 : c2Szs.get "n1" = some ⟨180, 50⟩ := rfl
  have hsz2 : c2Szs.get "n2" = some ⟨180, 50⟩ := rfl
  obtain ⟨pA, pB, hA, hB, hno⟩ :=
    finalSweepLoop_two ops hs c2Szs JMap.empty hsz1 hsz2 50 ⟨["n1", "n2"], f⟩
      (f "n1") (f "n2") hA0 hB0 (by
        push_cast
        linarith [mul_self_nonneg ((f "n2").x - (f "n1").x),
          mul_self_nonneg ((f "n2").y - (f "n1").y)])
  set L := finalSweepLoop ops c2Szs JMap.empty ["n1", "n2"] [] 50
    (⟨["n1", "n2"], f⟩ : JMap String Pt) with hL
  have hkeys : L.keys = ["n1", "n2"] :=
    finalSweepLoop_keys ops c2Szs JMap.empty ["n1", "n2"] [] 50 ⟨["n1", "n2"], f⟩
  have heta : L = ⟨["n1", "n2"], L.val⟩ := by
    have h1 : L = ⟨L.keys, L.val⟩ := rfl
    rw [hkeys] at h1
    exact h1
  have hA' : L.get "n1" = some (L.val "n1") := by
    rw [heta]
    rfl
  have hB' : L.get "n2" = some (L.val "n2") := by
    rw [heta]
    rfl
  have hpAval : pA = L.val "n1" := by
    have := hA.symm.trans hA'
    injection this
  have hpBval : pB = L.val "n2" := by
    have := hB.symm.trans hB'
    injection this
  refine ⟨pA, pB, ?_, ?_, hno, ?_, ?_, hc1, hc2⟩
  · rw [hpos]
    exact hA
  · rw [hpos]
    exact hB
  · rw [heh, heta, hpAval, hpBval]
    rfl
  · exact fun pr hpr => (getShortestHandles_min pA ⟨180, 50⟩ pB ⟨180, 50⟩).2 pr hpr

theorem ratSqrt_spec : SqrtSpec ratSqrt := by
  intro q hq
  rw [ratSqrt]
  by_cases h0 : q ≤ 0
  · rw [if_pos h0]
    have hq0 : q = 0 := le_antisymm h0 hq
    subst hq0
    norm_num
  · rw [if_neg h0]
    push_neg at h0
    have hdpos : 0 < q.den := q.den_pos
    have hnpos : 0 < q.num.toNat := by
      have := Rat.num_pos.mpr h0
      omega
    have hm1 : 10000 ≤ q.num.toNat * q.den * 10000 := by
      calc (10000 : ℕ) = 1 * 1 * 10000 := by norm_num
      _ ≤ q.num.toNat * q.den * 10000 :=
          Nat.mul_le_mul (Nat.mul_le_mul hnpos hdpos) le_rfl
    have hk1 : Nat.sqrt (q.num.toNat * q.den * 10000) ^ 2 ≤ q.num.toNat * q.den * 10000 :=
      Nat.sqrt_le' _
    have hk2 : q.num.toNat * q.den * 10000 < (Nat.sqrt (q.num.toNat * q.den * 10000) + 1) ^ 2 :=
      Nat.lt_succ_sqrt' _
    have hk100 : 100 ≤ Nat.sqrt (q.num.toNat * q.den * 10000) := by
      by_contra hcon
      push_neg at hcon
      have : (Nat.sqrt (q.num.toNat * q.den * 10000) + 1) ^ 2 ≤ 100 ^ 2 :=
        Nat.pow_le_pow_left (by omega) 2
      omega
    have h2k : q.num.toNat * q.den * 10000 ≤ 2 * Nat.sqrt (q.num.toNat * q.den * 10000) ^ 2 := by
      nlinarith [hk1, hk2, hk100]
    -- cast to ℚ
    have hqd : (q.num.toNat : ℚ) = q * (q.den : ℚ) := by
      have h1 : ((q.num.toNat : ℚ)) = ((q.num : ℤ) : ℚ) := by
        exact_mod_cast congrArg (fun z : ℤ => (z : ℚ))
          (Int.toNat_of_nonneg (le_of_lt (Rat.num_pos.mpr h0)))
      rw [h1, ← Rat.mul_den_eq_num q]
    have c1 : (Nat.sqrt (q.num.toNat * q.den * 10000) : ℚ)
          * (Nat.sqrt (q.num.toNat * q.den * 10000) : ℚ)
        ≤ (q.num.toNat : ℚ) * (q.den : ℚ) * 10000 := by
      have h2 := hk1
      rw [pow_two] at h2
      exact_mod_cast h2
    have c2 : (q.num.toNat : ℚ) * (q.den : ℚ) * 10000
        ≤ 2 * ((Nat.sqrt (q.num.toNat * q.den * 10000) : ℚ)
          * (Nat.sqrt (q.num.toNat * q.den * 10000) : ℚ)) := by
      have h2 := h2k
      rw [pow_two] at h2
      exact_mod_cast h2
    rw [hqd] at c1 c2
    have hd0 : (0:ℚ) ≤ (q.den : ℚ) := by positivity
    have hdq : (1:ℚ) ≤ (q.den : ℚ) := by exact_mod_cast hdpos
    refine ⟨by positivity, ?_, ?_⟩
    · rw [div_mul_div_comm, div_le_iff (by positivity : (0:ℚ) < 100 * (q.den:ℚ) * (100 * (q.den:ℚ)))]
      nlinarith [mul_nonneg (mul_nonneg hq hd0) hd0]
    · rw [div_mul_div_comm]
      have h2d : (2:ℚ) * ((Nat.sqrt (q.num.toNat * q.den * 10000) : ℚ)
              * (Nat.sqrt (q.num.toNat * q.den * 10000) : ℚ)
            / (100 * (q.den : ℚ) * (100 * (q.den : ℚ))))
          = (2 * ((Nat.sqrt (q.num.toNat * q.den * 10000) : ℚ)
              * (Nat.sqrt (q.num.toNat * q.den * 10000) : ℚ)))
            / (100 * (q.den : ℚ) * (100 * (q.den : ℚ))) := by ring
      rw [h2d, le_div_iff (by positivity : (0:ℚ) < 100 * (q.den:ℚ) * (100 * (q.den:ℚ)))]
      nlinarith [c2]

theorem c2_two_node_witness :
    SqrtSpec ratOps.sqrt
    ∧ ∃ pA pB : Pt,
      (computeAutoLayout ratOps (fun _ => ⟨180, 50⟩) [c2N1, c2N2] [c2Edge]
          c2Opts).positions.get "n1" = some pA
      ∧ (computeAutoLayout ratOps (fun _ => ⟨180, 50⟩) [c2N1, c2N2] [c2Edge]
          c2Opts).positions.get "n2" = some pB
      ∧ ¬ sweepOverlap pA ⟨180, 50⟩ pB ⟨180, 50⟩
      ∧ (computeAutoLayout ratOps (fun _ => ⟨180, 50⟩) [c2N1, c2N2] [c2Edge]
          c2Opts).edgeHandles.get "e1"
        = some (getShortestHandles pA ⟨180, 50⟩ pB ⟨180, 50⟩)
      ∧ (∀ pr ∈ handlePairs,
          handleDistSq pA ⟨180, 50⟩ pB ⟨180, 50⟩
              (getShortestHandles pA ⟨180, 50⟩ pB ⟨180, 50⟩)
            ≤ handleDistSq pA ⟨180, 50⟩ pB ⟨180, 50⟩ pr)
      ∧ (computeAutoLayout ratOps (fun _ => ⟨180, 50⟩) [c2N1, c2N2] [c2Edge]
          c2Opts).nodeColors.get "n1" = some "#3b82f6"
      ∧ (computeAutoLayout ratOps (fun _ => ⟨180, 50⟩) [c2N1, c2N2] [c2Edge]
          c2Opts).nodeColors.get "n2" = some "#3b82f6" :=
  ⟨ratSqrt_spec, c2_two_node ratOps ratSqrt_spec⟩
